import Mathlib

/-!
Verification of webgl-shooter: progression, collisions, entities and the orchestrator

A shallow embedding of `src/game/LevelManager.js`, `src/game/CollisionManager.js`,
`src/game/Enemy.js`, `src/game/Bullet.js`, `src/game/Player.js`, `src/input/InputManager.js`
and of the frame update, the collision pass, the shooting and the spawning of
`src/game/Game.js`.

Numbers are exact: scores, coordinates and radii are rationals, counters are integers.
Rounding of IEEE doubles is not modelled. The non-finite values a JavaScript division or
a distance query can produce (`Infinity`, `-Infinity`, `NaN`) are modelled explicitly
where the source can produce them. What the runtime supplies (`Math.sqrt` used as a value,
the trigonometric functions, `Math.random`) enters as a parameter. Vectors, meshes and
bullets take their number type as a parameter, so that the constructor of a bullet is also
read over the reals, with the real square root for `Math.sqrt`.
-/

namespace WebglShooter

/-! ## JavaScript values used by the embedded code -/

/-- Reading `xs[i]` on a JavaScript array: `undefined` (here `none`) outside `0 .. length-1`. -/
def arrayGet {α : Type} (xs : List α) (i : ℤ) : Option α :=
  if i < 0 then none else xs.get? i.toNat

/-- A JavaScript number as far as the embedded code can tell the cases apart:
a finite value, one of the two infinities, or `NaN`. -/
inductive JSNumber where
  | finite (q : ℚ)
  | posInf
  | negInf
  | nan
deriving DecidableEq

/-- The quotient `a / b` of two finite numbers. The divisor in the embedded code is a
difference `x - y`, so a zero divisor is `+0`: the quotient is then `Infinity`, `-Infinity`
or `NaN` according to the sign of the dividend. -/
def jsDiv (a b : ℚ) : JSNumber :=
  if b = 0 then
    if 0 < a then .posInf else if a < 0 then .negInf else .nan
  else .finite (a / b)

/-- Model of `Math.max(a, b)`: `NaN` if either argument is `NaN`. -/
def mathMax : JSNumber → JSNumber → JSNumber
  | .nan, _ => .nan
  | _, .nan => .nan
  | .posInf, _ => .posInf
  | _, .posInf => .posInf
  | .negInf, b => b
  | a, .negInf => a
  | .finite a, .finite b => .finite (max a b)

/-- Model of `Math.min(a, b)`: `NaN` if either argument is `NaN`. -/
def mathMin : JSNumber → JSNumber → JSNumber
  | .nan, _ => .nan
  | _, .nan => .nan
  | .negInf, _ => .negInf
  | _, .negInf => .negInf
  | .posInf, b => b
  | a, .posInf => a
  | .finite a, .finite b => .finite (min a b)

/-- The result of a call that can end in a `TypeError`. -/
inductive Completion (α : Type) where
  | returned (value : α)
  | typeError
deriving DecidableEq

/-! ## LevelManager -/

/-- One entry of `LevelManager.levels`. -/
structure LevelDescriptor where
  level : ℕ
  requiredScore : ℕ
  enemySpawnRate : ℚ
  enemySpeed : ℚ
  enemyHealth : ℕ
  enemyDamage : ℕ
  maxEnemies : ℕ
  color : ℕ
deriving DecidableEq

/-- The loop body of `generateFibonacciSequence`: `sequence.push(sequence[i-1] + sequence[i-2])`.
Both reads are inside the array whenever the loop runs (`fibLoop_length`). -/
def fibPush (sequence : List ℕ) (i : ℕ) : List ℕ :=
  sequence ++ [sequence.getD (i - 1) 0 + sequence.getD (i - 2) 0]

/-- Method `LevelManager.generateFibonacciSequence(n)`: start from `[1, 1]` and run the body for
`i = 2, 3, ..., n - 1`. -/
def generateFibonacciSequence (n : ℕ) : List ℕ :=
  (List.range' 2 (n - 2)).foldl fibPush [1, 1]

/-- The palette of `getLevelColor`. -/
def colors : List ℕ :=
  [0xff0000, 0xff6600, 0xffcc00, 0x00ff00, 0x00ccff, 0x9900ff, 0xff00ff, 0x000000]

/-- Method `LevelManager.getLevelColor(level)`: `colors[Math.min(level - 1, colors.length - 1)]`.
The only caller passes `index + 1`, so `level - 1` is never negative. -/
def getLevelColor (level : ℕ) : ℕ :=
  colors.getD (min (level - 1) (colors.length - 1)) 0

/-- The object literal built for one `(fibNumber, index)` pair in `generateLevels`. -/
def makeLevel (fibNumber index : ℕ) : LevelDescriptor where
  level := index + 1
  requiredScore := fibNumber * 10
  enemySpawnRate := max (1 / 2) (3 - (index : ℚ) * (1 / 5))
  enemySpeed := 2 + (index : ℚ) * (1 / 2)
  enemyHealth := 100 + index * 20
  enemyDamage := 20 + index * 5
  maxEnemies := 5 + index / 2
  color := getLevelColor (index + 1)

/-- Method `LevelManager.generateLevels()`, reading `this.fibonacciSequence`: a `forEach` over the
sequence with its index, pushing one descriptor per element. -/
def generateLevels (fibonacciSequence : List ℕ) : List LevelDescriptor :=
  fibonacciSequence.enum.foldl (fun levels p => levels ++ [makeLevel p.2 p.1]) []

/-- The field `fibonacciSequence` set by the constructor. -/
def fibonacciSequence : List ℕ := generateFibonacciSequence 20

/-- The field `levels` set by the constructor. No method writes it afterwards. -/
def levels : List LevelDescriptor := generateLevels fibonacciSequence

/-- The mutable fields of a `LevelManager`. The two callback fields record whether a
handler is installed (`null` is `false`). -/
structure LevelManager where
  currentLevel : ℤ
  score : ℚ
  onLevelUp : Bool
  onScoreUpdate : Bool
deriving DecidableEq

/-- The state after the constructor: level 1, score 0, no handlers. -/
def LevelManager.new : LevelManager :=
  { currentLevel := 1, score := 0, onLevelUp := false, onScoreUpdate := false }

/-- A handler invocation made by a method, with its arguments. -/
inductive Callback where
  | scoreUpdate (score : ℚ)
  | levelUp (level : ℤ) (levelData : Option LevelDescriptor)
deriving DecidableEq

/-- What a method call leaves behind: the state, the handler invocations in order, and
whether the call ended in a `TypeError` (reading a property of `undefined`). -/
structure Outcome where
  state : LevelManager
  calls : List Callback
  threw : Bool
deriving DecidableEq

/-- Method `LevelManager.getCurrentLevelData()`: `this.levels[this.currentLevel - 1]`. -/
def getCurrentLevelData (s : LevelManager) : Option LevelDescriptor :=
  arrayGet levels (s.currentLevel - 1)

/-- Method `LevelManager.levelUp()`. -/
def levelUp (s : LevelManager) : Outcome :=
  if s.currentLevel < (levels.length : ℤ) then
    let s1 := { s with currentLevel := s.currentLevel + 1 }
    if s1.onLevelUp then
      { state := s1, calls := [Callback.levelUp s1.currentLevel (getCurrentLevelData s1)],
        threw := false }
    else { state := s1, calls := [], threw := false }
  else { state := s, calls := [], threw := false }

/-- Method `LevelManager.checkLevelUp()`. When `levels[currentLevel - 1]` is `undefined`, reading
its `requiredScore` throws. -/
def checkLevelUp (s : LevelManager) : Outcome :=
  match arrayGet levels (s.currentLevel - 1) with
  | none => { state := s, calls := [], threw := true }
  | some currentLevelData =>
    if s.score ≥ (currentLevelData.requiredScore : ℚ) then levelUp s
    else { state := s, calls := [], threw := false }

/-- Method `LevelManager.addScore(points)`. -/
def addScore (s : LevelManager) (points : ℚ) : Outcome :=
  let s1 := { s with score := s.score + points }
  let c1 := if s1.onScoreUpdate then [Callback.scoreUpdate s1.score] else []
  let r := checkLevelUp s1
  { state := r.state, calls := c1 ++ r.calls, threw := r.threw }

/-- Method `LevelManager.getRequiredScoreForNextLevel()`; the returned `none` is `null`. -/
def getRequiredScoreForNextLevel (s : LevelManager) : Completion (Option ℕ) :=
  if s.currentLevel < (levels.length : ℤ) then
    match arrayGet levels s.currentLevel with
    | none => .typeError
    | some nextLevelData => .returned (some nextLevelData.requiredScore)
  else .returned none

/-- Method `LevelManager.getProgressToNextLevel()`. The call throws when the current descriptor
is `undefined` while the next one exists. -/
def getProgressToNextLevel (s : LevelManager) : Completion JSNumber :=
  let currentLevelData := getCurrentLevelData s
  let nextLevelData := arrayGet levels s.currentLevel
  match nextLevelData with
  | none => .returned (.finite 1)
  | some next =>
    match currentLevelData with
    | none => .typeError
    | some current =>
      let currentLevelScore : ℚ := current.requiredScore
      let nextLevelScore : ℚ := next.requiredScore
      let scoreInCurrentLevel := s.score - currentLevelScore
      let scoreNeededForNextLevel := nextLevelScore - currentLevelScore
      .returned (mathMin (.finite 1)
        (mathMax (.finite 0) (jsDiv scoreInCurrentLevel scoreNeededForNextLevel)))

/-- Whether a handler invocation is a call of `onLevelUp`. -/
def Callback.isLevelUp : Callback → Bool
  | .levelUp _ _ => true
  | .scoreUpdate _ => false

/-- States reachable from a fresh manager (level 1, score 0, any handlers installed) by
`addScore` calls with non-negative points. -/
inductive Reachable : LevelManager → Prop where
  | init (s : LevelManager) : s.currentLevel = 1 → s.score = 0 → Reachable s
  | step (s : LevelManager) (points : ℚ) :
      Reachable s → 0 ≤ points → Reachable (addScore s points).state

/-- The state after a sequence of `addScore` calls, one per entry of `points`. -/
def addScores (s : LevelManager) (points : List ℚ) : LevelManager :=
  points.foldl (fun st p => (addScore st p).state) s

/-! ## CollisionManager -/

/-- A position (`THREE.Vector3`), with exact coordinates in the number type `K`: the game
state uses the rationals, and the constructors that take a square root are also read over
the reals, with the real square root. -/
structure Vector3 (K : Type) where
  x : K
  y : K
  z : K
deriving DecidableEq

/-- A mesh, of which the collision code reads only `position`. -/
structure Mesh (K : Type) where
  position : Vector3 K
deriving DecidableEq

/-- A game object as `getClosestObject` sees it: its `mesh` field, which entities
initialise to `null` before their mesh is built. -/
structure GameObject where
  mesh : Option (Mesh ℚ)
deriving DecidableEq

/-- The radicand `dx*dx + dy*dy + dz*dz` of `Vector3.distanceTo`. -/
def Vector3.distanceToSquared (a v : Vector3 ℚ) : ℚ :=
  let dx := a.x - v.x
  let dy := a.y - v.y
  let dz := a.z - v.z
  dx * dx + dy * dy + dz * dz

/-- A distance value: `sqrt radicand` stands for `Math.sqrt(radicand)`, kept exact by
storing the radicand, and `infinity` for the `Infinity` that `getDistance` returns. -/
inductive Distance where
  | sqrt (radicand : ℚ)
  | infinity
deriving DecidableEq

/-- Method `Vector3.distanceTo(v)`: `Math.sqrt(dx*dx + dy*dy + dz*dz)`. -/
def Vector3.distanceTo (a v : Vector3 ℚ) : Distance :=
  .sqrt (a.distanceToSquared v)

/-- The comparison `distance <= bound` against a finite number: for a radicand `q ≥ 0`,
`Math.sqrt(q) <= r` means `0 ≤ r` and `q ≤ r * r`; `Infinity` is below no finite number. -/
def Distance.le (d : Distance) (bound : ℚ) : Bool :=
  match d with
  | .sqrt q => decide (0 ≤ q ∧ 0 ≤ bound ∧ q ≤ bound * bound)
  | .infinity => false

/-- The comparison `d1 < d2` of two distance values. -/
def Distance.lt (d1 d2 : Distance) : Bool :=
  match d1, d2 with
  | .sqrt a, .sqrt b => decide (0 ≤ a ∧ 0 ≤ b ∧ a < b)
  | .sqrt a, .infinity => decide (0 ≤ a)
  | .infinity, _ => false

/-- The field of a `CollisionManager`. -/
structure CollisionManager where
  collisionDistance : ℚ
deriving DecidableEq

/-- The constructor sets `collisionDistance = 1.0`. -/
def CollisionManager.new : CollisionManager := { collisionDistance := 1 }

/-- Method `CollisionManager.checkCollision(mesh1, mesh2)`; `none` is a `null` mesh. -/
def checkCollision (this : CollisionManager) (mesh1 mesh2 : Option (Mesh ℚ)) : Bool :=
  match mesh1, mesh2 with
  | some m1, some m2 =>
    let distance := m1.position.distanceTo m2.position
    distance.le this.collisionDistance
  | _, _ => false

/-- Method `CollisionManager.checkCollisionWithRadius(mesh1, mesh2, radius1 = 0.5, radius2 = 0.5)`;
an omitted radius is `none`. -/
def checkCollisionWithRadius (mesh1 mesh2 : Option (Mesh ℚ)) (radius1 radius2 : Option ℚ) : Bool :=
  match mesh1, mesh2 with
  | some m1, some m2 =>
    let distance := m1.position.distanceTo m2.position
    let combinedRadius := radius1.getD (1 / 2) + radius2.getD (1 / 2)
    distance.le combinedRadius
  | _, _ => false

/-- Method `CollisionManager.checkPointCollision(point, mesh, radius = 0.5)`. Only `mesh` is
guarded; with a mesh present, `point.distanceTo` on a `null` point throws. -/
def checkPointCollision (point : Option (Vector3 ℚ)) (mesh : Option (Mesh ℚ)) (radius : Option ℚ) :
    Completion Bool :=
  match mesh with
  | none => .returned false
  | some m =>
    match point with
    | none => .typeError
    | some p =>
      let distance := p.distanceTo m.position
      .returned (distance.le (radius.getD (1 / 2)))

/-- Method `CollisionManager.getDistance(mesh1, mesh2)`. -/
def getDistance (mesh1 mesh2 : Option (Mesh ℚ)) : Distance :=
  match mesh1, mesh2 with
  | some m1, some m2 => m1.position.distanceTo m2.position
  | _, _ => .infinity

/-- Method `CollisionManager.isWithinRange(mesh1, mesh2, range)` for a finite `range`. -/
def isWithinRange (mesh1 mesh2 : Option (Mesh ℚ)) (range : ℚ) : Bool :=
  let distance := getDistance mesh1 mesh2
  distance.le range

/-- The callback of the `forEach` in `getClosestObject`, acting on the two captured
variables `(closestObject, closestDistance)`. -/
def closestStep (referenceMesh : Option (Mesh ℚ)) (acc : Option GameObject × Distance)
    (object : GameObject) : Option GameObject × Distance :=
  let distance := getDistance referenceMesh object.mesh
  if distance.lt acc.2 then (some object, distance) else acc

/-- Method `CollisionManager.getClosestObject(referenceMesh, objectList)`; `none` is `null`, for
the arguments and for the result. -/
def getClosestObject (referenceMesh : Option (Mesh ℚ)) (objectList : Option (List GameObject)) :
    Option GameObject :=
  match referenceMesh, objectList with
  | none, _ => none
  | some _, none => none
  | some _, some [] => none
  | some r, some l => (l.foldl (closestStep (some r)) (none, Distance.infinity)).1

/-! ## Vector arithmetic

The methods of `THREE.Vector3` that the entities call, as the `Vector3` of
`src/test/setup.js` defines them. A square root that is used as a value (the length that
`normalize` divides by) is the value `Math.sqrt` returned: the function `sqrt` is a
parameter of the model. -/

/-- Method `Vector3.add(v)`. -/
def Vector3.add {K : Type} [Add K] (a v : Vector3 K) : Vector3 K :=
  { x := a.x + v.x, y := a.y + v.y, z := a.z + v.z }

/-- Method `Vector3.subVectors(v1, v2)`: the difference `v1 - v2`. -/
def Vector3.subVectors (v1 v2 : Vector3 ℚ) : Vector3 ℚ :=
  { x := v1.x - v2.x, y := v1.y - v2.y, z := v1.z - v2.z }

/-- Method `Vector3.multiplyScalar(s)`. -/
def Vector3.multiplyScalar {K : Type} [Mul K] (a : Vector3 K) (scalar : K) : Vector3 K :=
  { x := a.x * scalar, y := a.y * scalar, z := a.z * scalar }

/-- The radicand `x*x + y*y + z*z` of `Vector3.length`. -/
def Vector3.lengthSquared {K : Type} [Add K] [Mul K] (a : Vector3 K) : K :=
  a.x * a.x + a.y * a.y + a.z * a.z

/-- Method `Vector3.length()`, as a distance value for comparisons. -/
def Vector3.length (a : Vector3 ℚ) : Distance :=
  .sqrt a.lengthSquared

/-- The arithmetic of `Vector3.normalize()` on the three coordinates: divide by the
length when it is positive, else leave them as they are. It is written over any ordered
field with a square-root function, so that it can be read over the rationals of the model
and over the reals. -/
def normalizeCoords {K : Type} [LinearOrderedField K] (sqrt : K → K) (x y z : K) :
    K × K × K :=
  let length := sqrt (x * x + y * y + z * z)
  if length > 0 then (x / length, y / length, z / length) else (x, y, z)

/-- Method `Vector3.normalize()`. -/
def Vector3.normalize {K : Type} [LinearOrderedField K] (sqrt : K → K) (a : Vector3 K) :
    Vector3 K :=
  let n := normalizeCoords sqrt a.x a.y a.z
  { x := n.1, y := n.2.1, z := n.2.2 }

/-- The comparison `distance > bound` against a finite number: for a radicand `q ≥ 0`,
`Math.sqrt(q) > r` means `r < 0` or `r * r < q`; `Infinity` exceeds every finite number. -/
def Distance.gt (d : Distance) (bound : ℚ) : Bool :=
  match d with
  | .sqrt q => decide (0 ≤ q ∧ (bound < 0 ∨ bound * bound < q))
  | .infinity => true

/-- The JavaScript `a || b` on numbers: `b` when `a` is zero, else `a`. -/
def jsOr {α : Type} [Zero α] [DecidableEq α] (a b : α) : α :=
  if a = 0 then b else a

/-! ## Enemy

Fields used for rendering only (rotation, material colour, shadows) are left out, and
with them `faceTarget` and the colour flash of `takeDamage`. -/

/-- The values of `Enemy.state`. -/
inductive EnemyState where
  | patrol
  | chase
  | attack
deriving DecidableEq

/-- The fields of an `Enemy`. The constructor always builds the mesh, so `mesh` is
present; `patrolDirection` is `undefined` (here `none`) until the first patrol. -/
structure Enemy where
  baseSpeed : ℚ
  baseHealth : ℚ
  baseDamage : ℚ
  detectionRange : ℚ
  attackRange : ℚ
  speed : ℚ
  health : ℚ
  damage : ℚ
  color : ℕ
  mesh : Mesh ℚ
  target : Option (Vector3 ℚ)
  state : EnemyState
  maxHealth : ℚ
  patrolDirection : Option (Vector3 ℚ)
  patrolTimer : ℚ
deriving DecidableEq

/-- The constructor `new Enemy(levelData = null)`. The mesh starts at the origin. -/
def Enemy.new (levelData : Option LevelDescriptor) : Enemy :=
  let baseSpeed : ℚ := 3
  let baseHealth : ℚ := 80
  let baseDamage : ℚ := 25
  let speed := match levelData with
    | some d => jsOr d.enemySpeed baseSpeed
    | none => baseSpeed
  let health := match levelData with
    | some d => jsOr (d.enemyHealth : ℚ) baseHealth
    | none => baseHealth
  let damage := match levelData with
    | some d => jsOr (d.enemyDamage : ℚ) baseDamage
    | none => baseDamage
  let color := match levelData with
    | some d => jsOr d.color 0xff0000
    | none => 0xff0000
  { baseSpeed := baseSpeed, baseHealth := baseHealth, baseDamage := baseDamage,
    detectionRange := 15, attackRange := 2,
    speed := speed, health := health, damage := damage, color := color,
    mesh := { position := { x := 0, y := 0, z := 0 } },
    target := none, state := EnemyState.patrol, maxHealth := health,
    patrolDirection := none, patrolTimer := 0 }

/-- The two numbers `Math.random()` returns when a patrol direction is drawn at one of
the two places of `patrol` that draw one. -/
structure PatrolDraws where
  first1 : ℚ
  first2 : ℚ
  turn1 : ℚ
  turn2 : ℚ

/-- The vector `new Vector3((r1 - 0.5) * 2, 0, (r2 - 0.5) * 2).normalize()`. -/
def randomDirection (sqrt : ℚ → ℚ) (r1 r2 : ℚ) : Vector3 ℚ :=
  Vector3.normalize sqrt { x := (r1 - 1 / 2) * 2, y := 0, z := (r2 - 1 / 2) * 2 }

/-- Method `Enemy.chase(deltaTime)`. -/
def Enemy.chase (sqrt : ℚ → ℚ) (e : Enemy) (deltaTime : ℚ) : Enemy :=
  match e.target with
  | none => e
  | some target =>
    let direction := Vector3.normalize sqrt (Vector3.subVectors target e.mesh.position)
    let movement := direction.multiplyScalar (e.speed * deltaTime)
    let moved := e.mesh.position.add movement
    { e with mesh := { position := { moved with y := 1 } } }

/-- Method `Enemy.patrol(deltaTime)`. The pairs `first` and `turned` hold the fields
`(patrolDirection, patrolTimer)` after the first and after the second `if`. -/
def Enemy.patrol (sqrt : ℚ → ℚ) (draws : PatrolDraws) (e : Enemy) (deltaTime : ℚ) : Enemy :=
  let first : Vector3 ℚ × ℚ := match e.patrolDirection with
    | none => (randomDirection sqrt draws.first1 draws.first2, 0)
    | some patrolDirection => (patrolDirection, e.patrolTimer)
  let patrolTimer := first.2 + deltaTime
  let turned : Vector3 ℚ × ℚ :=
    if patrolTimer > 3 then (randomDirection sqrt draws.turn1 draws.turn2, 0)
    else (first.1, patrolTimer)
  let movement := turned.1.multiplyScalar (e.speed * (1 / 2) * deltaTime)
  let moved := e.mesh.position.add movement
  let grounded : Vector3 ℚ := { moved with y := 1 }
  let maxDistance : ℚ := 50
  let position :=
    if grounded.length.gt maxDistance then
      (Vector3.normalize sqrt grounded).multiplyScalar maxDistance
    else grounded
  { e with patrolDirection := some turned.1, patrolTimer := turned.2,
           mesh := { position := position } }

/-- Method `Enemy.attack()`: an empty body. -/
def Enemy.attack (e : Enemy) : Enemy := e

/-- Method `Enemy.update(deltaTime, playerPosition)`; `none` is a `null` position. -/
def Enemy.update (sqrt : ℚ → ℚ) (draws : PatrolDraws) (e : Enemy) (deltaTime : ℚ)
    (playerPosition : Option (Vector3 ℚ)) : Enemy :=
  let e1 := { e with target := playerPosition }
  match e1.target with
  | some target =>
    let distanceToPlayer := e1.mesh.position.distanceTo target
    if distanceToPlayer.le e1.attackRange then
      Enemy.attack { e1 with state := EnemyState.attack }
    else if distanceToPlayer.le e1.detectionRange then
      Enemy.chase sqrt { e1 with state := EnemyState.chase } deltaTime
    else
      Enemy.patrol sqrt draws { e1 with state := EnemyState.patrol } deltaTime
  | none => Enemy.patrol sqrt draws e1 deltaTime

/-- Method `Enemy.takeDamage(amount)`: the enemy afterwards and the returned flag. -/
def Enemy.takeDamage (e : Enemy) (amount : ℚ) : Enemy × Bool :=
  let e1 := { e with health := e.health - amount }
  (e1, decide (e1.health ≤ 0))

/-- The enemy after a sequence of `takeDamage` calls, one per entry of `amounts`. -/
def Enemy.takeDamages (e : Enemy) (amounts : List ℚ) : Enemy :=
  amounts.foldl (fun en a => (en.takeDamage a).1) e

/-! ## Bullet

The rotation of the mesh, a visual effect, is left out. -/

/-- The fields of a `Bullet`, over the number type `K`. -/
structure Bullet (K : Type) where
  speed : K
  lifetime : K
  damage : K
  mesh : Mesh K
  direction : Vector3 K
  age : K
deriving DecidableEq

/-- The constructor `new Bullet(startPosition, direction)`, with `sqrt` for the
`Math.sqrt` inside `normalize`. -/
def Bullet.new {K : Type} [LinearOrderedField K] (sqrt : K → K)
    (startPosition direction : Vector3 K) : Bullet K :=
  { speed := 50, lifetime := 3, damage := 50,
    mesh := { position := startPosition },
    direction := Vector3.normalize sqrt direction,
    age := 0 }

/-- Method `Bullet.update(deltaTime)`. -/
def Bullet.update {K : Type} [Add K] [Mul K] (b : Bullet K) (deltaTime : K) : Bullet K :=
  let b1 := { b with age := b.age + deltaTime }
  let movement := b1.direction.multiplyScalar (b1.speed * deltaTime)
  { b1 with mesh := { position := b1.mesh.position.add movement } }

/-- Method `Bullet.shouldRemove()`. -/
def Bullet.shouldRemove (b : Bullet ℚ) : Bool :=
  decide (b.age ≥ b.lifetime)

/-! ## Player

The fields that the orchestrator reads, and the movement of the player. -/

/-- The fields of a `Player`. -/
structure Player where
  speed : ℚ
  rotationSpeed : ℚ
  mouseSensitivity : ℚ
  mesh : Mesh ℚ
  direction : Vector3 ℚ
  velocity : Vector3 ℚ
deriving DecidableEq

/-- The constructor `new Player()`. -/
def Player.new : Player :=
  { speed := 15, rotationSpeed := 1 / 500, mouseSensitivity := 1 / 200,
    mesh := { position := { x := 0, y := 1, z := 0 } },
    direction := { x := 0, y := 0, z := -1 },
    velocity := { x := 0, y := 0, z := 0 } }

/-- Method `Player.getLookDirection()`: a copy of `direction`. -/
def Player.getLookDirection (p : Player) : Vector3 ℚ := p.direction

/-- Method `Player.getPosition()`: a copy of the position of the mesh. -/
def Player.getPosition (p : Player) : Vector3 ℚ := p.mesh.position

/-! ## Input and movement of the player

`Math.sin`, `Math.cos`, `Math.asin`, `Math.atan2` and `Math.PI` are supplied by the
runtime; they enter as the parameter `trig`, like `sqrt`. -/

/-- The pending mouse movement of an `InputManager`. -/
structure MouseMovement where
  x : ℚ
  y : ℚ
deriving DecidableEq

/-- The fields of an `InputManager` that the game reads: `keys` lists the names whose
entry in the object `keys` holds `true`. -/
structure InputManager where
  keys : List String
  mouseMovement : MouseMovement
deriving DecidableEq

/-- The constructor `new InputManager()`. -/
def InputManager.new : InputManager :=
  { keys := [], mouseMovement := { x := 0, y := 0 } }

/-- The call `key.toLowerCase()`, character by character. -/
def toLowerCase (key : String) : String :=
  String.mk (key.data.map Char.toLower)

/-- Method `InputManager.isKeyPressed(key)`: `this.keys[key.toLowerCase()] || false`. -/
def InputManager.isKeyPressed (input : InputManager) (key : String) : Bool :=
  decide (toLowerCase key ∈ input.keys)

/-- Method `InputManager.getMouseMovement()`: the pending movement, which is reset. -/
def InputManager.getMouseMovement (input : InputManager) : MouseMovement × InputManager :=
  (input.mouseMovement, { input with mouseMovement := { x := 0, y := 0 } })

/-- The trigonometric functions of the runtime. -/
structure Trig where
  sin : ℚ → ℚ
  cos : ℚ → ℚ
  asin : ℚ → ℚ
  atan2 : ℚ → ℚ → ℚ
  pi : ℚ

/-- Method `Vector3.crossVectors(a, b)`. -/
def Vector3.crossVectors (a b : Vector3 ℚ) : Vector3 ℚ :=
  { x := a.y * b.z - a.z * b.y,
    y := a.z * b.x - a.x * b.z,
    z := a.x * b.y - a.y * b.x }

/-- The call `v.applyMatrix4(m)` for the matrix of `makeRotationY(theta)`, given the
cosine and the sine of `theta`. -/
def Vector3.applyRotationY (v : Vector3 ℚ) (cosTheta sinTheta : ℚ) : Vector3 ℚ :=
  { x := cosTheta * v.x + sinTheta * v.z,
    y := v.y,
    z := -sinTheta * v.x + cosTheta * v.z }

/-- The vector `moveVector` that `handleMovement` builds from the held keys. -/
def Player.moveVector (sqrt : ℚ → ℚ) (p : Player) (clampedDeltaTime : ℚ)
    (input : InputManager) : Vector3 ℚ :=
  let zero : Vector3 ℚ := { x := 0, y := 0, z := 0 }
  let m1 :=
    if input.isKeyPressed "w" || input.isKeyPressed "W" then
      zero.add (p.direction.multiplyScalar (p.speed * clampedDeltaTime))
    else zero
  let m2 :=
    if input.isKeyPressed "s" || input.isKeyPressed "S" then
      m1.add (p.direction.multiplyScalar (-p.speed * clampedDeltaTime))
    else m1
  let rightVector :=
    Vector3.normalize sqrt (Vector3.crossVectors p.direction { x := 0, y := 1, z := 0 })
  let m3 :=
    if input.isKeyPressed "a" || input.isKeyPressed "A" then
      m2.add (rightVector.multiplyScalar (-p.speed * clampedDeltaTime))
    else m2
  if input.isKeyPressed "d" || input.isKeyPressed "D" then
    m3.add (rightVector.multiplyScalar (p.speed * clampedDeltaTime))
  else m3

/-- Method `Player.handleMovement(deltaTime, inputManager)`. -/
def Player.handleMovement (sqrt : ℚ → ℚ) (p : Player) (deltaTime : ℚ)
    (input : InputManager) : Player :=
  let clampedDeltaTime := min deltaTime (33 / 1000)
  let moveVector := p.moveVector sqrt clampedDeltaTime input
  let position :=
    if moveVector.length.gt 0 then p.mesh.position.add moveVector else p.mesh.position
  { p with mesh := { position := { position with y := 1 } } }

/-- Method `Player.getYaw()`. -/
def Player.getYaw (trig : Trig) (p : Player) : ℚ :=
  trig.atan2 p.direction.x p.direction.z

/-- Method `Player.handleRotation(inputManager)`; the input manager is returned with its
mouse movement reset. -/
def Player.handleRotation (trig : Trig) (sqrt : ℚ → ℚ) (p : Player) (input : InputManager) :
    Player × InputManager :=
  let read := input.getMouseMovement
  let mouseMovement := read.1
  if mouseMovement.x ≠ 0 ∨ mouseMovement.y ≠ 0 then
    let theta := -mouseMovement.x * p.mouseSensitivity
    let p1 := { p with direction := p.direction.applyRotationY (trig.cos theta) (trig.sin theta) }
    let currentPitch := trig.asin p1.direction.y
    let newPitch := currentPitch - mouseMovement.y * p1.mouseSensitivity
    let clampedPitch := max (-trig.pi / (11 / 5)) (min (trig.pi / (11 / 5)) newPitch)
    let horizontalLength := trig.cos clampedPitch
    let p2 := { p1 with
      direction := { p1.direction with x := trig.sin (p1.getYaw trig) * horizontalLength } }
    let p3 := { p2 with
      direction := { p2.direction with z := trig.cos (p2.getYaw trig) * horizontalLength } }
    let p4 := { p3 with direction := { p3.direction with y := trig.sin clampedPitch } }
    ({ p4 with direction := Vector3.normalize sqrt p4.direction }, read.2)
  else (p, read.2)

/-- Method `Player.update(deltaTime, inputManager)`. -/
def Player.update (trig : Trig) (sqrt : ℚ → ℚ) (p : Player) (deltaTime : ℚ)
    (input : InputManager) : Player × InputManager :=
  (p.handleMovement sqrt deltaTime input).handleRotation trig sqrt input

/-! ## Game

The orchestrator. Calls into the audio manager, the UI manager and the four callback
fields are recorded, in order, in the field `events`; pending `setTimeout` callbacks are
kept in the field `timers`. The scene graph, the renderer and the clock are left out. -/

/-- The sound names passed to `audioManager.playSound`. -/
inductive Sound where
  | shoot
  | empty
  | enemyHit
  | playerHit
  | levelUp
deriving DecidableEq

/-- The texts passed to `uiManager.showMessage`. -/
inductive Message where
  | levelReached (level : ℤ)
  | mapBoundaryReached
deriving DecidableEq

/-- A call that leaves the orchestrator. -/
inductive GameEvent where
  | playSound (name : Sound)
  | showMessage (message : Message) (duration : ℚ)
  | hideMapBoundaries
  | showBoundaryWarning (visible : Bool)
  | updateMovementStatus (position : Vector3 ℚ)
  | scoreUpdate (score : ℚ)
  | healthUpdate (health : ℚ)
  | ammoUpdate (ammo : ℤ)
  | gameOver (score : ℚ)
deriving DecidableEq

/-- The deferred callbacks of the orchestrator. -/
inductive TimerCallback where
  | reload
  | initialSpawn
  | spawnEnemy
deriving DecidableEq

/-- A pending `setTimeout(callback, delay)`. -/
structure Timer where
  callback : TimerCallback
  delay : ℚ
deriving DecidableEq

/-- The fields of a `Game`. The four callback fields record whether a handler is
installed. -/
structure Game where
  player : Player
  inputManager : InputManager
  cameraPosition : Vector3 ℚ
  enemies : List Enemy
  bullets : List (Bullet ℚ)
  collisionManager : CollisionManager
  levelManager : LevelManager
  health : ℚ
  ammo : ℤ
  maxAmmo : ℤ
  isGameOver : Bool
  onScoreUpdate : Bool
  onHealthUpdate : Bool
  onAmmoUpdate : Bool
  onGameOver : Bool
  timers : List Timer
  events : List GameEvent
deriving DecidableEq

/-- The state after `new Game()`: `setupLevelManager` installs both handlers of the level
manager, the camera is at `(0, 2, 5)`. -/
def Game.new : Game :=
  { player := Player.new,
    inputManager := InputManager.new,
    cameraPosition := { x := 0, y := 2, z := 5 },
    enemies := [], bullets := [],
    collisionManager := CollisionManager.new,
    levelManager := { LevelManager.new with onLevelUp := true, onScoreUpdate := true },
    health := 100, ammo := 30, maxAmmo := 30, isGameOver := false,
    onScoreUpdate := false, onHealthUpdate := false, onAmmoUpdate := false,
    onGameOver := false,
    timers := [], events := [] }

/-- Record calls that leave the orchestrator. -/
def Game.emit (g : Game) (calls : List GameEvent) : Game :=
  { g with events := g.events ++ calls }

/-- Sequencing of calls that can throw: a `TypeError` ends the run. -/
def Completion.andThen {α β : Type} (c : Completion α) (f : α → Completion β) :
    Completion β :=
  match c with
  | .returned a => f a
  | .typeError => .typeError

/-- The loop of `array.forEach(callback)`: the indices `0 .. length - 1`, with `length`
read once before the loop, are visited in order. The step reads the array as it is at
that moment and skips an index that is no longer inside it. -/
def forEachIndex {σ : Type} (length : ℕ) (step : ℕ → σ → σ) (s : σ) : σ :=
  (List.range' 0 length).foldl (fun st index => step index st) s

/-- Method `Game.updateHealth()`. -/
def Game.updateHealth (g : Game) : Game :=
  if g.onHealthUpdate then g.emit [GameEvent.healthUpdate g.health] else g

/-- Method `Game.updateAmmo()`. -/
def Game.updateAmmo (g : Game) : Game :=
  if g.onAmmoUpdate then g.emit [GameEvent.ammoUpdate g.ammo] else g

/-- Method `Game.endGame()`. -/
def Game.endGame (g : Game) : Game :=
  let g1 := { g with isGameOver := true }
  let g2 := g1.emit [GameEvent.hideMapBoundaries]
  if g2.onGameOver then g2.emit [GameEvent.gameOver g2.levelManager.score] else g2

/-- Method `Game.handleLevelUp(level, levelData)`: the message and the sound (the sky
colour is rendering). -/
def Game.handleLevelUp (g : Game) (level : ℤ) : Game :=
  g.emit [GameEvent.showMessage (Message.levelReached level) 3000,
    GameEvent.playSound Sound.levelUp]

/-- The two handlers that `setupLevelManager` installs on the level manager. -/
def Game.levelManagerCallback (g : Game) : Callback → Game
  | .scoreUpdate score => if g.onScoreUpdate then g.emit [GameEvent.scoreUpdate score] else g
  | .levelUp level _ => g.handleLevelUp level

/-- The call `this.levelManager.addScore(points)` with the handlers it triggers. -/
def Game.levelManagerAddScore (g : Game) (points : ℚ) : Completion Game :=
  let r := addScore g.levelManager points
  let g1 := r.calls.foldl Game.levelManagerCallback { g with levelManager := r.state }
  if r.threw then .typeError else .returned g1

/-- The body of the inner callback of `checkCollisions`, for the bullet of the outer
callback and one enemy. -/
def Game.bulletHitsEnemy (g : Game) (bullet : Bullet ℚ) (bulletIndex : ℕ) (enemy : Enemy)
    (enemyIndex : ℕ) : Completion Game :=
  if checkCollision g.collisionManager (some bullet.mesh) (some enemy.mesh) then
    (g.levelManagerAddScore 10).andThen fun g1 =>
      let g2 := { g1 with bullets := g1.bullets.eraseIdx bulletIndex }
      let g3 := { g2 with enemies := g2.enemies.eraseIdx enemyIndex }
      .returned (g3.emit [GameEvent.playSound Sound.enemyHit])
  else .returned g

/-- The outer callback of the bullet loop of `checkCollisions`: the inner `forEach` over
`this.enemies` for one bullet. -/
def Game.bulletCallback (g : Game) (bullet : Bullet ℚ) (bulletIndex : ℕ) : Completion Game :=
  forEachIndex g.enemies.length
    (fun enemyIndex acc => acc.andThen fun g1 =>
      match g1.enemies[enemyIndex]? with
      | none => .returned g1
      | some enemy => g1.bulletHitsEnemy bullet bulletIndex enemy enemyIndex)
    (.returned g)

/-- The first loop of `Game.checkCollisions()`: bullets against enemies. -/
def Game.checkBulletEnemyCollisions (g : Game) : Completion Game :=
  forEachIndex g.bullets.length
    (fun bulletIndex acc => acc.andThen fun g1 =>
      match g1.bullets[bulletIndex]? with
      | none => .returned g1
      | some bullet => g1.bulletCallback bullet bulletIndex)
    (.returned g)

/-- The callback of the second loop of `checkCollisions`, for one enemy. -/
def Game.playerHitByEnemy (g : Game) (enemy : Enemy) (index : ℕ) : Game :=
  if checkCollision g.collisionManager (some g.player.mesh) (some enemy.mesh) then
    let g1 := { g with health := g.health - enemy.damage }
    let g2 := g1.updateHealth
    let g3 := { g2 with enemies := g2.enemies.eraseIdx index }
    let g4 := g3.emit [GameEvent.playSound Sound.playerHit]
    if g4.health ≤ 0 then g4.endGame else g4
  else g

/-- The calls recorded by one hit of the player: the health update if a handler is
installed, the `playerHit` sound and, when the health has dropped to 0 or below, the calls
of `endGame`. -/
def playerHitEvents (g : Game) (health : ℚ) : List GameEvent :=
  (if g.onHealthUpdate then [GameEvent.healthUpdate health] else [])
    ++ [GameEvent.playSound Sound.playerHit]
    ++ (if health ≤ 0 then
          [GameEvent.hideMapBoundaries]
            ++ (if g.onGameOver then [GameEvent.gameOver g.levelManager.score] else [])
        else [])

/-- Whether a recorded call is a call of `onGameOver`. -/
def GameEvent.isGameOver : GameEvent → Bool
  | .gameOver _ => true
  | _ => false

/-- One visit of the second loop: the index is skipped when it is no longer inside
`this.enemies`, else the callback runs on the enemy found there. -/
def Game.playerEnemyStep (index : ℕ) (g : Game) : Game :=
  match g.enemies[index]? with
  | none => g
  | some enemy => g.playerHitByEnemy enemy index

/-- The second loop of `Game.checkCollisions()`: the player against enemies. -/
def Game.checkPlayerEnemyCollisions (g : Game) : Game :=
  forEachIndex g.enemies.length Game.playerEnemyStep g

/-- Method `Game.checkCollisions()`. -/
def Game.checkCollisions (g : Game) : Completion Game :=
  g.checkBulletEnemyCollisions.andThen fun g1 => .returned g1.checkPlayerEnemyCollisions

/-- Method `Game.shoot()`. -/
def Game.shoot (sqrt : ℚ → ℚ) (g : Game) : Game :=
  if g.ammo ≤ 0 then g.emit [GameEvent.playSound Sound.empty]
  else
    let g1 := { g with ammo := g.ammo - 1 }
    let g2 := g1.updateAmmo
    let bullet := Bullet.new sqrt g2.cameraPosition g2.player.getLookDirection
    let g3 := { g2 with bullets := g2.bullets ++ [bullet] }
    let g4 := g3.emit [GameEvent.playSound Sound.shoot]
    if g4.ammo ≤ 0 then
      { g4 with timers := g4.timers ++ [{ callback := TimerCallback.reload, delay := 1000 }] }
    else g4

/-- The callback that `shoot` defers by one second. -/
def Game.reloadCallback (g : Game) : Game :=
  ({ g with ammo := g.maxAmmo }).updateAmmo

/-- What the runtime supplies to one spawn: the cosine and the sine of the drawn `angle`,
and the two draws of `Math.random()` behind `distance` and `spawnDelay`. -/
structure SpawnDraws where
  cosAngle : ℚ
  sinAngle : ℚ
  distanceDraw : ℚ
  delayDraw : ℚ

/-- The enemy that both spawn callbacks build: `new Enemy(levelData)` set on the ring at
`distance = 20 + Math.random() * 30` from the centre, at height 1. -/
def Game.placeEnemy (draws : SpawnDraws) (levelData : Option LevelDescriptor) : Enemy :=
  let enemy := Enemy.new levelData
  let distance := 20 + draws.distanceDraw * 30
  { enemy with
    mesh := { position :=
      { x := draws.cosAngle * distance, y := 1, z := draws.sinAngle * distance } } }

/-- The callback that `spawnEnemies` defers three times for the initial enemies. -/
def Game.initialSpawnCallback (draws : SpawnDraws) (g : Game) : Game :=
  if !g.isGameOver then
    let levelData := getCurrentLevelData g.levelManager
    { g with enemies := g.enemies ++ [Game.placeEnemy draws levelData] }
  else g

/-- The periodic callback `spawnEnemy` of `spawnEnemies`, which re-arms itself. Reading
`maxEnemies` of a missing descriptor throws. -/
def Game.spawnEnemyCallback (draws : SpawnDraws) (g : Game) : Completion Game :=
  if g.isGameOver then .returned g
  else
    match getCurrentLevelData g.levelManager with
    | none => .typeError
    | some levelData =>
      if g.enemies.length ≥ levelData.maxEnemies then
        .returned { g with
          timers := g.timers ++ [{ callback := TimerCallback.spawnEnemy, delay := 1000 }] }
      else
        let g1 := { g with enemies := g.enemies ++ [Game.placeEnemy draws (some levelData)] }
        let spawnDelay := levelData.enemySpawnRate * 1000 + draws.delayDraw * 500
        .returned { g1 with
          timers := g1.timers ++
            [{ callback := TimerCallback.spawnEnemy, delay := spawnDelay }] }

/-- Method `Game.spawnEnemies()`: three initial spawns half a second apart, and the
periodic spawn after two seconds. -/
def Game.spawnEnemies (g : Game) : Game :=
  { g with
    timers := g.timers ++
      [{ callback := TimerCallback.initialSpawn, delay := 0 },
       { callback := TimerCallback.initialSpawn, delay := 500 },
       { callback := TimerCallback.initialSpawn, delay := 1000 },
       { callback := TimerCallback.spawnEnemy, delay := 2000 }] }

/-- The pending callback at position `i` of `timers` fires. An error thrown inside a
deferred callback ends that callback only. -/
def Game.fireTimer (draws : SpawnDraws) (g : Game) (i : ℕ) : Game :=
  match g.timers[i]? with
  | none => g
  | some timer =>
    let g1 := { g with timers := g.timers.eraseIdx i }
    match timer.callback with
    | .reload => g1.reloadCallback
    | .initialSpawn => g1.initialSpawnCallback draws
    | .spawnEnemy =>
      match g1.spawnEnemyCallback draws with
      | .returned g2 => g2
      | .typeError => g1

/-- States reachable from a fresh game (ammo 30 of 30) by shots, deferred callbacks and
collision passes that return. -/
inductive Game.Reachable : Game → Prop where
  | init (g : Game) : g.ammo = 30 → g.maxAmmo = 30 → Game.Reachable g
  | shoot (sqrt : ℚ → ℚ) (g : Game) : Game.Reachable g → Game.Reachable (g.shoot sqrt)
  | fireTimer (draws : SpawnDraws) (g : Game) (i : ℕ) :
      Game.Reachable g → Game.Reachable (g.fireTimer draws i)
  | checkCollisions (g g1 : Game) :
      Game.Reachable g → g.checkCollisions = .returned g1 → Game.Reachable g1

/-- Method `CollisionManager.checkBulletEnemyCollision(bullet, enemy)`. -/
def checkBulletEnemyCollision (bullet : Bullet ℚ) (enemy : Enemy) : Bool :=
  checkCollisionWithRadius (some bullet.mesh) (some enemy.mesh) (some (1 / 10)) (some (1 / 2))

/-- Method `CollisionManager.checkPlayerEnemyCollision(player, enemy)`. -/
def checkPlayerEnemyCollision (player : Player) (enemy : Enemy) : Bool :=
  checkCollisionWithRadius (some player.mesh) (some enemy.mesh) (some (1 / 2)) (some (1 / 2))

/-- Method `Game.constrainPlayerToMap()`. The pairs carry the coordinate and the flag
`wasConstrained`. -/
def Game.constrainPlayerToMap (g : Game) : Game :=
  let mapSize : ℚ := 80
  let playerPos := g.player.mesh.position
  let constrainedX : ℚ × Bool :=
    if playerPos.x > mapSize then (mapSize, true)
    else if playerPos.x < -mapSize then (-mapSize, true)
    else (playerPos.x, false)
  let constrainedZ : ℚ × Bool :=
    if playerPos.z > mapSize then (mapSize, true)
    else if playerPos.z < -mapSize then (-mapSize, true)
    else (playerPos.z, constrainedX.2)
  let position : Vector3 ℚ := { x := constrainedX.1, y := 1, z := constrainedZ.1 }
  let g1 := { g with player := { g.player with mesh := { position := position } } }
  let g2 :=
    if constrainedZ.2 then
      g1.emit [GameEvent.showMessage Message.mapBoundaryReached 1000]
    else g1
  let warningDistance : ℚ := 10
  if |position.x| > mapSize - warningDistance ∨ |position.z| > mapSize - warningDistance then
    g2.emit [GameEvent.showBoundaryWarning true]
  else g2.emit [GameEvent.showBoundaryWarning false]

/-- What the runtime supplies during one frame: the square root, the trigonometric
functions, and the draws of `Math.random()` for the patrol of the enemy at each index. -/
structure FrameEnv where
  sqrt : ℚ → ℚ
  trig : Trig
  patrol : ℕ → PatrolDraws

/-- One visit of the enemy loop of `Game.update`. -/
def Game.updateEnemyStep (env : FrameEnv) (deltaTime : ℚ) (index : ℕ) (g : Game) : Game :=
  match g.enemies[index]? with
  | none => g
  | some enemy =>
    { g with
      enemies := g.enemies.set index
        (enemy.update env.sqrt (env.patrol index) deltaTime (some g.player.mesh.position)) }

/-- One visit of the bullet loop of `Game.update`: the bullet found at the index is
updated in place and, when it asks for removal, spliced out of `this.bullets`. -/
def Game.updateBulletStep (deltaTime : ℚ) (index : ℕ) (g : Game) : Game :=
  match g.bullets[index]? with
  | none => g
  | some bullet =>
    let updated := bullet.update deltaTime
    let g1 := { g with bullets := g.bullets.set index updated }
    if updated.shouldRemove then { g1 with bullets := g1.bullets.eraseIdx index } else g1

/-- The bullet loop of `Game.update`. -/
def Game.updateBullets (deltaTime : ℚ) (g : Game) : Game :=
  forEachIndex g.bullets.length (Game.updateBulletStep deltaTime) g

/-- The first steps of `Game.update(deltaTime)`: the player, the movement status, the map
boundary and the camera at eye level. -/
def Game.updatePlayer (env : FrameEnv) (g : Game) (deltaTime : ℚ) : Game :=
  let moved := g.player.update env.trig env.sqrt deltaTime g.inputManager
  let g1 := { g with player := moved.1, inputManager := moved.2 }
  let g2 := g1.emit [GameEvent.updateMovementStatus g1.player.getPosition]
  let g3 := g2.constrainPlayerToMap
  let eye := g3.player.mesh.position
  { g3 with cameraPosition := { eye with y := eye.y + 17 / 10 } }

/-- The enemy loop of `Game.update`. -/
def Game.updateEnemies (env : FrameEnv) (g : Game) (deltaTime : ℚ) : Game :=
  forEachIndex g.enemies.length (Game.updateEnemyStep env deltaTime) g

/-- Method `Game.update(deltaTime)`; `updateEnemySpawning` has an empty body. -/
def Game.update (env : FrameEnv) (g : Game) (deltaTime : ℚ) : Completion Game :=
  if g.isGameOver then .returned g
  else
    let g1 := g.updatePlayer env deltaTime
    let g2 := g1.updateEnemies env deltaTime
    let g3 := g2.updateBullets deltaTime
    g3.checkCollisions

/-! ## Theorems: the Fibonacci sequence and the level table -/

/-- The state of the loop of `generateFibonacciSequence` after `k` iterations. -/
theorem fibLoop_succ (k : ℕ) :
    (List.range' 2 (k + 1)).foldl fibPush [1, 1]
      = fibPush ((List.range' 2 k).foldl fibPush [1, 1]) (2 + k) := by
  rw [List.range'_concat, List.foldl_append]
  simp

/-- After `k` iterations the array has `k + 2` elements. -/
theorem fibLoop_length (k : ℕ) : ((List.range' 2 k).foldl fibPush [1, 1]).length = k + 2 := by
  induction k with
  | zero => rfl
  | succ k ih => rw [fibLoop_succ, fibPush, List.length_append, ih]; rfl

/-- Elements already pushed are not changed by later iterations. -/
theorem fibLoop_stable (k i : ℕ) (hi : i < k + 2) :
    ((List.range' 2 (k + 1)).foldl fibPush [1, 1]).getD i 0
      = ((List.range' 2 k).foldl fibPush [1, 1]).getD i 0 := by
  rw [fibLoop_succ, fibPush, List.getD_append _ _ _ _ (by rw [fibLoop_length]; exact hi)]

/-- The loop invariant: the first two elements are 1 and every later one is the sum of
its two predecessors. -/
theorem fibLoop_rec (k : ℕ) :
    ((List.range' 2 k).foldl fibPush [1, 1]).getD 0 0 = 1 ∧
    ((List.range' 2 k).foldl fibPush [1, 1]).getD 1 0 = 1 ∧
    ∀ i, 2 ≤ i → i < k + 2 →
      ((List.range' 2 k).foldl fibPush [1, 1]).getD i 0
        = ((List.range' 2 k).foldl fibPush [1, 1]).getD (i - 1) 0
          + ((List.range' 2 k).foldl fibPush [1, 1]).getD (i - 2) 0 := by
  induction k with
  | zero =>
    refine ⟨rfl, rfl, ?_⟩
    intro i h2 hi
    omega
  | succ k ih =>
    obtain ⟨h0, h1, hrec⟩ := ih
    refine ⟨?_, ?_, ?_⟩
    · rw [fibLoop_stable k 0 (by omega)]; exact h0
    · rw [fibLoop_stable k 1 (by omega)]; exact h1
    · intro i h2 hi
      rw [fibLoop_stable k (i - 1) (by omega), fibLoop_stable k (i - 2) (by omega)]
      by_cases hlt : i < k + 2
      · rw [fibLoop_stable k i hlt]; exact hrec i h2 hlt
      · have hik : i = 2 + k := by omega
        subst hik
        rw [fibLoop_succ, fibPush, List.getD_append_right _ _ _ _ (by rw [fibLoop_length]; omega)]
        have e1 : 2 + k - (k + 2) = 0 := by omega
        simp [fibLoop_length, e1]

/-- C4: for every `n ≥ 2`, `generateFibonacciSequence n` has exactly `n` terms, its first
two terms are 1, and every term at an index `i ≥ 2` is the sum of the terms at `i - 1` and
`i - 2`. -/
theorem generateFibonacciSequence_spec (n : ℕ) (hn : 2 ≤ n) :
    (generateFibonacciSequence n).length = n ∧
    (generateFibonacciSequence n)[0]? = some 1 ∧
    (generateFibonacciSequence n)[1]? = some 1 ∧
    ∀ i, 2 ≤ i → i < n → ∃ a b,
      (generateFibonacciSequence n)[i - 1]? = some a ∧
      (generateFibonacciSequence n)[i - 2]? = some b ∧
      (generateFibonacciSequence n)[i]? = some (a + b) := by
  have hlen : (generateFibonacciSequence n).length = n := by
    unfold generateFibonacciSequence
    rw [fibLoop_length]; omega
  have key : ∀ j, j < n →
      (generateFibonacciSequence n)[j]? = some ((generateFibonacciSequence n).getD j 0) := by
    intro j hj
    rw [List.getD_eq_getElem?_getD, List.getElem?_eq_getElem (by rw [hlen]; exact hj)]
    rfl
  obtain ⟨h0, h1, hrec⟩ := fibLoop_rec (n - 2)
  refine ⟨hlen, ?_, ?_, ?_⟩
  · rw [key 0 (by omega)]; exact congrArg some h0
  · rw [key 1 (by omega)]; exact congrArg some h1
  · intro i h2 hi
    refine ⟨(generateFibonacciSequence n).getD (i - 1) 0,
      (generateFibonacciSequence n).getD (i - 2) 0, key _ (by omega), key _ (by omega), ?_⟩
    rw [key i hi]
    exact congrArg some (hrec i h2 (by omega))

/-- C4 at `n = 20`, the length the constructor asks for. -/
theorem generateFibonacciSequence_spec_witness :
    (generateFibonacciSequence 20).length = 20 ∧
    (generateFibonacciSequence 20)[0]? = some 1 ∧
    (generateFibonacciSequence 20)[1]? = some 1 ∧
    ∀ i, 2 ≤ i → i < 20 → ∃ a b,
      (generateFibonacciSequence 20)[i - 1]? = some a ∧
      (generateFibonacciSequence 20)[i - 2]? = some b ∧
      (generateFibonacciSequence 20)[i]? = some (a + b) :=
  generateFibonacciSequence_spec 20 (by decide)

/-- A `forEach` that pushes one value per element builds the mapped array. -/
theorem foldl_push_eq_map {α β : Type} (g : α → β) (l : List α) (init : List β) :
    l.foldl (fun acc a => acc ++ [g a]) init = init ++ l.map g := by
  induction l generalizing init with
  | nil => simp
  | cons a l ih => simp [ih]

/-- The descriptor at index `i` is built from the Fibonacci number at index `i`. -/
theorem generateLevels_getElem? (fs : List ℕ) (i : ℕ) :
    (generateLevels fs)[i]? = fs[i]?.map (fun f => makeLevel f i) := by
  unfold generateLevels
  rw [foldl_push_eq_map (fun p : ℕ × ℕ => makeLevel p.2 p.1)]
  simp only [List.nil_append, List.getElem?_map, List.getElem?_enum, Option.map_map]
  rfl

/-- The function `generateLevels` returns as many descriptors as there are Fibonacci numbers. -/
theorem generateLevels_length (fs : List ℕ) : (generateLevels fs).length = fs.length := by
  unfold generateLevels
  rw [foldl_push_eq_map (fun p : ℕ × ℕ => makeLevel p.2 p.1)]
  simp

/-- C3: `generateLevels` on the 20-term Fibonacci sequence returns 20 descriptors; the one
at 0-based index `i` has `level = i + 1`, `requiredScore = 10 * fib[i]`,
`enemySpawnRate = max(0.5, 3 - 0.2 i)`, `enemySpeed = 2 + 0.5 i`, `enemyHealth = 100 + 20 i`,
`enemyDamage = 20 + 5 i`, `maxEnemies = 5 + floor(i / 2)` and the colour at index `min(i, 7)`
of the 8-entry palette; the `requiredScore` of levels 1 to 5 is `[10, 10, 20, 30, 50]`. -/
theorem generateLevels_spec :
    (generateLevels (generateFibonacciSequence 20)).length = 20 ∧
    colors.length = 8 ∧
    (∀ i : ℕ, i < 20 → ∃ (d : LevelDescriptor) (fib : ℕ),
      (generateLevels (generateFibonacciSequence 20))[i]? = some d ∧
      (generateFibonacciSequence 20)[i]? = some fib ∧
      d.level = i + 1 ∧
      d.requiredScore = 10 * fib ∧
      d.enemySpawnRate = max (1 / 2) (3 - (1 / 5) * (i : ℚ)) ∧
      d.enemySpeed = 2 + (1 / 2) * (i : ℚ) ∧
      d.enemyHealth = 100 + 20 * i ∧
      d.enemyDamage = 20 + 5 * i ∧
      d.maxEnemies = 5 + i / 2 ∧
      colors[min i 7]? = some d.color) ∧
    ((generateLevels (generateFibonacciSequence 20)).take 5).map LevelDescriptor.requiredScore
      = [10, 10, 20, 30, 50] := by
  have hlen : (generateFibonacciSequence 20).length = 20 := by decide
  refine ⟨by rw [generateLevels_length, hlen], rfl, ?_, by decide⟩
  intro i hi
  have hfib : (generateFibonacciSequence 20)[i]?
      = some ((generateFibonacciSequence 20).get ⟨i, by rw [hlen]; exact hi⟩) :=
    List.getElem?_eq_getElem _
  refine ⟨makeLevel ((generateFibonacciSequence 20).get ⟨i, by rw [hlen]; exact hi⟩) i, _,
    ?_, hfib, rfl, ?_, ?_, ?_, ?_, ?_, rfl, ?_⟩
  · rw [generateLevels_getElem?, hfib]; rfl
  · simp only [makeLevel]; omega
  · simp only [makeLevel]; rw [mul_comm]
  · simp only [makeLevel]; rw [mul_comm]
  · simp only [makeLevel]; omega
  · simp only [makeLevel]; omega
  · have h7 : min i 7 < colors.length := by
      have : colors.length = 8 := rfl
      omega
    simp only [makeLevel, getLevelColor]
    rw [List.getElem?_eq_getElem h7]
    have e : min (i + 1 - 1) (colors.length - 1) = min i 7 := by
      have : colors.length = 8 := rfl
      omega
    rw [e, List.getD_eq_getElem?_getD, List.getElem?_eq_getElem h7]
    rfl

/-! ## Theorems: score and level-up -/

/-- The table has 20 entries. -/
theorem levels_length : levels.length = 20 := by decide

/-- The function `addScore` always leaves `score + points` in the score field. -/
theorem addScore_score (s : LevelManager) (points : ℚ) :
    (addScore s points).state.score = s.score + points := by
  simp only [addScore, checkLevelUp, levelUp]
  split
  · rfl
  · split_ifs <;> rfl

/-- The function `addScore` either keeps the level and calls no `onLevelUp`, or raises it by one, in
which case the score has reached the threshold of the level it leaves, that level is below
20, and `onLevelUp` is called once if it is installed. -/
theorem addScore_cases (s : LevelManager) (points : ℚ) :
    ((addScore s points).state.currentLevel = s.currentLevel ∧
      (addScore s points).calls.filter Callback.isLevelUp = []) ∨
    ((addScore s points).state.currentLevel = s.currentLevel + 1 ∧
      (addScore s points).threw = false ∧
      s.currentLevel < 20 ∧
      (∃ d, arrayGet levels (s.currentLevel - 1) = some d ∧
        (d.requiredScore : ℚ) ≤ s.score + points) ∧
      (addScore s points).calls.filter Callback.isLevelUp =
        if s.onLevelUp then
          [Callback.levelUp (s.currentLevel + 1) (arrayGet levels (s.currentLevel + 1 - 1))]
        else []) := by
  simp only [addScore, checkLevelUp, levelUp, levels_length, getCurrentLevelData]
  split
  · left
    refine ⟨rfl, ?_⟩
    split_ifs <;> simp [Callback.isLevelUp]
  · rename_i d hd
    by_cases hscore : s.score + points ≥ (d.requiredScore : ℚ)
    · by_cases hlt : s.currentLevel < ((20 : ℕ) : ℤ)
      · right
        have hlt2 : s.currentLevel < 20 := by exact_mod_cast hlt
        refine ⟨?_, ?_, hlt2, ⟨d, hd, hscore⟩, ?_⟩
        · simp only [hscore, hlt, if_true]; split_ifs <;> rfl
        · simp only [hscore, hlt, if_true]; split_ifs <;> rfl
        · simp only [hscore, hlt, if_true]
          cases s.onLevelUp <;> cases s.onScoreUpdate <;> simp [Callback.isLevelUp]
      · left
        simp only [hscore, hlt, if_true, if_false, true_and]
        split_ifs <;> simp [Callback.isLevelUp]
    · left
      simp only [hscore, if_false, true_and]
      split_ifs <;> simp [Callback.isLevelUp]

/-- Inside the table, `levels[i]` is defined. -/
theorem arrayGet_levels_some (i : ℤ) (h0 : 0 ≤ i) (h20 : i < 20) :
    ∃ d, arrayGet levels i = some d := by
  have hlt : i.toNat < levels.length := by rw [levels_length]; omega
  refine ⟨levels.get ⟨i.toNat, hlt⟩, ?_⟩
  simp only [arrayGet, not_lt.mpr h0, if_false]
  rw [List.get?_eq_get hlt]

/-- With the level inside the table, `addScore` does not throw. -/
theorem addScore_threw (s : LevelManager) (points : ℚ)
    (h1 : 1 ≤ s.currentLevel) (h20 : s.currentLevel ≤ 20) :
    (addScore s points).threw = false := by
  obtain ⟨d, hd⟩ := arrayGet_levels_some (s.currentLevel - 1) (by omega) (by omega)
  simp only [addScore, checkLevelUp, levelUp, hd]
  split_ifs <;> rfl

/-- C1: from a state with `1 ≤ currentLevel ≤ 20`, `addScore(points)` returns normally,
leaves `currentLevel` unchanged or exactly one larger, and it is one larger only if the new
score is at least the `requiredScore` of the level that was current before the call; from
the initial state `addScore(1000)` yields level 2. -/
theorem addScore_level_one_step (s : LevelManager) (points : ℚ)
    (h1 : 1 ≤ s.currentLevel) (h20 : s.currentLevel ≤ 20) :
    (addScore s points).threw = false ∧
    ((addScore s points).state.currentLevel = s.currentLevel ∨
      (addScore s points).state.currentLevel = s.currentLevel + 1) ∧
    ((addScore s points).state.currentLevel = s.currentLevel + 1 →
      ∃ d, arrayGet levels (s.currentLevel - 1) = some d ∧
        (d.requiredScore : ℚ) ≤ (addScore s points).state.score) ∧
    (addScore LevelManager.new 1000).state.currentLevel = 2 := by
  refine ⟨addScore_threw s points h1 h20, ?_, ?_, ?_⟩
  · rcases addScore_cases s points with h | h
    · exact Or.inl h.1
    · exact Or.inr h.1
  · intro hup
    rcases addScore_cases s points with h | h
    · rw [h.1] at hup; omega
    · obtain ⟨d, hd, hle⟩ := h.2.2.2.1
      exact ⟨d, hd, by rw [addScore_score]; exact hle⟩
  · simp [addScore, checkLevelUp, levelUp, LevelManager.new, arrayGet]
    decide

/-- C1 at the initial state with 1000 points. -/
theorem addScore_level_one_step_witness :
    (1 : ℤ) ≤ LevelManager.new.currentLevel ∧ LevelManager.new.currentLevel ≤ 20 ∧
    (addScore LevelManager.new 1000).threw = false ∧
    ((addScore LevelManager.new 1000).state.currentLevel = LevelManager.new.currentLevel ∨
      (addScore LevelManager.new 1000).state.currentLevel = LevelManager.new.currentLevel + 1) ∧
    ((addScore LevelManager.new 1000).state.currentLevel = LevelManager.new.currentLevel + 1 →
      ∃ d, arrayGet levels (LevelManager.new.currentLevel - 1) = some d ∧
        (d.requiredScore : ℚ) ≤ (addScore LevelManager.new 1000).state.score) ∧
    (addScore LevelManager.new 1000).state.currentLevel = 2 :=
  ⟨by decide, by decide, addScore_level_one_step LevelManager.new 1000 (by decide) (by decide)⟩

/-- C5: `addScore(points)` calls an installed `onLevelUp` handler exactly once, with the new
level number and that level's descriptor, when `currentLevel` increases; it makes no
`onLevelUp` call when `currentLevel` does not change; at level 20 neither the level nor
the handler field changes and no `onLevelUp` call is made, whatever the score. -/
theorem addScore_onLevelUp_once (s : LevelManager) (points : ℚ) :
    ((addScore s points).state.currentLevel ≠ s.currentLevel → s.onLevelUp = true →
      ∃ d, arrayGet levels ((addScore s points).state.currentLevel - 1) = some d ∧
        (addScore s points).calls.filter Callback.isLevelUp
          = [Callback.levelUp (addScore s points).state.currentLevel (some d)]) ∧
    ((addScore s points).state.currentLevel = s.currentLevel →
      (addScore s points).calls.filter Callback.isLevelUp = []) ∧
    (s.currentLevel = 20 →
      (addScore s points).state.currentLevel = 20 ∧
      (addScore s points).state.onLevelUp = s.onLevelUp ∧
      (addScore s points).calls.filter Callback.isLevelUp = []) := by
  refine ⟨?_, ?_, ?_⟩
  · intro hne hon
    rcases addScore_cases s points with h | h
    · exact absurd h.1 hne
    · obtain ⟨hlev, -, hlt, ⟨d0, hd0, -⟩, hcalls⟩ := h
      have hge : 0 ≤ s.currentLevel - 1 := by
        by_contra hneg
        simp [arrayGet, lt_of_not_ge hneg] at hd0
      obtain ⟨d, hd⟩ := arrayGet_levels_some (s.currentLevel + 1 - 1) (by omega) (by omega)
      refine ⟨d, by rw [hlev]; exact hd, ?_⟩
      rw [hcalls, hon, hlev, hd]
      rfl
  · intro heq
    rcases addScore_cases s points with h | h
    · exact h.2
    · rw [h.1] at heq; omega
  · intro h20
    rcases addScore_cases s points with h | h
    · refine ⟨by rw [h.1, h20], ?_, h.2⟩
      simp only [addScore, checkLevelUp, levelUp]
      split
      · rfl
      · split_ifs <;> rfl
    · have := h.2.2.1
      omega

/-- C5 at a fresh manager with an `onLevelUp` handler installed, on a first 10-point kill:
one call, with level 2 and its descriptor. -/
theorem addScore_onLevelUp_once_witness :
    ∃ d, arrayGet levels 1 = some d ∧
      (addScore { LevelManager.new with onLevelUp := true } 10).calls.filter Callback.isLevelUp
        = [Callback.levelUp 2 (some d)] := by
  have hlev : (addScore { LevelManager.new with onLevelUp := true } 10).state.currentLevel
      = 2 := by
    simp [addScore, checkLevelUp, levelUp, LevelManager.new, arrayGet]
    decide
  have h := (addScore_onLevelUp_once { LevelManager.new with onLevelUp := true } 10).1
    (by rw [hlev]; decide) rfl
  rw [hlev] at h
  exact h

/-- C7, refuted as stated: from the initial state `addScore(-5)` leaves a smaller score. -/
theorem addScore_negative_points_lowers_score :
    (addScore LevelManager.new (-5)).state.score < LevelManager.new.score := by
  rw [addScore_score]
  norm_num [LevelManager.new]

/-- C7, amended: for every state and every non-negative `points`, the score after
`addScore(points)` is `score + points` and so is not smaller than the score before. -/
theorem addScore_score_monotone (s : LevelManager) (points : ℚ) (h : 0 ≤ points) :
    (addScore s points).state.score = s.score + points ∧
    s.score ≤ (addScore s points).state.score := by
  refine ⟨addScore_score s points, ?_⟩
  rw [addScore_score]
  linarith

/-- C7 amended, at the 10 points of a kill from the initial state. -/
theorem addScore_score_monotone_witness :
    (0 : ℚ) ≤ 10 ∧
    (addScore LevelManager.new 10).state.score = LevelManager.new.score + 10 ∧
    LevelManager.new.score ≤ (addScore LevelManager.new 10).state.score :=
  ⟨by norm_num, addScore_score_monotone LevelManager.new 10 (by norm_num)⟩

/-! ## Theorems: reachable states and progress -/

/-- A sequence of `addScore` calls with non-negative points stays among the reachable
states. -/
theorem addScores_reachable (points : List ℚ) (hp : ∀ p ∈ points, 0 ≤ p) (s : LevelManager)
    (hs : Reachable s) : Reachable (addScores s points) := by
  induction points generalizing s with
  | nil => exact hs
  | cons p ps ih =>
    exact ih (fun q hq => hp q (List.mem_cons_of_mem _ hq)) _
      (Reachable.step s p hs (hp p (List.mem_cons_self _ _)))

/-- In a reachable state the level is inside the table, and at level 1 the score is still
below the first threshold. -/
theorem reachable_inv (s : LevelManager) (h : Reachable s) :
    1 ≤ s.currentLevel ∧ s.currentLevel ≤ 20 ∧ (s.currentLevel = 1 → s.score < 10) := by
  induction h with
  | init s hl hs => rw [hl, hs]; norm_num
  | step s points _ _ ih =>
    obtain ⟨h1, h20, hlow⟩ := ih
    rcases addScore_cases s points with h | h
    · refine ⟨by rw [h.1]; exact h1, by rw [h.1]; exact h20, ?_⟩
      intro hone
      rw [h.1] at hone
      rw [addScore_score]
      have h0 : arrayGet levels (s.currentLevel - 1) = some (makeLevel 1 0) := by
        rw [hone]; rfl
      by_contra hge
      have hlev : (addScore s points).state.currentLevel = s.currentLevel + 1 := by
        simp only [addScore, checkLevelUp, levelUp, h0, levels_length]
        have hsc : s.score + points ≥ ((makeLevel 1 0).requiredScore : ℚ) := by
          have : ((makeLevel 1 0).requiredScore : ℚ) = 10 := by norm_num [makeLevel]
          rw [this]; exact not_lt.mp hge
        have hlt : s.currentLevel < ((20 : ℕ) : ℤ) := by rw [hone]; norm_num
        simp only [hsc, hlt, if_true]
        split_ifs <;> rfl
      rw [h.1] at hlev
      omega
    · refine ⟨by rw [h.1]; omega, by rw [h.1]; have := h.2.2.1; omega, ?_⟩
      intro hone
      rw [h.1] at hone
      omega

/-- Two neighbouring thresholds: equal to 10 at level 1, strictly increasing from level 2. -/
theorem levels_adjacent (L : ℤ) (h1 : 1 ≤ L) (h19 : L ≤ 19) :
    ∃ c n, arrayGet levels (L - 1) = some c ∧ arrayGet levels L = some n ∧
      (L = 1 → c.requiredScore = 10 ∧ n.requiredScore = 10) ∧
      (2 ≤ L → c.requiredScore < n.requiredScore) := by
  interval_cases L <;> exact ⟨_, _, rfl, rfl, by decide, by decide⟩

/-- The clamp `Math.min(1, Math.max(0, a / b))` is a finite number of `[0, 1]` as soon as a
zero divisor comes with a negative dividend. -/
theorem progress_clamped (a b : ℚ) (h : b = 0 → a < 0) :
    ∃ q, mathMin (.finite 1) (mathMax (.finite 0) (jsDiv a b)) = .finite q ∧
      0 ≤ q ∧ q ≤ 1 := by
  by_cases hb : b = 0
  · have ha := h hb
    refine ⟨0, ?_, le_refl _, by norm_num⟩
    simp [jsDiv, hb, not_lt.mpr ha.le, ha, mathMax, mathMin]
  · refine ⟨min 1 (max 0 (a / b)), ?_, le_min (by norm_num) (le_max_left _ _), min_le_left _ _⟩
    simp [jsDiv, hb, mathMax, mathMin]

/-- C6: in every state reachable from the initial state by `addScore` calls with
non-negative points, `getProgressToNextLevel` returns a finite number of the closed
interval `[0, 1]` (so neither `NaN` nor an infinity, also at level 1 where both thresholds
are 10), and it returns 1 at level 20, the last defined level. -/
theorem getProgressToNextLevel_unit_interval (s : LevelManager) (h : Reachable s) :
    ∃ q : ℚ, getProgressToNextLevel s = .returned (.finite q) ∧ 0 ≤ q ∧ q ≤ 1 ∧
      (s.currentLevel = 20 → q = 1) := by
  obtain ⟨h1, h20, hlow⟩ := reachable_inv s h
  by_cases hlast : s.currentLevel = 20
  · refine ⟨1, ?_, by norm_num, le_refl _, fun _ => rfl⟩
    have hnone : arrayGet levels s.currentLevel = none := by rw [hlast]; rfl
    simp only [getProgressToNextLevel, hnone]
  · obtain ⟨c, n, hc, hn, hone, hinc⟩ := levels_adjacent s.currentLevel h1 (by omega)
    have hdiv : ((n.requiredScore : ℚ) - (c.requiredScore : ℚ) = 0 →
        s.score - (c.requiredScore : ℚ) < 0) := by
      intro hz
      by_cases hl : s.currentLevel = 1
      · have hc10 : ((c.requiredScore : ℕ) : ℚ) = 10 := by rw [(hone hl).1]; norm_num
        rw [hc10]
        linarith [hlow hl]
      · have hlt : ((c.requiredScore : ℕ) : ℚ) < (n.requiredScore : ℚ) := by
          exact_mod_cast hinc (by omega)
        linarith
    obtain ⟨q, hq, hq0, hq1⟩ := progress_clamped _ _ hdiv
    refine ⟨q, ?_, hq0, hq1, fun h => absurd h hlast⟩
    simp only [getProgressToNextLevel, getCurrentLevelData, hc, hn, hq]

/-- C6 at the initial state. -/
theorem getProgressToNextLevel_unit_interval_witness :
    Reachable LevelManager.new ∧
    ∃ q : ℚ, getProgressToNextLevel LevelManager.new = .returned (.finite q) ∧ 0 ≤ q ∧ q ≤ 1 ∧
      (LevelManager.new.currentLevel = 20 → q = 1) :=
  ⟨Reachable.init _ rfl rfl,
    getProgressToNextLevel_unit_interval LevelManager.new (Reachable.init _ rfl rfl)⟩

/-- The state after an `addScore` call that crosses the threshold of a level below 20. -/
theorem addScore_state_of_threshold (L : ℤ) (sc p : ℚ) (a b : Bool) (d : LevelDescriptor)
    (hd : arrayGet levels (L - 1) = some d) (hsc : (d.requiredScore : ℚ) ≤ sc + p)
    (hL : L < 20) :
    (addScore ⟨L, sc, a, b⟩ p).state = ⟨L + 1, sc + p, a, b⟩ := by
  have hlt : L < ((20 : ℕ) : ℤ) := by exact_mod_cast hL
  simp only [addScore, checkLevelUp, levelUp, hd, levels_length, ge_iff_le, hsc, hlt, if_true]
  split_ifs <;> rfl

/-- Three 10-point kills from the initial state lead to level 4 with score 30. -/
theorem three_kills_state :
    addScores LevelManager.new [10, 10, 10] = ⟨4, 30, false, false⟩ := by
  simp only [addScores, List.foldl, LevelManager.new]
  rw [addScore_state_of_threshold 1 0 10 _ _ (makeLevel 1 0) rfl
    (by norm_num [makeLevel]) (by norm_num)]
  rw [addScore_state_of_threshold (1 + 1) (0 + 10) 10 _ _ (makeLevel 1 1) rfl
    (by norm_num [makeLevel]) (by norm_num)]
  rw [addScore_state_of_threshold (1 + 1 + 1) (0 + 10 + 10) 10 _ _ (makeLevel 2 2) rfl
    (by norm_num [makeLevel]) (by norm_num)]
  norm_num

/-- A fourth kill leads to level 5 with score 40. -/
theorem four_kills_state :
    addScores LevelManager.new [10, 10, 10, 10] = ⟨5, 40, false, false⟩ := by
  have h : addScores LevelManager.new [10, 10, 10, 10]
      = (addScore (addScores LevelManager.new [10, 10, 10]) 10).state := rfl
  rw [h, three_kills_state]
  rw [addScore_state_of_threshold 4 30 10 _ _ (makeLevel 3 3) rfl
    (by norm_num [makeLevel]) (by norm_num)]
  norm_num

/-- C2, evaluated at four 10-point kills from the initial state: the state is reachable, at
level 5 with score 40, while `levels[4].requiredScore` is 50; one call earlier (level 4,
score 30) `getRequiredScoreForNextLevel` announced 50 as the score for level 5. -/
theorem four_kills_level_five_below_requiredScore :
    Reachable (addScores LevelManager.new [10, 10, 10, 10]) ∧
    (addScores LevelManager.new [10, 10, 10, 10]).currentLevel = 5 ∧
    (addScores LevelManager.new [10, 10, 10, 10]).score = 40 ∧
    (getCurrentLevelData (addScores LevelManager.new [10, 10, 10, 10])).map
      LevelDescriptor.requiredScore = some 50 ∧
    (addScores LevelManager.new [10, 10, 10]).currentLevel = 4 ∧
    getRequiredScoreForNextLevel (addScores LevelManager.new [10, 10, 10])
      = .returned (some 50) := by
  refine ⟨addScores_reachable _ ?_ _ (Reachable.init _ rfl rfl), ?_, ?_, ?_, ?_, ?_⟩
  · intro p hp
    simp only [List.mem_cons, List.mem_singleton, List.not_mem_nil, or_false] at hp
    rcases hp with h | h | h | h <;> rw [h] <;> norm_num
  · rw [four_kills_state]
  · rw [four_kills_state]
  · rw [four_kills_state]; rfl
  · rw [three_kills_state]
  · rw [three_kills_state]; rfl

/-! ## Theorems: collision queries -/

/-- The radicand of a distance is a sum of squares. -/
theorem distanceToSquared_nonneg (a v : Vector3 ℚ) : 0 ≤ a.distanceToSquared v := by
  simp only [Vector3.distanceToSquared]
  nlinarith [mul_self_nonneg (a.x - v.x), mul_self_nonneg (a.y - v.y),
    mul_self_nonneg (a.z - v.z)]

/-- The radicand does not depend on the order of the two points. -/
theorem distanceToSquared_comm (a v : Vector3 ℚ) :
    a.distanceToSquared v = v.distanceToSquared a := by
  simp only [Vector3.distanceToSquared]
  ring

/-- The exact comparison on radicands is the comparison of the real square root with the
bound. -/
theorem Distance.le_sqrt_iff (q bound : ℚ) (hq : 0 ≤ q) :
    (Distance.sqrt q).le bound = true ↔ Real.sqrt (q : ℝ) ≤ (bound : ℝ) := by
  simp only [Distance.le, decide_eq_true_eq, Real.sqrt_le_iff]
  constructor
  · rintro ⟨-, hb, hle⟩
    refine ⟨by exact_mod_cast hb, ?_⟩
    have : (q : ℝ) ≤ (bound : ℝ) * (bound : ℝ) := by exact_mod_cast hle
    rw [sq]; exact this
  · rintro ⟨hb, hle⟩
    refine ⟨hq, by exact_mod_cast hb, ?_⟩
    rw [sq] at hle
    exact_mod_cast hle

/-- C8: for non-null entities `a`, `b` and radii `r1`, `r2`, `checkCollisionWithRadius` is
true exactly when the Euclidean distance of the two positions is at most `r1 + r2`; an
omitted radius counts as 0.5; and the test is symmetric:
`checkCollisionWithRadius(a, b, r1, r2) = checkCollisionWithRadius(b, a, r2, r1)`. -/
theorem checkCollisionWithRadius_iff_distance (a b : Mesh ℚ) (r1 r2 : ℚ) :
    (checkCollisionWithRadius (some a) (some b) (some r1) (some r2) = true ↔
      Real.sqrt ((((a.position.x - b.position.x) ^ 2 + (a.position.y - b.position.y) ^ 2
        + (a.position.z - b.position.z) ^ 2 : ℚ) : ℝ)) ≤ ((r1 + r2 : ℚ) : ℝ)) ∧
    checkCollisionWithRadius (some a) (some b) (some r1) (some r2)
      = checkCollisionWithRadius (some b) (some a) (some r2) (some r1) ∧
    checkCollisionWithRadius (some a) (some b) none none
      = checkCollisionWithRadius (some a) (some b) (some (1 / 2)) (some (1 / 2)) ∧
    checkCollisionWithRadius (some a) (some b) (some r1) none
      = checkCollisionWithRadius (some a) (some b) (some r1) (some (1 / 2)) := by
  refine ⟨?_, ?_, rfl, rfl⟩
  · have hsq : (a.position.x - b.position.x) ^ 2 + (a.position.y - b.position.y) ^ 2
        + (a.position.z - b.position.z) ^ 2 = a.position.distanceToSquared b.position := by
      simp only [Vector3.distanceToSquared]; ring
    rw [hsq, ← Distance.le_sqrt_iff _ _ (distanceToSquared_nonneg _ _)]
    rfl
  · simp only [checkCollisionWithRadius, Vector3.distanceTo, Option.getD_some]
    rw [distanceToSquared_comm a.position b.position, add_comm r1 r2]

/-- C9, refuted as stated: with a mesh present, a `null` point makes `checkPointCollision`
throw instead of returning `false`. -/
theorem checkPointCollision_null_point_throws :
    checkPointCollision none (some ⟨⟨0, 0, 0⟩⟩) none = Completion.typeError ∧
    checkPointCollision none (some ⟨⟨0, 0, 0⟩⟩) none ≠ Completion.returned false := by
  constructor
  · rfl
  · intro h
    cases h

/-- C9, amended: when either mesh is `null`, `checkCollision` and
`checkCollisionWithRadius` return `false`, `getDistance` returns `Infinity` and
`isWithinRange` returns `false` for every finite range; `checkPointCollision` returns
`false` when its mesh is `null`, whatever the point. None of these calls throws. -/
theorem null_mesh_is_no_collision (this : CollisionManager) (mesh1 mesh2 : Option (Mesh ℚ))
    (point : Option (Vector3 ℚ)) (radius1 radius2 : Option ℚ) (range : ℚ)
    (h : mesh1 = none ∨ mesh2 = none) :
    checkCollision this mesh1 mesh2 = false ∧
    checkCollisionWithRadius mesh1 mesh2 radius1 radius2 = false ∧
    checkPointCollision point none radius1 = Completion.returned false ∧
    getDistance mesh1 mesh2 = Distance.infinity ∧
    isWithinRange mesh1 mesh2 range = false := by
  cases mesh1 <;> cases mesh2 <;>
    simp_all [checkCollision, checkCollisionWithRadius, checkPointCollision, getDistance,
      isWithinRange, Distance.le]

/-- C9 amended, at a `null` first mesh against a mesh at the origin, with a `null` point. -/
theorem null_mesh_is_no_collision_witness :
    checkCollision CollisionManager.new none (some ⟨⟨0, 0, 0⟩⟩) = false ∧
    checkCollisionWithRadius none (some ⟨⟨0, 0, 0⟩⟩) none none = false ∧
    checkPointCollision none none none = Completion.returned false ∧
    getDistance none (some ⟨⟨0, 0, 0⟩⟩) = Distance.infinity ∧
    isWithinRange none (some ⟨⟨0, 0, 0⟩⟩) 1000 = false :=
  null_mesh_is_no_collision CollisionManager.new none (some ⟨⟨0, 0, 0⟩⟩) none none none 1000
    (Or.inl rfl)

/-- One step of the scan keeps its invariant: the held object, if any, is a scanned member
with a mesh whose radicand is stored and is minimal among the scanned members; when no
object is held, the stored distance is `Infinity` and no scanned member has a mesh. -/
theorem closestStep_inv (r : Mesh ℚ) (pre : List GameObject) (acc : Option GameObject × Distance)
    (x : GameObject)
    (hnone : acc.1 = none → acc.2 = Distance.infinity ∧ ∀ y ∈ pre, y.mesh = none)
    (hsome : ∀ o, acc.1 = some o → o ∈ pre ∧ ∃ mo, o.mesh = some mo ∧
      acc.2 = Distance.sqrt (r.position.distanceToSquared mo.position) ∧
      ∀ y ∈ pre, ∀ my, y.mesh = some my →
        r.position.distanceToSquared mo.position ≤ r.position.distanceToSquared my.position) :
    ((closestStep (some r) acc x).1 = none →
      (closestStep (some r) acc x).2 = Distance.infinity ∧ ∀ y ∈ pre ++ [x], y.mesh = none) ∧
    (∀ o, (closestStep (some r) acc x).1 = some o → o ∈ pre ++ [x] ∧ ∃ mo, o.mesh = some mo ∧
      (closestStep (some r) acc x).2 = Distance.sqrt (r.position.distanceToSquared mo.position) ∧
      ∀ y ∈ pre ++ [x], ∀ my, y.mesh = some my →
        r.position.distanceToSquared mo.position ≤ r.position.distanceToSquared my.position) := by
  obtain ⟨best, bestD⟩ := acc
  simp only at hnone hsome
  cases hx : x.mesh with
  | none =>
    have hstep : closestStep (some r) (best, bestD) x = (best, bestD) := by
      simp [closestStep, getDistance, hx, Distance.lt]
    rw [hstep]
    constructor
    · intro hb
      obtain ⟨hd, hall⟩ := hnone hb
      refine ⟨hd, ?_⟩
      intro y hy
      rcases List.mem_append.mp hy with h | h
      · exact hall y h
      · rw [List.mem_singleton.mp h]; exact hx
    · intro o ho
      obtain ⟨hmem, mo, hmo, hd, hmin⟩ := hsome o ho
      refine ⟨List.mem_append_left _ hmem, mo, hmo, hd, ?_⟩
      intro y hy my hmy
      rcases List.mem_append.mp hy with h | h
      · exact hmin y h my hmy
      · rw [List.mem_singleton.mp h, hx] at hmy
        cases hmy
  | some mx =>
    have hnn := distanceToSquared_nonneg r.position mx.position
    cases best with
    | none =>
      obtain ⟨hd, hall⟩ := hnone rfl
      have hstep : closestStep (some r) (none, bestD) x
          = (some x, Distance.sqrt (r.position.distanceToSquared mx.position)) := by
        simp [closestStep, getDistance, hx, hd, Distance.lt, Vector3.distanceTo, hnn]
      rw [hstep]
      constructor
      · intro hb; cases hb
      · intro o ho
        have hox : o = x := by cases ho; rfl
        subst hox
        refine ⟨List.mem_append_right _ (List.mem_singleton.mpr rfl), mx, hx, rfl, ?_⟩
        intro y hy my hmy
        rcases List.mem_append.mp hy with h | h
        · rw [hall y h] at hmy; cases hmy
        · rw [List.mem_singleton.mp h, hx] at hmy
          cases hmy
          exact le_refl _
    | some b =>
      obtain ⟨hmem, mb, hmb, hd, hmin⟩ := hsome b rfl
      have hnb := distanceToSquared_nonneg r.position mb.position
      by_cases hlt : r.position.distanceToSquared mx.position
          < r.position.distanceToSquared mb.position
      · have hstep : closestStep (some r) (some b, bestD) x
            = (some x, Distance.sqrt (r.position.distanceToSquared mx.position)) := by
          simp [closestStep, getDistance, hx, hd, Distance.lt, Vector3.distanceTo, hnn, hnb, hlt]
        rw [hstep]
        constructor
        · intro hb; cases hb
        · intro o ho
          have hox : o = x := by cases ho; rfl
          subst hox
          refine ⟨List.mem_append_right _ (List.mem_singleton.mpr rfl), mx, hx, rfl, ?_⟩
          intro y hy my hmy
          rcases List.mem_append.mp hy with h | h
          · exact le_trans hlt.le (hmin y h my hmy)
          · rw [List.mem_singleton.mp h, hx] at hmy
            cases hmy
            exact le_refl _
      · have hstep : closestStep (some r) (some b, bestD) x = (some b, bestD) := by
          simp [closestStep, getDistance, hx, hd, Distance.lt, Vector3.distanceTo, hlt]
        rw [hstep]
        constructor
        · intro hb; cases hb
        · intro o ho
          have hob : o = b := by cases ho; rfl
          subst hob
          refine ⟨List.mem_append_left _ hmem, mb, hmb, hd, ?_⟩
          intro y hy my hmy
          rcases List.mem_append.mp hy with h | h
          · exact hmin y h my hmy
          · rw [List.mem_singleton.mp h, hx] at hmy
            cases hmy
            exact not_lt.mp hlt

/-- The invariant holds after the whole scan. -/
theorem closestFold_inv (r : Mesh ℚ) (l pre : List GameObject)
    (acc : Option GameObject × Distance)
    (hnone : acc.1 = none → acc.2 = Distance.infinity ∧ ∀ y ∈ pre, y.mesh = none)
    (hsome : ∀ o, acc.1 = some o → o ∈ pre ∧ ∃ mo, o.mesh = some mo ∧
      acc.2 = Distance.sqrt (r.position.distanceToSquared mo.position) ∧
      ∀ y ∈ pre, ∀ my, y.mesh = some my →
        r.position.distanceToSquared mo.position ≤ r.position.distanceToSquared my.position) :
    ((l.foldl (closestStep (some r)) acc).1 = none → ∀ y ∈ pre ++ l, y.mesh = none) ∧
    (∀ o, (l.foldl (closestStep (some r)) acc).1 = some o → o ∈ pre ++ l ∧
      ∃ mo, o.mesh = some mo ∧ ∀ y ∈ pre ++ l, ∀ my, y.mesh = some my →
        r.position.distanceToSquared mo.position ≤ r.position.distanceToSquared my.position) := by
  induction l generalizing pre acc with
  | nil =>
    simp only [List.foldl_nil, List.append_nil]
    refine ⟨fun h => (hnone h).2, ?_⟩
    intro o ho
    obtain ⟨hmem, mo, hmo, -, hmin⟩ := hsome o ho
    exact ⟨hmem, mo, hmo, hmin⟩
  | cons x l ih =>
    obtain ⟨h1, h2⟩ := closestStep_inv r pre acc x hnone hsome
    have := ih (pre ++ [x]) (closestStep (some r) acc x) h1 h2
    simpa only [List.foldl_cons, List.append_assoc, List.singleton_append] using this

/-- With a reference mesh and a list, `getClosestObject` is the first component of the
scan, also for the empty list. -/
theorem getClosestObject_eq_fold (r : Mesh ℚ) (l : List GameObject) :
    getClosestObject (some r) (some l)
      = (l.foldl (closestStep (some r)) (none, Distance.infinity)).1 := by
  cases l <;> rfl

/-- C10, refuted as stated: with a non-null reference and a non-empty list whose only
member has no mesh, `getClosestObject` returns `null`. -/
theorem getClosestObject_null_on_meshless_list :
    (some (Mesh.mk ⟨0, 0, 0⟩)) ≠ none ∧ [GameObject.mk none] ≠ [] ∧
    getClosestObject (some ⟨⟨0, 0, 0⟩⟩) (some [⟨none⟩]) = none := by
  refine ⟨by simp, by simp, rfl⟩

/-- C10, amended: `getClosestObject` returns `null` exactly when the reference is `null`,
the list is `null` or empty, or no member of the list has a mesh; for a non-null reference
and a list with at least one member that has a mesh it returns a member of the list that
has a mesh and whose Euclidean distance to the reference is at most that of every member
with a mesh (members without a mesh are at distance `Infinity`); over members at distances
5, 2 and 10 it returns the one at distance 2. -/
theorem getClosestObject_spec (referenceMesh : Option (Mesh ℚ))
    (objectList : Option (List GameObject)) :
    (getClosestObject referenceMesh objectList = none ↔
      referenceMesh = none ∨ objectList = none ∨ objectList = some [] ∨
        ∃ l, objectList = some l ∧ ∀ y ∈ l, y.mesh = none) ∧
    (∀ r l, referenceMesh = some r → objectList = some l → (∃ y ∈ l, y.mesh ≠ none) →
      ∃ o mo, getClosestObject referenceMesh objectList = some o ∧ o ∈ l ∧ o.mesh = some mo ∧
        ∀ y ∈ l, ∀ my, y.mesh = some my →
          Real.sqrt ((r.position.distanceToSquared mo.position : ℚ) : ℝ)
            ≤ Real.sqrt ((r.position.distanceToSquared my.position : ℚ) : ℝ)) ∧
    getClosestObject (some ⟨⟨0, 0, 0⟩⟩)
        (some [⟨some ⟨⟨5, 0, 0⟩⟩⟩, ⟨some ⟨⟨2, 0, 0⟩⟩⟩, ⟨some ⟨⟨10, 0, 0⟩⟩⟩])
      = some ⟨some ⟨⟨2, 0, 0⟩⟩⟩ := by
  have hfold : ∀ (r : Mesh ℚ) (l : List GameObject),
      (getClosestObject (some r) (some l) = none → ∀ y ∈ l, y.mesh = none) ∧
      (∀ o, getClosestObject (some r) (some l) = some o → o ∈ l ∧
        ∃ mo, o.mesh = some mo ∧ ∀ y ∈ l, ∀ my, y.mesh = some my →
          r.position.distanceToSquared mo.position
            ≤ r.position.distanceToSquared my.position) := by
    intro r l
    rw [getClosestObject_eq_fold]
    have h := closestFold_inv r l [] (none, Distance.infinity)
      (fun _ => ⟨rfl, fun y hy => absurd hy (List.not_mem_nil y)⟩)
      (fun o ho => by cases ho)
    simpa only [List.nil_append] using h
  refine ⟨?_, ?_, ?_⟩
  · constructor
    · intro hnull
      cases referenceMesh with
      | none => exact Or.inl rfl
      | some r =>
        cases objectList with
        | none => exact Or.inr (Or.inl rfl)
        | some l => exact Or.inr (Or.inr (Or.inr ⟨l, rfl, (hfold r l).1 hnull⟩))
    · intro h
      cases referenceMesh with
      | none => rfl
      | some r =>
        cases objectList with
        | none => rfl
        | some l =>
          have hall : ∀ y ∈ l, y.mesh = none := by
            rcases h with h | h | h | ⟨l2, hl2, hall⟩
            · cases h
            · cases h
            · cases h
              intro y hy
              exact absurd hy (List.not_mem_nil y)
            · cases hl2
              exact hall
          cases hres : getClosestObject (some r) (some l) with
          | none => rfl
          | some o =>
            obtain ⟨hmem, mo, hmo, -⟩ := (hfold r l).2 o hres
            rw [hall o hmem] at hmo
            cases hmo
  · intro r l hr hl hex
    subst hr
    subst hl
    cases hres : getClosestObject (some r) (some l) with
    | none =>
      obtain ⟨y, hy, hmesh⟩ := hex
      exact absurd ((hfold r l).1 hres y hy) hmesh
    | some o =>
      obtain ⟨hmem, mo, hmo, hmin⟩ := (hfold r l).2 o hres
      refine ⟨o, mo, rfl, hmem, hmo, ?_⟩
      intro y hy my hmy
      apply Real.sqrt_le_sqrt
      exact_mod_cast hmin y hy my hmy
  · simp [getClosestObject, closestStep, getDistance, Distance.lt, Vector3.distanceTo,
      Vector3.distanceToSquared]
    norm_num

/-- C10 amended, at the origin against members at distances 5, 2 and 10: the returned
member belongs to the list, has a mesh, and is at least as close as every member. -/
theorem getClosestObject_spec_witness :
    ∃ o mo,
      getClosestObject (some ⟨⟨0, 0, 0⟩⟩)
        (some [⟨some ⟨⟨5, 0, 0⟩⟩⟩, ⟨some ⟨⟨2, 0, 0⟩⟩⟩, ⟨some ⟨⟨10, 0, 0⟩⟩⟩]) = some o ∧
      o ∈ [GameObject.mk (some ⟨⟨5, 0, 0⟩⟩), ⟨some ⟨⟨2, 0, 0⟩⟩⟩, ⟨some ⟨⟨10, 0, 0⟩⟩⟩] ∧
      o.mesh = some mo ∧
      ∀ y ∈ [GameObject.mk (some ⟨⟨5, 0, 0⟩⟩), ⟨some ⟨⟨2, 0, 0⟩⟩⟩, ⟨some ⟨⟨10, 0, 0⟩⟩⟩],
        ∀ my, y.mesh = some my →
          Real.sqrt (((Vector3.mk 0 0 0).distanceToSquared mo.position : ℚ) : ℝ)
            ≤ Real.sqrt (((Vector3.mk 0 0 0).distanceToSquared my.position : ℚ) : ℝ) :=
  (getClosestObject_spec (some ⟨⟨0, 0, 0⟩⟩)
    (some [⟨some ⟨⟨5, 0, 0⟩⟩⟩, ⟨some ⟨⟨2, 0, 0⟩⟩⟩, ⟨some ⟨⟨10, 0, 0⟩⟩⟩])).2.1
    ⟨⟨0, 0, 0⟩⟩ _ rfl rfl ⟨_, List.mem_cons_self _ _, by simp⟩

/-! ## Theorems: enemies -/

/-- The exact comparison `>` on radicands is the comparison of the real square root with
the bound. -/
theorem Distance.gt_sqrt_iff (q bound : ℚ) (hq : 0 ≤ q) :
    (Distance.sqrt q).gt bound = true ↔ (bound : ℝ) < Real.sqrt (q : ℝ) := by
  have hle := Distance.le_sqrt_iff q bound hq
  rw [← not_le, ← hle]
  simp only [Distance.gt, Distance.le, decide_eq_true_eq, hq, true_and, not_and, not_le]
  constructor
  · rintro (h | h) hb
    · exact absurd hb (not_le.mpr h)
    · exact h
  · intro h
    by_cases hb : 0 ≤ bound
    · exact Or.inr (h hb)
    · exact Or.inl (not_le.mp hb)

/-- Chasing does not change the state field. -/
theorem chase_state (sqrt : ℚ → ℚ) (e : Enemy) (deltaTime : ℚ) :
    (Enemy.chase sqrt e deltaTime).state = e.state := by
  unfold Enemy.chase
  split <;> rfl

/-- Patrolling does not change the state field. -/
theorem patrol_state (sqrt : ℚ → ℚ) (draws : PatrolDraws) (e : Enemy) (deltaTime : ℚ) :
    (Enemy.patrol sqrt draws e deltaTime).state = e.state := by
  rfl

/-- C11: for every enemy with the ranges the constructor sets (attack 2, detection 15),
whatever its previous state, every `deltaTime` and every non-null player position at
Euclidean distance `d` from the enemy at the start of the call, after `update` the state is
`attack` if `d ≤ 2`, `chase` if `2 < d ≤ 15`, and `patrol` if `d > 15`. -/
theorem enemy_update_state (sqrt : ℚ → ℚ) (draws : PatrolDraws) (e : Enemy) (deltaTime : ℚ)
    (playerPosition : Vector3 ℚ) (ha : e.attackRange = 2) (hd : e.detectionRange = 15) :
    (Real.sqrt ((e.mesh.position.distanceToSquared playerPosition : ℚ) : ℝ) ≤ 2 →
      (Enemy.update sqrt draws e deltaTime (some playerPosition)).state
        = EnemyState.attack) ∧
    (2 < Real.sqrt ((e.mesh.position.distanceToSquared playerPosition : ℚ) : ℝ) →
      Real.sqrt ((e.mesh.position.distanceToSquared playerPosition : ℚ) : ℝ) ≤ 15 →
      (Enemy.update sqrt draws e deltaTime (some playerPosition)).state
        = EnemyState.chase) ∧
    (15 < Real.sqrt ((e.mesh.position.distanceToSquared playerPosition : ℚ) : ℝ) →
      (Enemy.update sqrt draws e deltaTime (some playerPosition)).state
        = EnemyState.patrol) := by
  have hnn := distanceToSquared_nonneg e.mesh.position playerPosition
  have h2 := Distance.le_sqrt_iff (e.mesh.position.distanceToSquared playerPosition) 2 hnn
  have h15 := Distance.le_sqrt_iff (e.mesh.position.distanceToSquared playerPosition) 15 hnn
  have c2 : ((2 : ℚ) : ℝ) = 2 := by norm_num
  have c15 : ((15 : ℚ) : ℝ) = 15 := by norm_num
  rw [c2] at h2
  rw [c15] at h15
  simp only [Enemy.update, Vector3.distanceTo, ha, hd]
  refine ⟨?_, ?_, ?_⟩
  · intro h
    rw [if_pos (h2.mpr h)]
    rfl
  · intro hgt hle
    have hn2 : ¬ (Distance.sqrt (e.mesh.position.distanceToSquared playerPosition)).le 2
        = true := fun hc => absurd (h2.mp hc) (not_le.mpr hgt)
    rw [if_neg hn2, if_pos (h15.mpr hle), chase_state]
  · intro hgt
    have h2lt : (2 : ℝ) < Real.sqrt
        ((e.mesh.position.distanceToSquared playerPosition : ℚ) : ℝ) := by linarith
    have hn2 : ¬ (Distance.sqrt (e.mesh.position.distanceToSquared playerPosition)).le 2
        = true := fun hc => absurd (h2.mp hc) (not_le.mpr h2lt)
    have hn15 : ¬ (Distance.sqrt (e.mesh.position.distanceToSquared playerPosition)).le 15
        = true := fun hc => absurd (h15.mp hc) (not_le.mpr hgt)
    rw [if_neg hn2, if_neg hn15, patrol_state]

/-- C11 at a fresh enemy placed at `(0, 1, 0)` with the player at `(1, 1, 0)`, distance 1:
the state after `update(0.016, player)` is `attack`. -/
theorem enemy_update_state_witness :
    (Enemy.update (fun _ => 1) ⟨0, 0, 0, 0⟩
      { Enemy.new none with mesh := { position := { x := 0, y := 1, z := 0 } } }
      (2 / 125) (some { x := 1, y := 1, z := 0 })).state = EnemyState.attack :=
  (enemy_update_state (fun _ => 1) ⟨0, 0, 0, 0⟩
    { Enemy.new none with mesh := { position := { x := 0, y := 1, z := 0 } } }
    (2 / 125) { x := 1, y := 1, z := 0 } rfl rfl).1
    (by
      have h : (Vector3.distanceToSquared { x := 0, y := 1, z := 0 }
          { x := 1, y := 1, z := 0 } : ℚ) = 1 := by
        norm_num [Vector3.distanceToSquared]
      simp only [h, Rat.cast_one, Real.sqrt_one]
      norm_num)

/-- C12: for every enemy and every amount, `takeDamage(amount)` changes only `health`, to
exactly `health - amount` with no clamp, leaves `maxHealth` unchanged, and returns `true`
exactly when the new health is at most 0; at health 20, `takeDamage(25)` returns `true` and
leaves health -5. -/
theorem enemy_takeDamage_spec (e : Enemy) (amount : ℚ) :
    (e.takeDamage amount).1 = { e with health := e.health - amount } ∧
    (e.takeDamage amount).1.health = e.health - amount ∧
    (e.takeDamage amount).1.maxHealth = e.maxHealth ∧
    ((e.takeDamage amount).2 = true ↔ (e.takeDamage amount).1.health ≤ 0) ∧
    (e.health = 20 → amount = 25 →
      (e.takeDamage amount).2 = true ∧ (e.takeDamage amount).1.health = -5) := by
  refine ⟨rfl, rfl, rfl, ?_, ?_⟩
  · simp [Enemy.takeDamage]
  · intro h20 h25
    simp only [Enemy.takeDamage, h20, h25]
    norm_num

/-- C12 at a fresh enemy whose health was set to 20, hit for 25. -/
theorem enemy_takeDamage_spec_witness :
    ({ Enemy.new none with health := 20 }.takeDamage 25).2 = true ∧
    ({ Enemy.new none with health := 20 }.takeDamage 25).1.health = -5 :=
  (enemy_takeDamage_spec { Enemy.new none with health := 20 } 25).2.2.2.2 rfl rfl

/-- C13, refuted as stated: a fresh enemy (health 80) hit for 100 has negative health. -/
theorem enemy_health_below_zero :
    ((Enemy.new none).takeDamage 100).1.health < 0 := by
  norm_num [Enemy.takeDamage, Enemy.new]

/-- The health after a sequence of hits is the health before minus the total damage, and
`maxHealth` is unchanged. -/
theorem takeDamages_health (amounts : List ℚ) (e : Enemy) :
    (e.takeDamages amounts).health = e.health - amounts.sum ∧
    (e.takeDamages amounts).maxHealth = e.maxHealth := by
  induction amounts generalizing e with
  | nil => simp [Enemy.takeDamages]
  | cons a l ih =>
    have h := ih (e.takeDamage a).1
    simp only [Enemy.takeDamages, List.foldl_cons] at h ⊢
    rw [h.1, h.2]
    simp only [Enemy.takeDamage, List.sum_cons]
    exact ⟨by ring, trivial⟩

/-- C13, amended: every enemy has `0 < health = maxHealth` after construction, with or
without a level descriptor, and after any sequence of `takeDamage` calls with non-negative
amounts its health is `maxHealth` minus the total damage, so at most `maxHealth`, with
`maxHealth` unchanged; the health is not kept above 0. -/
theorem enemy_health_le_maxHealth (levelData : Option LevelDescriptor) (amounts : List ℚ)
    (h : ∀ a ∈ amounts, 0 ≤ a) :
    0 < (Enemy.new levelData).health ∧
    (Enemy.new levelData).health = (Enemy.new levelData).maxHealth ∧
    ((Enemy.new levelData).takeDamages amounts).maxHealth = (Enemy.new levelData).maxHealth ∧
    ((Enemy.new levelData).takeDamages amounts).health
      = (Enemy.new levelData).maxHealth - amounts.sum ∧
    ((Enemy.new levelData).takeDamages amounts).health
      ≤ ((Enemy.new levelData).takeDamages amounts).maxHealth := by
  have hsum : 0 ≤ amounts.sum := List.sum_nonneg h
  obtain ⟨hh, hm⟩ := takeDamages_health amounts (Enemy.new levelData)
  have hpos : 0 < (Enemy.new levelData).health := by
    cases levelData with
    | none => norm_num [Enemy.new]
    | some d =>
      simp only [Enemy.new, jsOr]
      split_ifs with hz
      · norm_num
      · have : (0 : ℚ) ≤ (d.enemyHealth : ℚ) := Nat.cast_nonneg _
        exact lt_of_le_of_ne this (Ne.symm hz)
  have heq : (Enemy.new levelData).health = (Enemy.new levelData).maxHealth := rfl
  refine ⟨hpos, heq, hm, by rw [hh, heq], ?_⟩
  rw [hh, hm, heq]
  linarith

/-- C13 amended, at a fresh enemy hit for 25 and then for 30. -/
theorem enemy_health_le_maxHealth_witness :
    0 < (Enemy.new none).health ∧
    (Enemy.new none).health = (Enemy.new none).maxHealth ∧
    ((Enemy.new none).takeDamages [25, 30]).maxHealth = (Enemy.new none).maxHealth ∧
    ((Enemy.new none).takeDamages [25, 30]).health
      = (Enemy.new none).maxHealth - [(25 : ℚ), 30].sum ∧
    ((Enemy.new none).takeDamages [25, 30]).health
      ≤ ((Enemy.new none).takeDamages [25, 30]).maxHealth :=
  enemy_health_le_maxHealth none [25, 30] (by
    intro a ha
    simp only [List.mem_cons, List.mem_singleton, List.not_mem_nil, or_false] at ha
    rcases ha with h | h <;> rw [h] <;> norm_num)

/-- The descriptor at index `i` of the table is built from the Fibonacci number there. -/
theorem levels_getElem? (i : ℕ) (hi : i < 20) :
    ∃ fib, levels[i]? = some (makeLevel fib i) := by
  have hlen : fibonacciSequence.length = 20 := by decide
  have hfib : fibonacciSequence[i]? = some (fibonacciSequence.get ⟨i, by rw [hlen]; exact hi⟩) :=
    List.getElem?_eq_getElem _
  refine ⟨fibonacciSequence.get ⟨i, by rw [hlen]; exact hi⟩, ?_⟩
  unfold levels
  rw [generateLevels_getElem?, hfib]
  rfl

/-- An enemy built from one of the 20 generated descriptors takes its speed, health,
maximal health and damage from the descriptor; it takes the colour from it for the first
seven levels, and is red (`0xff0000`) for the others, whose palette colour is 0. -/
theorem enemy_new_from_levels (i : ℕ) (hi : i < 20) :
    ∃ d, levels[i]? = some d ∧
      (Enemy.new (some d)).speed = d.enemySpeed ∧
      (Enemy.new (some d)).health = d.enemyHealth ∧
      (Enemy.new (some d)).maxHealth = d.enemyHealth ∧
      (Enemy.new (some d)).damage = d.enemyDamage ∧
      (i < 7 → (Enemy.new (some d)).color = d.color) ∧
      (7 ≤ i → d.color = 0 ∧ (Enemy.new (some d)).color = 0xff0000) := by
  obtain ⟨fib, hfib⟩ := levels_getElem? i hi
  have hspeed : (2 : ℚ) + (i : ℚ) * (1 / 2) ≠ 0 := by
    have : (0 : ℚ) ≤ (i : ℚ) := Nat.cast_nonneg _
    have : (0 : ℚ) < 2 + (i : ℚ) * (1 / 2) := by linarith
    exact ne_of_gt this
  have hhealth : ((100 + i * 20 : ℕ) : ℚ) ≠ 0 := by
    have : 100 + i * 20 ≠ 0 := by omega
    exact_mod_cast this
  have hdamage : ((20 + i * 5 : ℕ) : ℚ) ≠ 0 := by
    have : 20 + i * 5 ≠ 0 := by omega
    exact_mod_cast this
  refine ⟨makeLevel fib i, hfib, ?_, ?_, ?_, ?_, ?_, ?_⟩
  · simp only [Enemy.new, makeLevel, jsOr, if_neg hspeed]
  · simp only [Enemy.new, makeLevel, jsOr, if_neg hhealth]
  · simp only [Enemy.new, makeLevel, jsOr, if_neg hhealth]
  · simp only [Enemy.new, makeLevel, jsOr, if_neg hdamage]
  · intro h7
    simp only [Enemy.new, makeLevel, jsOr]
    interval_cases i <;> decide
  · intro h7
    simp only [Enemy.new, makeLevel, jsOr]
    interval_cases i <;> decide

/-- C14, evaluated at the descriptor of level 8 (index 7): its colour is `0x000000`, and
the enemy built from it has colour `0xff0000`, not the descriptor's; the other four fields
are the descriptor's, and an enemy built without a descriptor has speed 3, health 80 and
damage 25. -/
theorem enemy_color_at_level_eight :
    ∃ d, levels[7]? = some d ∧ d.level = 8 ∧ d.color = 0x000000 ∧
      (Enemy.new (some d)).color = 0xff0000 ∧
      (Enemy.new (some d)).color ≠ d.color ∧
      (Enemy.new (some d)).speed = d.enemySpeed ∧
      (Enemy.new (some d)).health = d.enemyHealth ∧
      (Enemy.new (some d)).maxHealth = d.enemyHealth ∧
      (Enemy.new (some d)).damage = d.enemyDamage ∧
      (Enemy.new none).speed = 3 ∧ (Enemy.new none).health = 80 ∧
      (Enemy.new none).damage = 25 := by
  obtain ⟨d, hd, hs, hh, hm, hdm, -, hc⟩ := enemy_new_from_levels 7 (by decide)
  obtain ⟨hc0, hcr⟩ := hc (le_refl _)
  obtain ⟨fib, hfib⟩ := levels_getElem? 7 (by decide)
  have hlevel : d.level = 8 := by
    rw [hd] at hfib
    cases hfib
    rfl
  refine ⟨d, hd, hlevel, hc0, hcr, ?_, hs, hh, hm, hdm, rfl, rfl, rfl⟩
  rw [hcr, hc0]
  decide

/-! ## Theorems: bullets -/

/-- C15: for every bullet and every `deltaTime` (zero and negative included), `update`
sets `age` to exactly `age + deltaTime` and the position to
`position + direction * (speed * deltaTime)`, and leaves `direction`, `speed`, `lifetime`
and `damage` unchanged. -/
theorem bullet_update_spec (b : Bullet ℚ) (deltaTime : ℚ) :
    (b.update deltaTime).age = b.age + deltaTime ∧
    (b.update deltaTime).mesh.position.x
      = b.mesh.position.x + b.direction.x * (b.speed * deltaTime) ∧
    (b.update deltaTime).mesh.position.y
      = b.mesh.position.y + b.direction.y * (b.speed * deltaTime) ∧
    (b.update deltaTime).mesh.position.z
      = b.mesh.position.z + b.direction.z * (b.speed * deltaTime) ∧
    (b.update deltaTime).direction = b.direction ∧
    (b.update deltaTime).speed = b.speed ∧
    (b.update deltaTime).lifetime = b.lifetime ∧
    (b.update deltaTime).damage = b.damage ∧
    (b.update 0).age = b.age ∧ (b.update 0).mesh.position = b.mesh.position := by
  refine ⟨rfl, rfl, rfl, rfl, rfl, rfl, rfl, rfl, ?_, ?_⟩
  · simp [Bullet.update]
  · simp [Bullet.update, Vector3.add, Vector3.multiplyScalar]

/-- C16: for every bullet, `shouldRemove()` is true exactly when `age ≥ lifetime`: true at
`age = lifetime`, false for every `age < lifetime`, and false for a freshly constructed
bullet (age 0, lifetime 3). -/
theorem bullet_shouldRemove_iff (b : Bullet ℚ) :
    (b.shouldRemove = true ↔ b.lifetime ≤ b.age) ∧
    (b.age = b.lifetime → b.shouldRemove = true) ∧
    (b.age < b.lifetime → b.shouldRemove = false) ∧
    (∀ (sqrt : ℚ → ℚ) (startPosition direction : Vector3 ℚ),
      (Bullet.new sqrt startPosition direction).age = 0 ∧
      (Bullet.new sqrt startPosition direction).lifetime = 3 ∧
      (Bullet.new sqrt startPosition direction).shouldRemove = false) := by
  refine ⟨?_, ?_, ?_, ?_⟩
  · simp [Bullet.shouldRemove]
  · intro h
    simp [Bullet.shouldRemove, h]
  · intro h
    simp [Bullet.shouldRemove, h]
  · intro sqrt startPosition direction
    refine ⟨rfl, rfl, ?_⟩
    simp [Bullet.shouldRemove, Bullet.new]

/-- C16 at the bullet of the tests, started at the origin towards `(0, 0, -1)` and aged to
its lifetime: it is removable. -/
theorem bullet_shouldRemove_iff_witness :
    ({ Bullet.new (fun _ : ℚ => 1) ⟨0, 0, 0⟩ ⟨0, 0, -1⟩ with age := 3 }).shouldRemove = true :=
  (bullet_shouldRemove_iff { Bullet.new (fun _ : ℚ => 1) ⟨0, 0, 0⟩ ⟨0, 0, -1⟩ with age := 3 }).2.1
    rfl

/-- Three numbers whose squares sum to zero are zero. -/
theorem coords_eq_zero {K : Type} [LinearOrderedField K] (x y z : K)
    (h : x * x + y * y + z * z = 0) : x = 0 ∧ y = 0 ∧ z = 0 := by
  refine ⟨?_, ?_, ?_⟩ <;>
    nlinarith [mul_self_nonneg x, mul_self_nonneg y, mul_self_nonneg z]

/-- Normalising coordinates that are not all zero, with an exact square root of the sum
of their squares, gives coordinates whose squares sum to 1 and that are a positive multiple
of the given ones. -/
theorem normalizeCoords_unit {K : Type} [LinearOrderedField K] (sqrt : K → K) (x y z : K)
    (hne : ¬ (x = 0 ∧ y = 0 ∧ z = 0))
    (h0 : 0 ≤ sqrt (x * x + y * y + z * z))
    (hsq : sqrt (x * x + y * y + z * z) * sqrt (x * x + y * y + z * z)
      = x * x + y * y + z * z) :
    (normalizeCoords sqrt x y z).1 * (normalizeCoords sqrt x y z).1
      + (normalizeCoords sqrt x y z).2.1 * (normalizeCoords sqrt x y z).2.1
      + (normalizeCoords sqrt x y z).2.2 * (normalizeCoords sqrt x y z).2.2 = 1 ∧
    ∃ k : K, 0 < k ∧ normalizeCoords sqrt x y z = (x * k, y * k, z * k) := by
  have hr : x * x + y * y + z * z ≠ 0 := fun h => hne (coords_eq_zero x y z h)
  simp only [normalizeCoords]
  generalize sqrt (x * x + y * y + z * z) = len at h0 hsq
  have hlen : 0 < len := by
    rcases eq_or_lt_of_le h0 with h | h
    · rw [← h] at hsq
      simp at hsq
      exact absurd hsq.symm hr
    · exact h
  have hne2 := ne_of_gt hlen
  rw [if_pos hlen]
  constructor
  · have e : x / len * (x / len) + y / len * (y / len) + z / len * (z / len)
        = (x * x + y * y + z * z) / (len * len) := by
      field_simp
    rw [e, hsq, div_self hr]
  · refine ⟨1 / len, by positivity, ?_⟩
    simp only [Prod.mk.injEq]
    refine ⟨?_, ?_, ?_⟩ <;> field_simp

/-- Normalising a non-zero vector, with an exact square root of its squared length, gives
a vector of squared length 1 that is a positive multiple of the vector. -/
theorem normalize_unit {K : Type} [LinearOrderedField K] (sqrt : K → K) (v : Vector3 K)
    (hv : v ≠ { x := 0, y := 0, z := 0 })
    (h0 : 0 ≤ sqrt (v.x * v.x + v.y * v.y + v.z * v.z))
    (hsq : sqrt (v.x * v.x + v.y * v.y + v.z * v.z) * sqrt (v.x * v.x + v.y * v.y + v.z * v.z)
      = v.x * v.x + v.y * v.y + v.z * v.z) :
    (Vector3.normalize sqrt v).lengthSquared = 1 ∧
    ∃ k : K, 0 < k ∧ Vector3.normalize sqrt v = v.multiplyScalar k := by
  have hne : ¬ (v.x = 0 ∧ v.y = 0 ∧ v.z = 0) := by
    rintro ⟨hx, hy, hz⟩
    apply hv
    cases v
    simp_all
  obtain ⟨hone, k, hk, hmul⟩ := normalizeCoords_unit sqrt v.x v.y v.z hne h0 hsq
  refine ⟨hone, k, hk, ?_⟩
  simp only [Vector3.normalize, Vector3.multiplyScalar, hmul]

/-- Normalising the zero vector leaves it unchanged, whatever `Math.sqrt(0)` returns. -/
theorem normalize_zero {K : Type} [LinearOrderedField K] (sqrt : K → K) :
    Vector3.normalize sqrt { x := 0, y := 0, z := 0 } = { x := 0, y := 0, z := 0 } := by
  simp only [Vector3.normalize, normalizeCoords]
  split_ifs <;> simp

/-- A bullet whose direction is the zero vector is stationary: `update(deltaTime)` leaves
its position and its direction as they are and advances `age` by `deltaTime`. -/
theorem bullet_update_stationary {K : Type} [Field K] (b : Bullet K) (deltaTime : K)
    (hb : b.direction = { x := 0, y := 0, z := 0 }) :
    (b.update deltaTime).mesh.position = b.mesh.position ∧
    (b.update deltaTime).direction = { x := 0, y := 0, z := 0 } ∧
    (b.update deltaTime).age = b.age + deltaTime := by
  refine ⟨?_, hb, rfl⟩
  simp only [Bullet.update, hb, Vector3.multiplyScalar, Vector3.add, zero_mul, add_zero]

/-- C17: the constructor is a total function of the direction vector. Over the reals, with
the real square root for `Math.sqrt`, the bullet built from any non-zero direction, such as
`(1, 1, 0)`, stores a direction of length 1 that is a positive multiple of the given one;
built from the zero direction it stores the zero vector. It starts at `startPosition` with
age 0. Every `update(deltaTime)` of a bullet with zero direction, in particular of the one
just built, leaves its position unchanged while `age` advances by `deltaTime`. In the
rational model of the game, for every value that `Math.sqrt` returns, the stored direction
is the given one divided by that value when it is positive, the zero direction is stored as
the zero vector, and a bullet with zero direction is stationary in the same way. -/
theorem bullet_new_direction (startPosition direction : Vector3 ℝ) :
    (direction ≠ { x := 0, y := 0, z := 0 } →
      (Bullet.new Real.sqrt startPosition direction).direction.lengthSquared = 1 ∧
      Real.sqrt (Bullet.new Real.sqrt startPosition direction).direction.lengthSquared = 1 ∧
      ∃ k : ℝ, 0 < k ∧
        (Bullet.new Real.sqrt startPosition direction).direction
          = direction.multiplyScalar k) ∧
    (Bullet.new Real.sqrt startPosition { x := 0, y := 0, z := 0 }).direction
      = { x := 0, y := 0, z := 0 } ∧
    (Bullet.new Real.sqrt startPosition direction).mesh.position = startPosition ∧
    (Bullet.new Real.sqrt startPosition direction).age = 0 ∧
    (∀ deltaTime : ℝ,
      ((Bullet.new Real.sqrt startPosition { x := 0, y := 0, z := 0 }).update
        deltaTime).mesh.position = startPosition ∧
      ((Bullet.new Real.sqrt startPosition { x := 0, y := 0, z := 0 }).update
        deltaTime).age = deltaTime) ∧
    (∀ (b : Bullet ℝ) (deltaTime : ℝ), b.direction = { x := 0, y := 0, z := 0 } →
      (b.update deltaTime).mesh.position = b.mesh.position ∧
      (b.update deltaTime).direction = { x := 0, y := 0, z := 0 } ∧
      (b.update deltaTime).age = b.age + deltaTime) ∧
    (∀ (sqrt : ℚ → ℚ) (start given : Vector3 ℚ),
      (Bullet.new sqrt start given).direction
        = (if sqrt given.lengthSquared > 0 then
            { x := given.x / sqrt given.lengthSquared,
              y := given.y / sqrt given.lengthSquared,
              z := given.z / sqrt given.lengthSquared }
          else given) ∧
      (Bullet.new sqrt start { x := 0, y := 0, z := 0 }).direction
        = { x := 0, y := 0, z := 0 } ∧
      (Bullet.new sqrt start given).mesh.position = start ∧
      ∀ (b : Bullet ℚ) (deltaTime : ℚ), b.direction = { x := 0, y := 0, z := 0 } →
        (b.update deltaTime).mesh.position = b.mesh.position ∧
        (b.update deltaTime).direction = { x := 0, y := 0, z := 0 } ∧
        (b.update deltaTime).age = b.age + deltaTime) := by
  have hzero : (Bullet.new Real.sqrt startPosition { x := 0, y := 0, z := 0 }).direction
      = { x := 0, y := 0, z := 0 } := normalize_zero Real.sqrt
  refine ⟨?_, hzero, rfl, rfl, ?_, fun b deltaTime hb => bullet_update_stationary b deltaTime hb,
    ?_⟩
  · intro hv
    have hnn : (0 : ℝ) ≤ direction.x * direction.x + direction.y * direction.y
        + direction.z * direction.z := by
      nlinarith [mul_self_nonneg direction.x, mul_self_nonneg direction.y,
        mul_self_nonneg direction.z]
    obtain ⟨hone, hk⟩ := normalize_unit Real.sqrt direction hv (Real.sqrt_nonneg _)
      (Real.mul_self_sqrt hnn)
    have h1 : (Bullet.new Real.sqrt startPosition direction).direction.lengthSquared = 1 :=
      hone
    refine ⟨h1, ?_, hk⟩
    rw [h1, Real.sqrt_one]
  · intro deltaTime
    obtain ⟨hpos, -, hage⟩ := bullet_update_stationary
      (Bullet.new Real.sqrt startPosition { x := 0, y := 0, z := 0 }) deltaTime hzero
    refine ⟨hpos, ?_⟩
    rw [hage]
    show (0 : ℝ) + deltaTime = deltaTime
    rw [zero_add]
  · intro sqrt start given
    refine ⟨?_, normalize_zero sqrt, rfl,
      fun b deltaTime hb => bullet_update_stationary b deltaTime hb⟩
    show Vector3.normalize sqrt given = _
    simp only [Vector3.normalize, normalizeCoords, Vector3.lengthSquared]
    split_ifs <;> rfl

/-- C17 at the direction `(1, 1, 0)`, whose length is the irrational `Math.sqrt(2)`: the
direction stored by the constructor has length 1 and is a positive multiple of
`(1, 1, 0)`. -/
theorem bullet_new_direction_witness :
    ({ x := 1, y := 1, z := 0 } : Vector3 ℝ) ≠ { x := 0, y := 0, z := 0 } ∧
    (Bullet.new Real.sqrt { x := 0, y := 0, z := 0 }
      { x := 1, y := 1, z := 0 }).direction.lengthSquared = 1 ∧
    Real.sqrt (Bullet.new Real.sqrt { x := 0, y := 0, z := 0 }
      { x := 1, y := 1, z := 0 }).direction.lengthSquared = 1 ∧
    ∃ k : ℝ, 0 < k ∧
      (Bullet.new Real.sqrt { x := 0, y := 0, z := 0 } { x := 1, y := 1, z := 0 }).direction
        = ({ x := 1, y := 1, z := 0 } : Vector3 ℝ).multiplyScalar k :=
  have hne : ({ x := 1, y := 1, z := 0 } : Vector3 ℝ) ≠ { x := 0, y := 0, z := 0 } := by
    intro h
    have hx := congrArg Vector3.x h
    norm_num at hx
  ⟨hne, (bullet_new_direction { x := 0, y := 0, z := 0 } { x := 1, y := 1, z := 0 }).1 hne⟩

/-! ## Theorems: the collision pass of the orchestrator -/

/-- A property that holds before a `forEach` loop and is kept by every step holds after
the loop. -/
theorem forEachIndex_induction {σ : Type} (R : σ → Prop) (length : ℕ) (step : ℕ → σ → σ)
    (s : σ) (h0 : R s) (hstep : ∀ i st, R st → R (step i st)) :
    R (forEachIndex length step s) := by
  unfold forEachIndex
  generalize List.range' 0 length = indices
  induction indices generalizing s with
  | nil => exact h0
  | cons i rest ih => exact ih (step i s) (hstep i s h0)

/-- The bullet loop returns and keeps a property `P` of the state, as soon as every test
of a bullet (one with property `B`, as all bullets read in a state with `P` have) against
an enemy of the current list returns and keeps `P`. -/
theorem bulletPass_total (P : Game → Prop) (B : Bullet ℚ → Prop) (g : Game) (h0 : P g)
    (hB : ∀ (g1 : Game) (i : ℕ) (bullet : Bullet ℚ),
      P g1 → g1.bullets[i]? = some bullet → B bullet)
    (hstep : ∀ (g1 : Game) (bullet : Bullet ℚ) (bi : ℕ) (enemy : Enemy) (ei : ℕ),
      P g1 → B bullet → g1.enemies[ei]? = some enemy →
      ∃ g2, g1.bulletHitsEnemy bullet bi enemy ei = .returned g2 ∧ P g2) :
    ∃ g1, g.checkBulletEnemyCollisions = .returned g1 ∧ P g1 := by
  have inner : ∀ (g1 : Game) (bullet : Bullet ℚ) (bi : ℕ), P g1 → B bullet →
      ∃ g2, g1.bulletCallback bullet bi = .returned g2 ∧ P g2 := by
    intro g1 bullet bi hP hb
    unfold Game.bulletCallback
    apply forEachIndex_induction (fun c => ∃ g2, c = Completion.returned g2 ∧ P g2)
    · exact ⟨g1, rfl, hP⟩
    · rintro ei acc ⟨g2, rfl, hP2⟩
      simp only [Completion.andThen]
      cases he : g2.enemies[ei]? with
      | none => exact ⟨g2, rfl, hP2⟩
      | some enemy => exact hstep g2 bullet bi enemy ei hP2 hb he
  unfold Game.checkBulletEnemyCollisions
  apply forEachIndex_induction (fun c => ∃ g2, c = Completion.returned g2 ∧ P g2)
  · exact ⟨g, rfl, h0⟩
  · rintro bi acc ⟨g2, rfl, hP2⟩
    simp only [Completion.andThen]
    cases hb : g2.bullets[bi]? with
    | none => exact ⟨g2, rfl, hP2⟩
    | some bullet => exact inner g2 bullet bi hP2 (hB g2 bi bullet hP2 hb)

/-- Whenever the bullet loop returns, it has kept every property that each returning test
of a bullet against an enemy keeps. -/
theorem bulletPass_partial (P : Game → Prop) (g : Game) (h0 : P g)
    (hstep : ∀ (g1 g2 : Game) (bullet : Bullet ℚ) (bi : ℕ) (enemy : Enemy) (ei : ℕ),
      P g1 → g1.bulletHitsEnemy bullet bi enemy ei = .returned g2 → P g2) :
    ∀ g1, g.checkBulletEnemyCollisions = .returned g1 → P g1 := by
  have inner : ∀ (g1 : Game) (bullet : Bullet ℚ) (bi : ℕ), P g1 →
      ∀ g2, g1.bulletCallback bullet bi = .returned g2 → P g2 := by
    intro g1 bullet bi hP
    unfold Game.bulletCallback
    apply forEachIndex_induction (fun c => ∀ g2, c = Completion.returned g2 → P g2)
    · intro g2 h
      cases h
      exact hP
    · intro ei acc hacc
      cases acc with
      | typeError =>
        intro g2 h
        cases h
      | returned g2 =>
        have hP2 := hacc g2 rfl
        simp only [Completion.andThen]
        cases he : g2.enemies[ei]? with
        | none =>
          intro g3 h
          cases h
          exact hP2
        | some enemy => exact fun g3 h => hstep g2 g3 bullet bi enemy ei hP2 h
  unfold Game.checkBulletEnemyCollisions
  apply forEachIndex_induction (fun c => ∀ g2, c = Completion.returned g2 → P g2)
  · intro g2 h
    cases h
    exact h0
  · intro bi acc hacc
    cases acc with
    | typeError =>
      intro g2 h
      cases h
    | returned g2 =>
      have hP2 := hacc g2 rfl
      simp only [Completion.andThen]
      cases hb : g2.bullets[bi]? with
      | none =>
        intro g3 h
        cases h
        exact hP2
      | some bullet => exact inner g2 bullet bi hP2

/-- The player loop keeps every property that each test of the player against an enemy
of the current list keeps. -/
theorem playerPass_induction (P : Game → Prop) (g : Game) (h0 : P g)
    (hstep : ∀ (g1 : Game) (enemy : Enemy) (i : ℕ),
      P g1 → g1.enemies[i]? = some enemy → P (g1.playerHitByEnemy enemy i)) :
    P g.checkPlayerEnemyCollisions := by
  unfold Game.checkPlayerEnemyCollisions
  apply forEachIndex_induction P
  · exact h0
  · intro i g1 hP
    unfold Game.playerEnemyStep
    cases he : g1.enemies[i]? with
    | none => exact hP
    | some enemy => exact hstep g1 enemy i hP he

/-- The handlers of the level manager only record calls, none of them an `enemyHit`
sound. -/
theorem levelManagerCallbacks_emit (calls : List Callback) (g : Game) :
    ∃ es, calls.foldl Game.levelManagerCallback g = g.emit es ∧
      GameEvent.playSound Sound.enemyHit ∉ es := by
  induction calls generalizing g with
  | nil =>
    refine ⟨[], ?_, List.not_mem_nil _⟩
    simp [Game.emit]
  | cons c rest ih =>
    have hc : ∃ es1, Game.levelManagerCallback g c = g.emit es1 ∧
        GameEvent.playSound Sound.enemyHit ∉ es1 := by
      cases c with
      | scoreUpdate score =>
        simp only [Game.levelManagerCallback]
        split_ifs
        · exact ⟨_, rfl, by simp⟩
        · exact ⟨[], by simp [Game.emit], List.not_mem_nil _⟩
      | levelUp level data =>
        exact ⟨_, rfl, by simp⟩
    obtain ⟨es1, h1, hn1⟩ := hc
    obtain ⟨es2, h2, hn2⟩ := ih (g.emit es1)
    refine ⟨es1 ++ es2, ?_, ?_⟩
    · rw [List.foldl_cons, h1, h2]
      simp [Game.emit]
    · simp only [List.mem_append, not_or]
      exact ⟨hn1, hn2⟩

/-- What `levelManager.addScore(points)` does to the game: it throws, or it replaces the
level manager by its state after `addScore` and records calls other than `enemyHit`. -/
theorem levelManagerAddScore_eq (g : Game) (points : ℚ) :
    ∃ es, GameEvent.playSound Sound.enemyHit ∉ es ∧
      g.levelManagerAddScore points =
        if (addScore g.levelManager points).threw then Completion.typeError
        else Completion.returned
          ({ g with levelManager := (addScore g.levelManager points).state }.emit es) := by
  obtain ⟨es, h, hn⟩ := levelManagerCallbacks_emit (addScore g.levelManager points).calls
    { g with levelManager := (addScore g.levelManager points).state }
  refine ⟨es, hn, ?_⟩
  simp only [Game.levelManagerAddScore, h]

/-- A miss leaves the game as it is. -/
theorem bulletHitsEnemy_miss (g : Game) (bullet : Bullet ℚ) (bi : ℕ) (enemy : Enemy) (ei : ℕ)
    (hmiss : checkCollision g.collisionManager (some bullet.mesh) (some enemy.mesh) = false) :
    g.bulletHitsEnemy bullet bi enemy ei = .returned g := by
  simp [Game.bulletHitsEnemy, hmiss]

/-- A hit, with the level inside the table: 10 points are added, the bullet index and the
enemy index are spliced out, and the recorded calls end with the `enemyHit` sound. -/
theorem bulletHitsEnemy_hit (g : Game) (bullet : Bullet ℚ) (bi : ℕ) (enemy : Enemy) (ei : ℕ)
    (h1 : 1 ≤ g.levelManager.currentLevel) (h20 : g.levelManager.currentLevel ≤ 20)
    (hhit : checkCollision g.collisionManager (some bullet.mesh) (some enemy.mesh) = true) :
    ∃ es, GameEvent.playSound Sound.enemyHit ∉ es ∧
      g.bulletHitsEnemy bullet bi enemy ei = .returned
        { g with levelManager := (addScore g.levelManager 10).state,
                 bullets := g.bullets.eraseIdx bi,
                 enemies := g.enemies.eraseIdx ei,
                 events := g.events ++ es ++ [GameEvent.playSound Sound.enemyHit] } := by
  obtain ⟨es, hn, heq⟩ := levelManagerAddScore_eq g 10
  refine ⟨es, hn, ?_⟩
  simp only [Game.bulletHitsEnemy, hhit, if_true, heq, addScore_threw g.levelManager 10 h1 h20,
    Completion.andThen, Game.emit]
  simp

/-- The level stays inside the table under `addScore`. -/
theorem addScore_level_range (s : LevelManager) (points : ℚ)
    (h1 : 1 ≤ s.currentLevel) (h20 : s.currentLevel ≤ 20) :
    1 ≤ (addScore s points).state.currentLevel ∧
    (addScore s points).state.currentLevel ≤ 20 := by
  rcases addScore_cases s points with h | h
  · rw [h.1]; exact ⟨h1, h20⟩
  · rw [h.1]
    have := h.2.2.1
    omega

/-- The invariant of the bullet loop, relative to the state `g` at its start: the level
stays inside the table, the collision manager is the same, both lists only lose elements,
and every enemy lost is paid by 10 points and one `enemyHit` sound. -/
theorem bulletPass_invariant (g : Game)
    (h1 : 1 ≤ g.levelManager.currentLevel) (h20 : g.levelManager.currentLevel ≤ 20) :
    ∃ g1, g.checkBulletEnemyCollisions = .returned g1 ∧
      (1 ≤ g1.levelManager.currentLevel ∧ g1.levelManager.currentLevel ≤ 20 ∧
        g1.enemies.Sublist g.enemies ∧ g1.bullets.Sublist g.bullets ∧
        g1.levelManager.score + 10 * (g1.enemies.length : ℚ)
          = g.levelManager.score + 10 * (g.enemies.length : ℚ) ∧
        g1.events.count (GameEvent.playSound Sound.enemyHit) + g1.enemies.length
          = g.events.count (GameEvent.playSound Sound.enemyHit) + g.enemies.length) := by
  apply bulletPass_total _ (fun _ => True) g
  · exact ⟨h1, h20, List.Sublist.refl _, List.Sublist.refl _, rfl, rfl⟩
  · intros
    trivial
  · rintro g1 bullet bi enemy ei ⟨hl1, hl20, hsub, hbsub, hscore, hcount⟩ - he
    by_cases hhit : checkCollision g1.collisionManager (some bullet.mesh) (some enemy.mesh)
        = true
    · obtain ⟨es, hn, heq⟩ := bulletHitsEnemy_hit g1 bullet bi enemy ei hl1 hl20 hhit
      have hlt : ei < g1.enemies.length := by
        rcases Nat.lt_or_ge ei g1.enemies.length with h | h
        · exact h
        · rw [List.getElem?_eq_none h] at he
          cases he
      have hlen : (g1.enemies.eraseIdx ei).length + 1 = g1.enemies.length := by
        rw [List.length_eraseIdx, if_pos hlt]
        omega
      obtain ⟨hr1, hr20⟩ := addScore_level_range g1.levelManager 10 hl1 hl20
      refine ⟨_, heq, hr1, hr20, (List.eraseIdx_sublist _ _).trans hsub,
        (List.eraseIdx_sublist _ _).trans hbsub, ?_, ?_⟩
      · simp only [addScore_score]
        have hc : ((g1.enemies.length : ℕ) : ℚ) = ((g1.enemies.eraseIdx ei).length : ℚ) + 1 := by
          rw [← hlen]
          push_cast
          ring
        rw [← hscore, hc]
        ring
      · simp only [List.count_append, List.count_singleton_self]
        rw [List.count_eq_zero_of_not_mem hn]
        omega
    · have hmiss : checkCollision g1.collisionManager (some bullet.mesh) (some enemy.mesh)
          = false := by
        simpa using hhit
      exact ⟨g1, bulletHitsEnemy_miss g1 bullet bi enemy ei hmiss,
        hl1, hl20, hsub, hbsub, hscore, hcount⟩

/-- One bullet overlapping the one enemy: the loop returns with both lists empty and 10
points added. -/
theorem bulletPass_single_hit (g : Game) (b : Bullet ℚ) (e : Enemy)
    (h1 : 1 ≤ g.levelManager.currentLevel) (h20 : g.levelManager.currentLevel ≤ 20)
    (hb : g.bullets = [b]) (he : g.enemies = [e])
    (hhit : checkCollision g.collisionManager (some b.mesh) (some e.mesh) = true) :
    ∃ es, GameEvent.playSound Sound.enemyHit ∉ es ∧
      g.checkBulletEnemyCollisions = .returned
        { g with levelManager := (addScore g.levelManager 10).state,
                 bullets := [], enemies := [],
                 events := g.events ++ es ++ [GameEvent.playSound Sound.enemyHit] } := by
  obtain ⟨es, hn, heq⟩ := bulletHitsEnemy_hit g b 0 e 0 h1 h20 hhit
  refine ⟨es, hn, ?_⟩
  simp only [Game.checkBulletEnemyCollisions, Game.bulletCallback, forEachIndex, hb, he,
    List.length_singleton, List.range', List.foldl_cons, List.foldl_nil, Completion.andThen,
    List.getElem?_cons_zero, heq, List.eraseIdx_cons_zero]

/-- C18: for every game state whose level is inside the table, the bullet-enemy loop of
`checkCollisions` returns, only removes elements from the two lists, raises the score by
exactly 10 for each enemy it removes and plays one `enemyHit` sound per enemy removed;
with one bullet overlapping one enemy the score rises by 10 and both lists become empty. -/
theorem checkBulletEnemyCollisions_score (g : Game)
    (h1 : 1 ≤ g.levelManager.currentLevel) (h20 : g.levelManager.currentLevel ≤ 20) :
    ∃ g1, g.checkBulletEnemyCollisions = .returned g1 ∧
      g1.enemies.Sublist g.enemies ∧ g1.bullets.Sublist g.bullets ∧
      g1.levelManager.score
        = g.levelManager.score + 10 * ((g.enemies.length - g1.enemies.length : ℕ) : ℚ) ∧
      g1.events.count (GameEvent.playSound Sound.enemyHit)
        = g.events.count (GameEvent.playSound Sound.enemyHit)
          + (g.enemies.length - g1.enemies.length) ∧
      (∀ b e, g.bullets = [b] → g.enemies = [e] →
        checkCollision g.collisionManager (some b.mesh) (some e.mesh) = true →
        g1.bullets = [] ∧ g1.enemies = [] ∧
        g1.levelManager.score = g.levelManager.score + 10) := by
  obtain ⟨g1, hret, -, -, hsub, hbsub, hscore, hcount⟩ := bulletPass_invariant g h1 h20
  have hle : g1.enemies.length ≤ g.enemies.length := hsub.length_le
  refine ⟨g1, hret, hsub, hbsub, ?_, ?_, ?_⟩
  · rw [Nat.cast_sub hle]
    linarith
  · omega
  · intro b e hb he hhit
    obtain ⟨es, -, heq⟩ := bulletPass_single_hit g b e h1 h20 hb he hhit
    rw [hret] at heq
    cases heq
    exact ⟨rfl, rfl, addScore_score _ _⟩

/-- C18 at a fresh game holding one bullet and one enemy, both at the origin: after the
loop both lists are empty and the score is 10. -/
theorem checkBulletEnemyCollisions_score_witness :
    ∃ g1, { Game.new with bullets := [Bullet.new (fun _ : ℚ => 1) ⟨0, 0, 0⟩ ⟨0, 0, -1⟩],
                          enemies := [Enemy.new none] }.checkBulletEnemyCollisions
        = .returned g1 ∧
      g1.bullets = [] ∧ g1.enemies = [] ∧ g1.levelManager.score = 10 := by
  obtain ⟨g1, hret, -, -, -, -, hone⟩ := checkBulletEnemyCollisions_score
    { Game.new with bullets := [Bullet.new (fun _ : ℚ => 1) ⟨0, 0, 0⟩ ⟨0, 0, -1⟩],
                    enemies := [Enemy.new none] } (by decide) (by decide)
  obtain ⟨hb, he, hs⟩ := hone _ _ rfl rfl (by
    norm_num [checkCollision, Game.new, CollisionManager.new, Bullet.new, Enemy.new,
      Vector3.distanceTo, Vector3.distanceToSquared, Distance.le])
  refine ⟨g1, hret, hb, he, ?_⟩
  rw [hs]
  norm_num [Game.new, LevelManager.new]

/-- Visiting indices at which no enemy overlaps the player changes nothing. -/
theorem playerLoop_no_hit (indices : List ℕ) (g : Game)
    (h : ∀ i ∈ indices, ∀ enemy, g.enemies[i]? = some enemy →
      checkCollision g.collisionManager (some g.player.mesh) (some enemy.mesh) = false) :
    indices.foldl (fun st index => Game.playerEnemyStep index st) g = g := by
  induction indices with
  | nil => rfl
  | cons i rest ih =>
    have hi : Game.playerEnemyStep i g = g := by
      unfold Game.playerEnemyStep
      cases he : g.enemies[i]? with
      | none => rfl
      | some enemy =>
        simp [Game.playerHitByEnemy, h i (List.mem_cons_self _ _) enemy he]
    rw [List.foldl_cons, hi]
    exact ih (fun k hk => h k (List.mem_cons_of_mem _ hk))

/-- The state after the callback of the second loop ran on an overlapping enemy. -/
theorem playerHitByEnemy_hit (g : Game) (enemy : Enemy) (index : ℕ)
    (hhit : checkCollision g.collisionManager (some g.player.mesh) (some enemy.mesh) = true) :
    g.playerHitByEnemy enemy index =
      { g with health := g.health - enemy.damage,
               enemies := g.enemies.eraseIdx index,
               isGameOver := if g.health - enemy.damage ≤ 0 then true else g.isGameOver,
               events := g.events ++ playerHitEvents g (g.health - enemy.damage) } := by
  simp only [Game.playerHitByEnemy, hhit, if_true, Game.updateHealth, Game.endGame, Game.emit,
    playerHitEvents]
  cases g.onHealthUpdate <;> cases g.onGameOver <;>
    by_cases hdead : g.health - enemy.damage ≤ 0 <;> simp [hdead]

/-- The second loop when exactly one enemy of the list overlaps the player: that enemy is
removed, its damage is subtracted once, and the game ends exactly when the new health is
at most 0. -/
theorem playerPass_single (g : Game) (pre post : List Enemy) (e : Enemy)
    (henemies : g.enemies = pre ++ e :: post)
    (hhit : checkCollision g.collisionManager (some g.player.mesh) (some e.mesh) = true)
    (hothers : ∀ x ∈ pre ++ post,
      checkCollision g.collisionManager (some g.player.mesh) (some x.mesh) = false) :
    g.checkPlayerEnemyCollisions =
      { g with health := g.health - e.damage,
               enemies := pre ++ post,
               isGameOver := if g.health - e.damage ≤ 0 then true else g.isGameOver,
               events := g.events ++ playerHitEvents g (g.health - e.damage) } := by
  have hlen : g.enemies.length = (post.length + 1) + pre.length := by
    rw [henemies, List.length_append, List.length_cons]
    omega
  have hsplit : List.range' 0 g.enemies.length
      = List.range' 0 pre.length ++ (pre.length :: List.range' (pre.length + 1) post.length) := by
    rw [hlen, ← List.range'_append_1 0 pre.length (post.length + 1), Nat.zero_add,
      List.range'_succ]
  have hfirst : (List.range' 0 pre.length).foldl
      (fun st index => Game.playerEnemyStep index st) g = g := by
    apply playerLoop_no_hit
    intro i hi enemy he
    have hi2 : i < pre.length := by
      have := List.mem_range'_1.mp hi
      omega
    rw [henemies, List.getElem?_append_left hi2] at he
    exact hothers enemy (List.mem_append_left _ (List.getElem?_mem he))
  have hat : g.enemies[pre.length]? = some e := by
    rw [henemies, List.getElem?_append_right (le_refl _)]
    simp
  have herase : g.enemies.eraseIdx pre.length = pre ++ post := by
    rw [henemies, List.eraseIdx_append_of_length_le (le_refl _)]
    simp
  have hmid : Game.playerEnemyStep pre.length g =
      { g with health := g.health - e.damage,
               enemies := pre ++ post,
               isGameOver := if g.health - e.damage ≤ 0 then true else g.isGameOver,
               events := g.events ++ playerHitEvents g (g.health - e.damage) } := by
    unfold Game.playerEnemyStep
    rw [hat]
    simp only [playerHitByEnemy_hit g e pre.length hhit, herase]
  unfold Game.checkPlayerEnemyCollisions forEachIndex
  rw [hsplit, List.foldl_append, hfirst, List.foldl_cons, hmid]
  apply playerLoop_no_hit
  intro i _ enemy he
  exact hothers enemy (List.getElem?_mem he)

/-- With no bullet overlapping an enemy, the first loop returns the state unchanged. -/
theorem bulletPass_no_hit (g : Game)
    (h : ∀ b ∈ g.bullets, ∀ x ∈ g.enemies,
      checkCollision g.collisionManager (some b.mesh) (some x.mesh) = false) :
    g.checkBulletEnemyCollisions = .returned g := by
  obtain ⟨g1, hret, hg1⟩ := bulletPass_total (fun g1 => g1 = g) (fun b => b ∈ g.bullets) g rfl
    (by
      rintro g1 i bullet rfl hb
      exact List.getElem?_mem hb)
    (by
      rintro g1 bullet bi enemy ei rfl hb he
      exact ⟨g1, bulletHitsEnemy_miss g1 bullet bi enemy ei
        (h bullet hb enemy (List.getElem?_mem he)), rfl⟩)
  rw [hret, hg1]

/-- C19, refuted as stated: a running game whose one enemy overlaps the player, and also
the one bullet. The bullet loop removes the enemy first, and `checkCollisions` returns with
the health still 100, not lowered by the enemy's damage of 25. -/
theorem checkCollisions_bullet_takes_enemy_first :
    { Game.new with bullets := [Bullet.new (fun _ : ℚ => 1) ⟨0, 0, 0⟩ ⟨0, 0, -1⟩],
                    enemies := [Enemy.new none] }.isGameOver = false ∧
    checkCollision Game.new.collisionManager (some Game.new.player.mesh)
      (some (Enemy.new none).mesh) = true ∧
    (Enemy.new none).damage = 25 ∧
    ∃ g1, { Game.new with bullets := [Bullet.new (fun _ : ℚ => 1) ⟨0, 0, 0⟩ ⟨0, 0, -1⟩],
                          enemies := [Enemy.new none] }.checkCollisions = .returned g1 ∧
      g1.enemies = [] ∧ g1.health = 100 ∧ g1.health ≠ Game.new.health - 25 ∧
      g1.isGameOver = false := by
  refine ⟨rfl, ?_, rfl, ?_⟩
  · norm_num [checkCollision, Game.new, CollisionManager.new, Player.new, Enemy.new,
      Vector3.distanceTo, Vector3.distanceToSquared, Distance.le]
  · obtain ⟨es, -, heq⟩ := bulletPass_single_hit
      { Game.new with bullets := [Bullet.new (fun _ : ℚ => 1) ⟨0, 0, 0⟩ ⟨0, 0, -1⟩],
                      enemies := [Enemy.new none] }
      (Bullet.new (fun _ : ℚ => 1) ⟨0, 0, 0⟩ ⟨0, 0, -1⟩) (Enemy.new none)
      (by decide) (by decide) rfl rfl
      (by norm_num [checkCollision, Game.new, CollisionManager.new, Bullet.new, Enemy.new,
        Vector3.distanceTo, Vector3.distanceToSquared, Distance.le])
    simp only [Game.checkCollisions, heq, Completion.andThen]
    refine ⟨_, rfl, rfl, rfl, ?_, rfl⟩
    norm_num [Game.checkPlayerEnemyCollisions, forEachIndex, Game.new]

/-- Erasing an index other than the one of `e` from `pre ++ e :: post` keeps `e` between
two lists that only lost elements. -/
theorem eraseIdx_keeps (α : Type) (pre post : List α) (e x : α) (k : ℕ)
    (hk : (pre ++ e :: post)[k]? = some x) (hne : x ≠ e) :
    ∃ pre1 post1, (pre ++ e :: post).eraseIdx k = pre1 ++ e :: post1 ∧
      pre1.Sublist pre ∧ post1.Sublist post := by
  rcases Nat.lt_trichotomy k pre.length with hlt | heq | hgt
  · exact ⟨pre.eraseIdx k, post, List.eraseIdx_append_of_lt_length hlt _,
      List.eraseIdx_sublist _ _, List.Sublist.refl _⟩
  · rw [heq, List.getElem?_append_right (le_refl _)] at hk
    simp at hk
    exact absurd hk.symm hne
  · obtain ⟨m, hm⟩ : ∃ m, k - pre.length = m + 1 := ⟨k - pre.length - 1, by omega⟩
    refine ⟨pre, post.eraseIdx m, ?_, List.Sublist.refl _, List.eraseIdx_sublist _ _⟩
    rw [List.eraseIdx_append_of_length_le (le_of_lt hgt), hm, List.eraseIdx_cons_succ]

/-- The bullet loop, run from a level inside the table, keeps an enemy that no bullet
overlaps: it returns, and the enemy is still in the list, between what is left of the
enemies before it and after it; player, health and the end-of-game fields are untouched. -/
theorem bulletPass_keeps_enemy (g : Game) (pre post : List Enemy) (e : Enemy)
    (h1 : 1 ≤ g.levelManager.currentLevel) (h20 : g.levelManager.currentLevel ≤ 20)
    (henemies : g.enemies = pre ++ e :: post)
    (hsafe : ∀ b ∈ g.bullets,
      checkCollision g.collisionManager (some b.mesh) (some e.mesh) = false) :
    ∃ g1, g.checkBulletEnemyCollisions = .returned g1 ∧
      ((1 ≤ g1.levelManager.currentLevel ∧ g1.levelManager.currentLevel ≤ 20) ∧
        (g1.player = g.player ∧ g1.collisionManager = g.collisionManager ∧
          g1.health = g.health ∧ g1.isGameOver = g.isGameOver ∧
          g1.onHealthUpdate = g.onHealthUpdate ∧ g1.onGameOver = g.onGameOver) ∧
        g1.bullets.Sublist g.bullets ∧
        ∃ pre1 post1, g1.enemies = pre1 ++ e :: post1 ∧
          pre1.Sublist pre ∧ post1.Sublist post) := by
  apply bulletPass_total _ (fun b => b ∈ g.bullets) g
  · exact ⟨⟨h1, h20⟩, ⟨rfl, rfl, rfl, rfl, rfl, rfl⟩, List.Sublist.refl _,
      pre, post, henemies, List.Sublist.refl _, List.Sublist.refl _⟩
  · rintro g1 i bullet ⟨-, -, hbsub, -⟩ hb
    exact hbsub.subset (List.getElem?_mem hb)
  · rintro g1 bullet bi enemy ei ⟨⟨hl1, hl20⟩, hframe, hbsub, pre1, post1, hen, hp, hq⟩ hb he
    by_cases hhit : checkCollision g1.collisionManager (some bullet.mesh) (some enemy.mesh)
        = true
    · obtain ⟨es, -, heq⟩ := bulletHitsEnemy_hit g1 bullet bi enemy ei hl1 hl20 hhit
      obtain ⟨hr1, hr20⟩ := addScore_level_range g1.levelManager 10 hl1 hl20
      have hne : enemy ≠ e := by
        intro hee
        rw [hee, hframe.2.1, hsafe bullet hb] at hhit
        cases hhit
      rw [hen] at he
      obtain ⟨pre2, post2, herase, hp2, hq2⟩ := eraseIdx_keeps Enemy pre1 post1 e enemy ei he hne
      refine ⟨_, heq, ⟨hr1, hr20⟩, hframe, (List.eraseIdx_sublist _ _).trans hbsub,
        pre2, post2, ?_, hp2.trans hp, hq2.trans hq⟩
      show g1.enemies.eraseIdx ei = pre2 ++ e :: post2
      rw [hen, herase]
    · have hmiss : checkCollision g1.collisionManager (some bullet.mesh) (some enemy.mesh)
          = false := by
        simpa using hhit
      exact ⟨g1, bulletHitsEnemy_miss g1 bullet bi enemy ei hmiss,
        ⟨hl1, hl20⟩, hframe, hbsub, pre1, post1, hen, hp, hq⟩

/-- C19, amended: for every running game state, at a level inside the table, in which
exactly one enemy, of damage `d`, overlaps the player and no bullet overlaps that enemy,
`checkCollisions` returns, lowers the health by exactly `d` and removes that enemy from
what the bullet loop left of the list; it sets `isGameOver` exactly when the new health is
at most 0, and then an installed `onGameOver` handler is called once, with the current
score, and not otherwise. Three such collisions of damage 40 from health 100 give 60, 20
and -20, and only the third ends the game. -/
theorem checkCollisions_single_player_hit (g : Game) (pre post : List Enemy) (e : Enemy)
    (hrun : g.isGameOver = false)
    (h1 : 1 ≤ g.levelManager.currentLevel) (h20 : g.levelManager.currentLevel ≤ 20)
    (henemies : g.enemies = pre ++ e :: post)
    (hsafe : ∀ b ∈ g.bullets,
      checkCollision g.collisionManager (some b.mesh) (some e.mesh) = false)
    (hhit : checkCollision g.collisionManager (some g.player.mesh) (some e.mesh) = true)
    (hothers : ∀ x ∈ pre ++ post,
      checkCollision g.collisionManager (some g.player.mesh) (some x.mesh) = false) :
    ∃ g1 g2 pre1 post1,
      g.checkBulletEnemyCollisions = .returned g1 ∧
      g.checkCollisions = .returned g2 ∧
      g1.enemies = pre1 ++ e :: post1 ∧ pre1.Sublist pre ∧ post1.Sublist post ∧
      g2.enemies = pre1 ++ post1 ∧
      g2.health = g.health - e.damage ∧
      g2.bullets = g1.bullets ∧
      g2.levelManager = g1.levelManager ∧
      (g2.isGameOver = true ↔ g.health - e.damage ≤ 0) ∧
      g2.events = g1.events ++ playerHitEvents g1 (g.health - e.damage) ∧
      (g.onGameOver = true →
        (playerHitEvents g1 (g.health - e.damage)).filter GameEvent.isGameOver
          = if g.health - e.damage ≤ 0 then [GameEvent.gameOver g1.levelManager.score]
            else []) ∧
      (e.damage = 40 → g.health = 100 → g2.health = 60 ∧ g2.isGameOver = false) ∧
      (e.damage = 40 → g.health = 60 → g2.health = 20 ∧ g2.isGameOver = false) ∧
      (e.damage = 40 → g.health = 20 → g2.health = -20 ∧ g2.isGameOver = true) := by
  obtain ⟨g1, hret, -, ⟨hpl, hcm, hhealth, hover, -, hon⟩, -, pre1, post1, hen, hp, hq⟩ :=
    bulletPass_keeps_enemy g pre post e h1 h20 henemies hsafe
  have hothers1 : ∀ x ∈ pre1 ++ post1,
      checkCollision g1.collisionManager (some g1.player.mesh) (some x.mesh) = false := by
    intro x hx
    rw [hcm, hpl]
    apply hothers x
    rcases List.mem_append.mp hx with h | h
    · exact List.mem_append_left _ (hp.subset h)
    · exact List.mem_append_right _ (hq.subset h)
  have hpass := playerPass_single g1 pre1 post1 e hen (by rw [hcm, hpl]; exact hhit) hothers1
  have hcc : g.checkCollisions = .returned g1.checkPlayerEnemyCollisions := by
    simp only [Game.checkCollisions, hret, Completion.andThen]
  rw [hpass] at hcc
  refine ⟨g1, _, pre1, post1, hret, hcc, hen, hp, hq, rfl, ?_, rfl, rfl, ?_, ?_, ?_, ?_, ?_, ?_⟩
  · show g1.health - e.damage = g.health - e.damage
    rw [hhealth]
  · show (if g1.health - e.damage ≤ 0 then true else g1.isGameOver) = true ↔ _
    rw [hhealth, hover, hrun]
    by_cases hdead : g.health - e.damage ≤ 0 <;> simp [hdead]
  · show g1.events ++ playerHitEvents g1 (g1.health - e.damage) = _
    rw [hhealth]
  · intro hgo
    simp only [playerHitEvents, hon, hgo, if_true]
    cases g1.onHealthUpdate <;> by_cases hdead : g.health - e.damage ≤ 0 <;>
      simp [hdead, GameEvent.isGameOver]
  · intro hd hh
    show g1.health - e.damage = 60 ∧ (if g1.health - e.damage ≤ 0 then true else g1.isGameOver)
      = false
    rw [hhealth, hover, hrun, hd, hh]
    norm_num
  · intro hd hh
    show g1.health - e.damage = 20 ∧ (if g1.health - e.damage ≤ 0 then true else g1.isGameOver)
      = false
    rw [hhealth, hover, hrun, hd, hh]
    norm_num
  · intro hd hh
    show g1.health - e.damage = -20 ∧ (if g1.health - e.damage ≤ 0 then true else g1.isGameOver)
      = true
    rw [hhealth, hover, hrun, hd, hh]
    norm_num

/-- C19 amended, at a fresh game (health 100, no bullets) whose one enemy, of damage 40,
stands at the origin, at distance 1 from the player: the health becomes 60, the enemy is
removed and the game goes on. -/
theorem checkCollisions_single_player_hit_witness :
    ∃ g2, { Game.new with enemies := [{ Enemy.new none with damage := 40 }] }.checkCollisions
        = .returned g2 ∧
      g2.health = 60 ∧ g2.enemies = [] ∧ g2.isGameOver = false := by
  obtain ⟨g1, g2, pre1, post1, -, hret, -, hp, hq, he, -, -, -, -, -, -, h100, -, -⟩ :=
    checkCollisions_single_player_hit
      { Game.new with enemies := [{ Enemy.new none with damage := 40 }] } [] []
      { Enemy.new none with damage := 40 } rfl (by decide) (by decide) rfl
      (by intro b hb; cases hb)
      (by norm_num [checkCollision, Game.new, CollisionManager.new, Player.new, Enemy.new,
        Vector3.distanceTo, Vector3.distanceToSquared, Distance.le])
      (by intro x hx; cases hx)
  refine ⟨g2, hret, (h100 rfl rfl).1, ?_, (h100 rfl rfl).2⟩
  rw [he, List.sublist_nil.mp hp, List.sublist_nil.mp hq]
  rfl

/-! ## Theorems: shooting and reloading -/

/-- A shot with ammunition left: one round less, one bullet more at the end of the list,
the `shoot` sound after the ammo update, and a reload deferred by one second when the
last round was fired. -/
theorem shoot_with_ammo (sqrt : ℚ → ℚ) (g : Game) (h : 0 < g.ammo) :
    g.shoot sqrt =
      { g with ammo := g.ammo - 1,
               bullets := g.bullets ++ [Bullet.new sqrt g.cameraPosition g.player.direction],
               events := g.events
                 ++ (if g.onAmmoUpdate then [GameEvent.ammoUpdate (g.ammo - 1)] else [])
                 ++ [GameEvent.playSound Sound.shoot],
               timers := g.timers
                 ++ (if g.ammo - 1 ≤ 0 then [{ callback := TimerCallback.reload, delay := 1000 }]
                     else []) } := by
  simp only [Game.shoot, not_le.mpr h, if_false, Game.updateAmmo, Game.emit,
    Player.getLookDirection]
  cases g.onAmmoUpdate <;> by_cases hz : g.ammo - 1 ≤ 0 <;> simp [hz]

/-- A shot without ammunition only plays the `empty` sound. -/
theorem shoot_without_ammo (sqrt : ℚ → ℚ) (g : Game) (h : g.ammo ≤ 0) :
    g.shoot sqrt = g.emit [GameEvent.playSound Sound.empty] := by
  simp only [Game.shoot, h, if_true]

/-- The reload callback leaves `maxAmmo` rounds and changes no other counter. -/
theorem reloadCallback_ammo (g : Game) :
    g.reloadCallback.ammo = g.maxAmmo ∧ g.reloadCallback.maxAmmo = g.maxAmmo := by
  simp only [Game.reloadCallback, Game.updateAmmo, Game.emit]
  split_ifs <;> exact ⟨rfl, rfl⟩

/-- The collision pass does not touch the ammunition counters. -/
theorem checkCollisions_ammo (g g1 : Game) (h : g.checkCollisions = .returned g1) :
    g1.ammo = g.ammo ∧ g1.maxAmmo = g.maxAmmo := by
  simp only [Game.checkCollisions] at h
  cases hb : g.checkBulletEnemyCollisions with
  | typeError =>
    rw [hb] at h
    cases h
  | returned g2 =>
    rw [hb] at h
    simp only [Completion.andThen] at h
    cases h
    have h2 : g2.ammo = g.ammo ∧ g2.maxAmmo = g.maxAmmo := by
      apply bulletPass_partial (fun st => st.ammo = g.ammo ∧ st.maxAmmo = g.maxAmmo) g
        ⟨rfl, rfl⟩ _ g2 hb
      intro st st2 bullet bi enemy ei hP hstep
      obtain ⟨es, -, heq⟩ := levelManagerAddScore_eq st 10
      simp only [Game.bulletHitsEnemy, heq] at hstep
      split_ifs at hstep
      · cases hstep
      · simp only [Completion.andThen] at hstep
        cases hstep
        exact hP
      · cases hstep
        exact hP
    apply playerPass_induction (fun st => st.ammo = g.ammo ∧ st.maxAmmo = g.maxAmmo) g2 h2
    intro st enemy i hP _
    by_cases hhit : checkCollision st.collisionManager (some st.player.mesh) (some enemy.mesh)
        = true
    · rw [playerHitByEnemy_hit st enemy i hhit]
      exact hP
    · simp only [Game.playerHitByEnemy, hhit]
      exact hP

/-- The initial spawn callback leaves the ammunition alone. -/
theorem initialSpawnCallback_ammo (draws : SpawnDraws) (g : Game) :
    (g.initialSpawnCallback draws).ammo = g.ammo ∧
    (g.initialSpawnCallback draws).maxAmmo = g.maxAmmo := by
  unfold Game.initialSpawnCallback
  split <;> exact ⟨rfl, rfl⟩

/-- The periodic spawn callback, when it returns, leaves the ammunition alone. -/
theorem spawnEnemyCallback_ammo (draws : SpawnDraws) (g g1 : Game)
    (h : g.spawnEnemyCallback draws = .returned g1) :
    g1.ammo = g.ammo ∧ g1.maxAmmo = g.maxAmmo := by
  unfold Game.spawnEnemyCallback at h
  split at h
  · cases h
    exact ⟨rfl, rfl⟩
  · split at h
    · cases h
    · split at h <;> cases h <;> exact ⟨rfl, rfl⟩

/-- The bound `0 ≤ ammo ≤ maxAmmo` in every reachable state. -/
theorem reachable_ammo (g : Game) (h : Game.Reachable g) :
    0 ≤ g.ammo ∧ g.ammo ≤ g.maxAmmo := by
  induction h with
  | init g ha hm => rw [ha, hm]; decide
  | shoot sqrt g _ ih =>
    obtain ⟨h0, hmax⟩ := ih
    by_cases hpos : 0 < g.ammo
    · rw [shoot_with_ammo sqrt g hpos]
      exact ⟨by show 0 ≤ g.ammo - 1; omega, by show g.ammo - 1 ≤ g.maxAmmo; omega⟩
    · rw [shoot_without_ammo sqrt g (not_lt.mp hpos)]
      exact ⟨h0, hmax⟩
  | fireTimer draws g i _ ih =>
    obtain ⟨h0, hmax⟩ := ih
    unfold Game.fireTimer
    cases ht : g.timers[i]? with
    | none => exact ⟨h0, hmax⟩
    | some timer =>
      cases hc : timer.callback with
      | reload =>
        simp only [hc]
        obtain ⟨ha, hm⟩ := reloadCallback_ammo { g with timers := g.timers.eraseIdx i }
        rw [ha, hm]
        exact ⟨le_trans h0 hmax, le_refl _⟩
      | initialSpawn =>
        simp only [hc]
        obtain ⟨ha, hm⟩ :=
          initialSpawnCallback_ammo draws { g with timers := g.timers.eraseIdx i }
        rw [ha, hm]
        exact ⟨h0, hmax⟩
      | spawnEnemy =>
        simp only [hc]
        cases hs : Game.spawnEnemyCallback draws { g with timers := g.timers.eraseIdx i } with
        | typeError => exact ⟨h0, hmax⟩
        | returned g2 =>
          obtain ⟨ha, hm⟩ := spawnEnemyCallback_ammo draws _ g2 hs
          simp only [ha, hm]
          exact ⟨h0, hmax⟩
  | checkCollisions g g1 _ hret ih =>
    obtain ⟨ha, hm⟩ := checkCollisions_ammo g g1 hret
    rw [ha, hm]
    exact ih

/-- After `n` shots, with at least `n` rounds at the start, `n` rounds are gone. -/
theorem shoot_iterate_ammo (sqrt : ℚ → ℚ) (n : ℕ) (g : Game) (h : (n : ℤ) ≤ g.ammo) :
    ((Game.shoot sqrt)^[n] g).ammo = g.ammo - n ∧
    ((Game.shoot sqrt)^[n] g).maxAmmo = g.maxAmmo := by
  induction n generalizing g with
  | zero => simp
  | succ n ih =>
    have hpos : 0 < g.ammo := by
      have : (0 : ℤ) ≤ (n : ℤ) := Int.ofNat_nonneg n
      push_cast at h
      omega
    have hstep : (g.shoot sqrt).ammo = g.ammo - 1 ∧ (g.shoot sqrt).maxAmmo = g.maxAmmo := by
      rw [shoot_with_ammo sqrt g hpos]
      exact ⟨rfl, rfl⟩
    have := ih (g.shoot sqrt) (by rw [hstep.1]; push_cast at h; omega)
    rw [Function.iterate_succ_apply, this.1, this.2, hstep.1, hstep.2]
    push_cast
    exact ⟨by ring, rfl⟩

/-- C20: for every game state with `0 ≤ ammo ≤ maxAmmo`: with `ammo > 0`, `shoot()` lowers
`ammo` by exactly 1, appends exactly one bullet, plays `shoot` and defers a reload exactly
when `ammo` has reached 0; with `ammo = 0` it leaves `ammo`, the bullets and the timers
unchanged and plays `empty`; the reload callback sets `ammo` to `maxAmmo`. The bound
`0 ≤ ammo ≤ maxAmmo` holds after the shot and in every reachable state, and 30 shots from
the initial 30 rounds reach 0. -/
theorem shoot_spec (sqrt : ℚ → ℚ) (g : Game) (h0 : 0 ≤ g.ammo) (hmax : g.ammo ≤ g.maxAmmo) :
    (0 < g.ammo →
      (g.shoot sqrt).ammo = g.ammo - 1 ∧
      (g.shoot sqrt).bullets
        = g.bullets ++ [Bullet.new sqrt g.cameraPosition g.player.direction] ∧
      (g.shoot sqrt).events = g.events
        ++ (if g.onAmmoUpdate then [GameEvent.ammoUpdate (g.ammo - 1)] else [])
        ++ [GameEvent.playSound Sound.shoot] ∧
      (g.shoot sqrt).timers = g.timers
        ++ (if g.ammo - 1 = 0 then [{ callback := TimerCallback.reload, delay := 1000 }]
            else [])) ∧
    (g.ammo = 0 →
      (g.shoot sqrt).ammo = g.ammo ∧ (g.shoot sqrt).bullets = g.bullets ∧
      (g.shoot sqrt).timers = g.timers ∧
      (g.shoot sqrt).events = g.events ++ [GameEvent.playSound Sound.empty]) ∧
    g.reloadCallback.ammo = g.maxAmmo ∧
    (0 ≤ (g.shoot sqrt).ammo ∧ (g.shoot sqrt).ammo ≤ (g.shoot sqrt).maxAmmo) ∧
    (∀ g1, Game.Reachable g1 → 0 ≤ g1.ammo ∧ g1.ammo ≤ g1.maxAmmo) ∧
    ((Game.shoot sqrt)^[30] Game.new).ammo = 0 := by
  refine ⟨?_, ?_, (reloadCallback_ammo g).1, ?_, reachable_ammo, ?_⟩
  · intro hpos
    rw [shoot_with_ammo sqrt g hpos]
    refine ⟨rfl, rfl, rfl, ?_⟩
    have hiff : (g.ammo - 1 ≤ 0) ↔ (g.ammo - 1 = 0) := by omega
    by_cases hz : g.ammo - 1 = 0
    · simp [hz]
    · simp [hz, mt hiff.mp hz]
  · intro hz
    rw [shoot_without_ammo sqrt g (le_of_eq hz)]
    exact ⟨rfl, rfl, rfl, rfl⟩
  · by_cases hpos : 0 < g.ammo
    · rw [shoot_with_ammo sqrt g hpos]
      exact ⟨by show 0 ≤ g.ammo - 1; omega, by show g.ammo - 1 ≤ g.maxAmmo; omega⟩
    · rw [shoot_without_ammo sqrt g (not_lt.mp hpos)]
      exact ⟨h0, hmax⟩
  · have h := (shoot_iterate_ammo sqrt 30 Game.new (by decide)).1
    rw [h]
    decide

/-- C20 at the fresh game with 30 rounds: the first shot leaves 29 rounds and one bullet and
defers no reload. -/
theorem shoot_spec_witness :
    (Game.new.shoot (fun _ => 1)).ammo = 29 ∧
    (Game.new.shoot (fun _ => 1)).bullets.length = 1 ∧
    (Game.new.shoot (fun _ => 1)).timers = [] := by
  obtain ⟨ha, hb, -, ht⟩ := (shoot_spec (fun _ => 1) Game.new (by decide) (by decide)).1
    (by decide)
  refine ⟨?_, ?_, ?_⟩
  · rw [ha]; decide
  · rw [hb]; rfl
  · rw [ht]; rfl


/-! ## Theorems: deferred callbacks after the end of the game -/

/-- Once the game is over, both spawn callbacks return without touching the state. -/
theorem spawnCallbacks_after_game_over (draws : SpawnDraws) (g : Game)
    (h : g.isGameOver = true) :
    g.initialSpawnCallback draws = g ∧ g.spawnEnemyCallback draws = .returned g := by
  simp [Game.initialSpawnCallback, Game.spawnEnemyCallback, h]

/-- Once the game is over, firing a pending spawn timer, initial or periodic, leaves the
enemy list and the ammunition as they were. -/
theorem fireTimer_spawn_after_game_over (draws : SpawnDraws) (g : Game) (i : ℕ)
    (timer : Timer) (h : g.isGameOver = true) (ht : g.timers[i]? = some timer)
    (hc : timer.callback ≠ TimerCallback.reload) :
    (g.fireTimer draws i).enemies = g.enemies ∧ (g.fireTimer draws i).ammo = g.ammo := by
  have hover : ({ g with timers := g.timers.eraseIdx i } : Game).isGameOver = true := h
  obtain ⟨h1, h2⟩ := spawnCallbacks_after_game_over draws _ hover
  unfold Game.fireTimer
  rw [ht]
  cases hcb : timer.callback with
  | reload => exact absurd hcb hc
  | initialSpawn =>
    simp [hcb, h1]
  | spawnEnemy =>
    simp [hcb, h2]

/-- C21: the reload callback has no guard on `isGameOver`. From a fresh game with one round
left, health 25 and one baseline enemy (damage 25) standing at the origin, one step from
the player: the shot spends the last round and defers the reload; the collision pass then
returns with the game over, the ammo still 0 and the reload still pending; firing that
pending callback sets the ammo to 30, so the ammo count is not the same after as
before. -/
theorem reload_fires_after_game_over :
    ∃ g1 g2 : Game,
      ({ Game.new with ammo := 1, health := 25, enemies := [Enemy.new none] } : Game).shoot
          (fun _ => 1) = g1 ∧
      g1.checkCollisions = .returned g2 ∧
      g2.isGameOver = true ∧ g2.ammo = 0 ∧
      g2.timers = [{ callback := TimerCallback.reload, delay := 1000 }] ∧
      ∀ draws : SpawnDraws,
        (g2.fireTimer draws 0).ammo = 30 ∧ (g2.fireTimer draws 0).isGameOver = true := by
  obtain ⟨g1, hg1⟩ : ∃ g1 : Game,
      ({ Game.new with ammo := 1, health := 25, enemies := [Enemy.new none] } : Game).shoot
        (fun _ => 1) = g1 := ⟨_, rfl⟩
  have hs := shoot_with_ammo (fun _ => 1)
    ({ Game.new with ammo := 1, health := 25, enemies := [Enemy.new none] } : Game)
    (by decide)
  rw [hg1] at hs
  have hbullets : g1.checkBulletEnemyCollisions = .returned g1 := by
    apply bulletPass_no_hit
    intro b hb x hx
    rw [hs] at hb hx
    simp only [Game.new, List.nil_append, List.mem_singleton] at hb hx
    subst hb hx
    rw [hs]
    norm_num [checkCollision, Game.new, CollisionManager.new, Player.new, Enemy.new,
      Bullet.new, Vector3.distanceTo, Vector3.distanceToSquared, Distance.le]
  have hplayer := playerPass_single g1 [] [] (Enemy.new none) (by rw [hs]; rfl)
    (by
      rw [hs]
      norm_num [checkCollision, Game.new, CollisionManager.new, Player.new, Enemy.new,
        Vector3.distanceTo, Vector3.distanceToSquared, Distance.le])
    (by intro x hx; cases hx)
  refine ⟨g1, g1.checkPlayerEnemyCollisions, hg1, ?_, ?_⟩
  · simp only [Game.checkCollisions, hbullets, Completion.andThen]
  · rw [hplayer]
    refine ⟨?_, ?_, ?_, ?_⟩
    · rw [hs]
      norm_num [Game.new, Enemy.new]
    · rw [hs]
      rfl
    · rw [hs]
      simp [Game.new]
    · intro draws
      rw [hs]
      simp [Game.fireTimer, Game.new, Game.reloadCallback, Game.updateAmmo, Game.emit]
      norm_num [Enemy.new]


/-! ## Theorems: the map boundary -/

/-- One coordinate of `constrainPlayerToMap`: the value is clamped to `[-80, 80]` and the
flag is raised exactly when the value was outside that interval. -/
theorem constrain_coordinate (v : ℚ) (flag : Bool) :
    (if v > 80 then ((80 : ℚ), true) else if v < -80 then (-80, true) else (v, flag))
      = (max (-80) (min 80 v), decide (v < -80 ∨ 80 < v) || flag) := by
  by_cases h1 : v > 80
  · have h2 : ¬ v < -80 := by linarith
    have hmin : min 80 v = 80 := min_eq_left (le_of_lt h1)
    simp only [h1, if_true, hmin]
    rw [max_eq_right (by norm_num)]
    simp [h1]
  · by_cases h2 : v < -80
    · have hmin : min 80 v = v := min_eq_right (by linarith)
      simp only [h1, h2, if_true, if_false, hmin]
      rw [max_eq_left (le_of_lt h2)]
      simp [h2]
    · have hmin : min 80 v = v := min_eq_right (not_lt.mp h1)
      have h1' : ¬ 80 < v := h1
      simp only [h1, h2, if_false, hmin]
      rw [max_eq_right (not_lt.mp h2)]
      simp [h2, h1']

/-- The state after `constrainPlayerToMap`, in closed form. -/
theorem constrainPlayerToMap_eq (g : Game) :
    g.constrainPlayerToMap =
      { g with
        player := { g.player with
          mesh := { position :=
            { x := max (-80) (min 80 g.player.mesh.position.x), y := 1,
              z := max (-80) (min 80 g.player.mesh.position.z) } } },
        events := g.events
          ++ (if g.player.mesh.position.x < -80 ∨ 80 < g.player.mesh.position.x ∨
                g.player.mesh.position.z < -80 ∨ 80 < g.player.mesh.position.z
              then [GameEvent.showMessage Message.mapBoundaryReached 1000] else [])
          ++ [GameEvent.showBoundaryWarning
                (decide (|max (-80) (min 80 g.player.mesh.position.x)| > 70 ∨
                  |max (-80) (min 80 g.player.mesh.position.z)| > 70))] } := by
  have h70 : (80 : ℚ) - 10 = 70 := by norm_num
  unfold Game.constrainPlayerToMap
  simp only [constrain_coordinate, Game.emit]
  by_cases hout : g.player.mesh.position.x < -80 ∨ 80 < g.player.mesh.position.x ∨
      g.player.mesh.position.z < -80 ∨ 80 < g.player.mesh.position.z
  · have hflag : (decide (g.player.mesh.position.z < -80 ∨ 80 < g.player.mesh.position.z)
        || (decide (g.player.mesh.position.x < -80 ∨ 80 < g.player.mesh.position.x)
          || false)) = true := by
      simp only [Bool.or_false, Bool.or_eq_true, decide_eq_true_eq]
      tauto
    simp only [hflag, hout, if_true, h70]
    by_cases hw : |max (-80) (min 80 g.player.mesh.position.x)| > 70 ∨
        |max (-80) (min 80 g.player.mesh.position.z)| > 70
    · simp only [hw, if_true, decide_True, List.append_assoc]
    · simp only [hw, if_false, decide_False, List.append_assoc]
  · have hflag : (decide (g.player.mesh.position.z < -80 ∨ 80 < g.player.mesh.position.z)
        || (decide (g.player.mesh.position.x < -80 ∨ 80 < g.player.mesh.position.x)
          || false)) = false := by
      simp only [Bool.or_false, Bool.or_eq_false_iff, decide_eq_false_iff_not]
      tauto
    simp only [hflag, hout, if_false, Bool.false_eq_true, h70]
    by_cases hw : |max (-80) (min 80 g.player.mesh.position.x)| > 70 ∨
        |max (-80) (min 80 g.player.mesh.position.z)| > 70
    · simp only [hw, if_true, decide_True, List.append_nil]
    · simp only [hw, if_false, decide_False, List.append_nil]

/-- C22: `constrainPlayerToMap` leaves the player at
`(clamp(x, -80, 80), 1, clamp(z, -80, 80))`; it shows 'Map Boundary Reached!' (for one
second) exactly when `x` or `z` was outside `[-80, 80]`, and then switches the boundary
warning on exactly when the resulting `|x| > 70` or `|z| > 70`; nothing else changes.
Applied again to the constrained state it leaves the position as it is, shows no message
and repeats the same boundary warning. -/
theorem constrainPlayerToMap_spec (g : Game) :
    g.constrainPlayerToMap =
      { g with
        player := { g.player with
          mesh := { position :=
            { x := max (-80) (min 80 g.player.mesh.position.x), y := 1,
              z := max (-80) (min 80 g.player.mesh.position.z) } } },
        events := g.events
          ++ (if g.player.mesh.position.x < -80 ∨ 80 < g.player.mesh.position.x ∨
                g.player.mesh.position.z < -80 ∨ 80 < g.player.mesh.position.z
              then [GameEvent.showMessage Message.mapBoundaryReached 1000] else [])
          ++ [GameEvent.showBoundaryWarning
                (decide (|max (-80) (min 80 g.player.mesh.position.x)| > 70 ∨
                  |max (-80) (min 80 g.player.mesh.position.z)| > 70))] } ∧
    g.constrainPlayerToMap.constrainPlayerToMap =
      { g.constrainPlayerToMap with
        events := g.constrainPlayerToMap.events
          ++ [GameEvent.showBoundaryWarning
                (decide (|max (-80) (min 80 g.player.mesh.position.x)| > 70 ∨
                  |max (-80) (min 80 g.player.mesh.position.z)| > 70))] } := by
  refine ⟨constrainPlayerToMap_eq g, ?_⟩
  have hlow : ∀ v : ℚ, ¬ max (-80) (min 80 v) < -80 := fun v =>
    not_lt.mpr (le_max_left _ _)
  have hhigh : ∀ v : ℚ, ¬ 80 < max (-80) (min 80 v) := fun v =>
    not_lt.mpr (max_le (by norm_num) (min_le_left _ _))
  have hidem : ∀ v : ℚ, max (-80) (min 80 (max (-80) (min 80 v))) = max (-80) (min 80 v) :=
    fun v => by
      rw [min_eq_right (not_lt.mp (hhigh v)), max_eq_right (not_lt.mp (hlow v))]
  rw [constrainPlayerToMap_eq g.constrainPlayerToMap, constrainPlayerToMap_eq g]
  simp only [hidem, hlow, hhigh, or_self, if_false, List.append_nil]


/-! ## Theorems: the periodic spawn -/

/-- The ring of the spawn: a point `(c * d, s * d)` with `c² + s² = 1` and `d ≥ 0` lies at
distance `d` from the centre. -/
theorem ring_distance (c s d : ℚ) (hunit : c * c + s * s = 1) (hd : 0 ≤ d) :
    Real.sqrt ((((c * d : ℚ) : ℝ)) ^ 2 + (((s * d : ℚ) : ℝ)) ^ 2) = (d : ℝ) := by
  have hcast : ((c : ℝ)) * c + (s : ℝ) * s = 1 := by exact_mod_cast hunit
  have hsq : (((c * d : ℚ) : ℝ)) ^ 2 + (((s * d : ℚ) : ℝ)) ^ 2 = ((d : ℝ)) ^ 2 := by
    push_cast
    linear_combination ((d : ℝ)) ^ 2 * hcast
  rw [hsq]
  exact Real.sqrt_sq (by exact_mod_cast hd)

/-- C23, as stated, fails in an ended game: with no enemy in the list, below the
`maxEnemies = 5` of level 1, the periodic spawn callback returns at its guard and adds no
enemy. -/
theorem spawnEnemyCallback_ended_game_adds_none :
    (getCurrentLevelData ({ Game.new with isGameOver := true } : Game).levelManager).map
        (fun d => d.maxEnemies) = some 5 ∧
      ({ Game.new with isGameOver := true } : Game).enemies.length = 0 ∧
      Game.spawnEnemyCallback
          { cosAngle := 1, sinAngle := 0, distanceDraw := 1 / 2, delayDraw := 0 }
          { Game.new with isGameOver := true }
        = .returned { Game.new with isGameOver := true } := by
  refine ⟨by decide, rfl, ?_⟩
  simp [Game.spawnEnemyCallback]

/-- C23, amended: in a running game whose level is inside the table, for every draw of the
angle (cosine `c`, sine `s`, `c² + s² = 1`) and every draw `0 ≤ r < 1` behind the distance,
the periodic spawn callback returns; with `enemies.length ≥ maxEnemies` of the current
descriptor it adds no enemy and re-arms itself after one second; otherwise it appends
exactly one enemy, built from the current descriptor, at height 1 and at horizontal
distance `20 + 30 r`, in `[20, 50)`, from the centre, and re-arms itself after
`enemySpawnRate * 1000 + 500 * delayDraw`. The count never rises above the larger of its old
value and `maxEnemies`, and nothing but the enemy list and the timers changes. -/
theorem spawnEnemyCallback_spec (draws : SpawnDraws) (g : Game)
    (hrun : g.isGameOver = false)
    (h1 : 1 ≤ g.levelManager.currentLevel) (h20 : g.levelManager.currentLevel ≤ 20)
    (hunit : draws.cosAngle * draws.cosAngle + draws.sinAngle * draws.sinAngle = 1)
    (hr0 : 0 ≤ draws.distanceDraw) (hr1 : draws.distanceDraw < 1) :
    ∃ (d : LevelDescriptor) (g1 : Game),
      getCurrentLevelData g.levelManager = some d ∧
      g.spawnEnemyCallback draws = .returned g1 ∧
      (d.maxEnemies ≤ g.enemies.length →
        g1 = { g with timers := g.timers ++
          [{ callback := TimerCallback.spawnEnemy, delay := 1000 }] }) ∧
      (g.enemies.length < d.maxEnemies →
        ∃ e : Enemy,
          g1 = { g with
            enemies := g.enemies ++ [e],
            timers := g.timers ++
              [{ callback := TimerCallback.spawnEnemy,
                 delay := d.enemySpawnRate * 1000 + draws.delayDraw * 500 }] } ∧
          e = { Enemy.new (some d) with
            mesh := { position :=
              { x := draws.cosAngle * (20 + draws.distanceDraw * 30), y := 1,
                z := draws.sinAngle * (20 + draws.distanceDraw * 30) } } } ∧
          e.mesh.position.y = 1 ∧
          Real.sqrt (((e.mesh.position.x : ℝ)) ^ 2 + ((e.mesh.position.z : ℝ)) ^ 2)
            = ((20 + draws.distanceDraw * 30 : ℚ) : ℝ) ∧
          (20 : ℝ) ≤ Real.sqrt (((e.mesh.position.x : ℝ)) ^ 2 + ((e.mesh.position.z : ℝ)) ^ 2) ∧
          Real.sqrt (((e.mesh.position.x : ℝ)) ^ 2 + ((e.mesh.position.z : ℝ)) ^ 2) < 50) ∧
      g1.enemies.length ≤ max g.enemies.length d.maxEnemies := by
  obtain ⟨d, hd⟩ := arrayGet_levels_some (g.levelManager.currentLevel - 1) (by omega) (by omega)
  have hget : getCurrentLevelData g.levelManager = some d := hd
  by_cases hmax : d.maxEnemies ≤ g.enemies.length
  · refine ⟨d, _, hget, ?_, fun _ => rfl, fun hlt => absurd hmax (not_le.mpr hlt), ?_⟩
    · simp only [Game.spawnEnemyCallback, hrun, hget]
      simp [hmax]
    · exact le_max_left _ _
  · have hdist : (0 : ℚ) ≤ 20 + draws.distanceDraw * 30 := by linarith
    have hring := ring_distance draws.cosAngle draws.sinAngle (20 + draws.distanceDraw * 30)
      hunit hdist
    refine ⟨d, _, hget, ?_, fun hle => absurd hle hmax,
      fun _ => ⟨Game.placeEnemy draws (some d), rfl, rfl, rfl, hring, ?_, ?_⟩, ?_⟩
    · simp only [Game.spawnEnemyCallback, hrun, hget]
      simp [hmax]
    · show (20 : ℝ) ≤ Real.sqrt _
      erw [hring]
      have : ((20 : ℚ) : ℝ) ≤ ((20 + draws.distanceDraw * 30 : ℚ) : ℝ) := by
        exact_mod_cast (by linarith : (20 : ℚ) ≤ 20 + draws.distanceDraw * 30)
      simpa using this
    · show Real.sqrt _ < (50 : ℝ)
      erw [hring]
      have : ((20 + draws.distanceDraw * 30 : ℚ) : ℝ) < ((50 : ℚ) : ℝ) := by
        exact_mod_cast (by linarith : 20 + draws.distanceDraw * 30 < (50 : ℚ))
      simpa using this
    · show (g.enemies ++ [Game.placeEnemy draws (some d)]).length ≤ _
      rw [List.length_append, List.length_singleton]
      exact le_trans (Nat.succ_le_of_lt (not_le.mp hmax)) (le_max_right _ _)


/-- C23 amended, at a fresh game (level 1, no enemy) with the angle 0 and the draw 1/2:
the callback returns and the list then holds one enemy, at `(35, 1, 0)`. -/
theorem spawnEnemyCallback_spec_witness :
    ∃ g1 : Game,
      Game.new.spawnEnemyCallback
          { cosAngle := 1, sinAngle := 0, distanceDraw := 1 / 2, delayDraw := 0 }
        = .returned g1 ∧
      g1.enemies.map (fun e => e.mesh.position) = [{ x := 35, y := 1, z := 0 }] := by
  obtain ⟨d, g1, hd, hret, -, hadd, -⟩ := spawnEnemyCallback_spec
    { cosAngle := 1, sinAngle := 0, distanceDraw := 1 / 2, delayDraw := 0 } Game.new rfl
    (by decide) (by decide) (by norm_num) (by norm_num) (by norm_num)
  have hfive : (getCurrentLevelData Game.new.levelManager).map (fun d => d.maxEnemies)
      = some 5 := by decide
  rw [hd] at hfive
  have hlt : Game.new.enemies.length < d.maxEnemies := by
    have h5 : d.maxEnemies = 5 := by simpa using hfive
    rw [h5]
    decide
  obtain ⟨e, hg1, he, -, -, -, -⟩ := hadd hlt
  refine ⟨g1, hret, ?_⟩
  rw [hg1, he]
  norm_num [Game.new]


/-! ## Theorems: the movement of the player -/

/-- The upper-case names read the same entries of `keys` as the lower-case ones. -/
theorem isKeyPressed_upper (input : InputManager) :
    input.isKeyPressed "W" = input.isKeyPressed "w" ∧
    input.isKeyPressed "S" = input.isKeyPressed "s" ∧
    input.isKeyPressed "A" = input.isKeyPressed "a" ∧
    input.isKeyPressed "D" = input.isKeyPressed "d" :=
  ⟨rfl, rfl, rfl, rfl⟩

/-- The vector `moveVector`, coordinate by coordinate: each held key contributes its step,
and the steps are summed. -/
theorem moveVector_eq (sqrt : ℚ → ℚ) (p : Player) (dt : ℚ) (input : InputManager) :
    p.moveVector sqrt dt input =
      ((((({ x := 0, y := 0, z := 0 } : Vector3 ℚ).add
        (p.direction.multiplyScalar
          ((if input.isKeyPressed "w" then 1 else 0) * (p.speed * dt)))).add
        (p.direction.multiplyScalar
          (-((if input.isKeyPressed "s" then 1 else 0) * (p.speed * dt))))).add
        ((Vector3.normalize sqrt
            (Vector3.crossVectors p.direction { x := 0, y := 1, z := 0 })).multiplyScalar
          (-((if input.isKeyPressed "a" then 1 else 0) * (p.speed * dt))))).add
        ((Vector3.normalize sqrt
            (Vector3.crossVectors p.direction { x := 0, y := 1, z := 0 })).multiplyScalar
          ((if input.isKeyPressed "d" then 1 else 0) * (p.speed * dt)))) := by
  obtain ⟨hw, hs, ha, hd⟩ := isKeyPressed_upper input
  simp only [Player.moveVector, hw, hs, ha, hd, Bool.or_self]
  cases input.isKeyPressed "w" <;> cases input.isKeyPressed "s" <;>
    cases input.isKeyPressed "a" <;> cases input.isKeyPressed "d" <;>
    simp [Vector3.add, Vector3.multiplyScalar]

/-- The position after `handleMovement`: the horizontal coordinates of `moveVector` are
added and the height is 1, whether or not the guard on the length lets the addition run. -/
theorem handleMovement_position (sqrt : ℚ → ℚ) (p : Player) (dt : ℚ) (input : InputManager)
    (hmax : dt ≤ 33 / 1000) :
    (p.handleMovement sqrt dt input).mesh.position =
      { x := p.mesh.position.x + (p.moveVector sqrt dt input).x, y := 1,
        z := p.mesh.position.z + (p.moveVector sqrt dt input).z } ∧
    (p.handleMovement sqrt dt input).direction = p.direction ∧
    (p.handleMovement sqrt dt input).speed = p.speed := by
  refine ⟨?_, rfl, rfl⟩
  simp only [Player.handleMovement, min_eq_left hmax]
  by_cases hlen : (p.moveVector sqrt dt input).length.gt 0 = true
  · simp only [hlen, if_true, Vector3.add]
  · have hfalse : (p.moveVector sqrt dt input).length.gt 0 = false := by simpa using hlen
    simp only [hfalse, Bool.false_eq_true, if_false]
    have hzero : (p.moveVector sqrt dt input).lengthSquared ≤ 0 := by
      by_contra hpos
      apply hlen
      simp only [Vector3.length, Distance.gt, decide_eq_true_eq]
      exact ⟨le_of_lt (not_le.mp hpos), Or.inr (by simpa using not_le.mp hpos)⟩
    have hx := mul_self_nonneg (p.moveVector sqrt dt input).x
    have hy := mul_self_nonneg (p.moveVector sqrt dt input).y
    have hz := mul_self_nonneg (p.moveVector sqrt dt input).z
    simp only [Vector3.lengthSquared] at hzero
    have hx0 : (p.moveVector sqrt dt input).x = 0 := by
      have : (p.moveVector sqrt dt input).x * (p.moveVector sqrt dt input).x = 0 := by linarith
      exact mul_self_eq_zero.mp this
    have hz0 : (p.moveVector sqrt dt input).z = 0 := by
      have : (p.moveVector sqrt dt input).z * (p.moveVector sqrt dt input).z = 0 := by linarith
      exact mul_self_eq_zero.mp this
    rw [hx0, hz0, add_zero, add_zero]

/-- The rotation of the player leaves the mesh where it is. -/
theorem handleRotation_mesh (trig : Trig) (sqrt : ℚ → ℚ) (p : Player) (input : InputManager) :
    (p.handleRotation trig sqrt input).1.mesh = p.mesh := by
  simp only [Player.handleRotation]
  split_ifs <;> rfl


/-- C24, as stated, fails for a facing that looks up: with the unit facing
`(0, 3/5, -4/5)`, speed 15, `dt = 1/100` and only `w` held, the player goes from
`(0, 1, 0)` to `(0, 1, -3/25)`, a distance of `3/25`, not `speed * dt = 3/20`; the
vertical part of the step is discarded when the height is set back to 1. -/
theorem player_forward_step_shorter_when_looking_up :
    ({ Player.new with direction := { x := 0, y := 3 / 5, z := -4 / 5 } } : Player).direction.lengthSquared
      = 1 ∧
    (Player.update
        { sin := fun _ => 0, cos := fun _ => 1, asin := fun _ => 0, atan2 := fun _ _ => 0,
          pi := 22 / 7 }
        (fun q => if q = 16 / 25 then 4 / 5 else 0)
        { Player.new with direction := { x := 0, y := 3 / 5, z := -4 / 5 } } (1 / 100)
        { keys := ["w"], mouseMovement := { x := 0, y := 0 } }).1.mesh.position
      = { x := 0, y := 1, z := -3 / 25 } ∧
    (({ x := 0, y := 1, z := -3 / 25 } : Vector3 ℚ).distanceTo { x := 0, y := 1, z := 0 }).le
        (3 / 25) = true ∧
    (3 / 25 : ℚ) < Player.new.speed * (1 / 100) := by
  have hw : ({ keys := ["w"], mouseMovement := { x := 0, y := 0 } } : InputManager).isKeyPressed
      "w" = true := by decide
  have hs : ({ keys := ["w"], mouseMovement := { x := 0, y := 0 } } : InputManager).isKeyPressed
      "s" = false := by decide
  have ha : ({ keys := ["w"], mouseMovement := { x := 0, y := 0 } } : InputManager).isKeyPressed
      "a" = false := by decide
  have hd : ({ keys := ["w"], mouseMovement := { x := 0, y := 0 } } : InputManager).isKeyPressed
      "d" = false := by decide
  refine ⟨?_, ?_, ?_, ?_⟩
  · norm_num [Vector3.lengthSquared]
  · rw [Player.update, handleRotation_mesh,
      (handleMovement_position _ _ _ _ (by norm_num)).1, moveVector_eq, hw, hs, ha, hd]
    norm_num [Player.new, Vector3.add, Vector3.multiplyScalar]
  · norm_num [Vector3.distanceTo, Vector3.distanceToSquared, Distance.le]
  · norm_num [Player.new]


/-- The right vector of `handleMovement`, with `Math.sqrt` exact at the squared length of
the cross product of a facing that is not vertical: it has length 1, is horizontal and is
perpendicular to the facing. -/
theorem rightVector_unit (sqrt : ℚ → ℚ) (direction : Vector3 ℚ)
    (hne : ¬ (direction.x = 0 ∧ direction.z = 0))
    (h0 : 0 ≤ sqrt (Vector3.crossVectors direction { x := 0, y := 1, z := 0 }).lengthSquared)
    (hsq : sqrt (Vector3.crossVectors direction { x := 0, y := 1, z := 0 }).lengthSquared
        * sqrt (Vector3.crossVectors direction { x := 0, y := 1, z := 0 }).lengthSquared
      = (Vector3.crossVectors direction { x := 0, y := 1, z := 0 }).lengthSquared) :
    (Vector3.normalize sqrt
      (Vector3.crossVectors direction { x := 0, y := 1, z := 0 })).lengthSquared = 1 ∧
    (Vector3.normalize sqrt (Vector3.crossVectors direction { x := 0, y := 1, z := 0 })).y = 0 ∧
    (Vector3.normalize sqrt (Vector3.crossVectors direction { x := 0, y := 1, z := 0 })).x
        * direction.x
      + (Vector3.normalize sqrt (Vector3.crossVectors direction { x := 0, y := 1, z := 0 })).z
        * direction.z = 0 := by
  have hv : Vector3.crossVectors direction { x := 0, y := 1, z := 0 }
      ≠ { x := 0, y := 0, z := 0 } := by
    intro h
    apply hne
    have hx := congrArg Vector3.x h
    have hz := congrArg Vector3.z h
    simp only [Vector3.crossVectors] at hx hz
    constructor <;> linarith
  obtain ⟨hone, k, -, hk⟩ := normalize_unit sqrt _ hv h0 hsq
  refine ⟨hone, ?_, ?_⟩
  · rw [hk]
    simp [Vector3.multiplyScalar, Vector3.crossVectors]
  · rw [hk]
    simp only [Vector3.multiplyScalar, Vector3.crossVectors]
    ring

/-- C24, amended: for `0 ≤ dt ≤ 0.033`, every position, facing and input, `Player.update`
leaves the player at height 1, and its horizontal displacement is the sum, over the held
inputs, of `speed * dt` times the horizontal part of the facing (forward `w`, back `s`) and
of the right vector (left `a`, right `d`), without renormalising. With only the forward
input held and a speed that is not negative, the distance moved is
`speed * dt * sqrt(dx² + dz²)` for the facing `(dx, dy, dz)`: exactly `speed * dt` when the
facing is horizontal of length 1, less when it looks up or down. -/
theorem player_update_position (trig : Trig) (sqrt : ℚ → ℚ) (p : Player) (dt : ℚ)
    (input : InputManager) (h0 : 0 ≤ dt) (hmax : dt ≤ 33 / 1000) :
    (p.update trig sqrt dt input).1.mesh.position =
      { x := p.mesh.position.x
          + ((if input.isKeyPressed "w" then 1 else 0) - (if input.isKeyPressed "s" then 1 else 0))
            * (p.direction.x * (p.speed * dt))
          + ((if input.isKeyPressed "d" then 1 else 0) - (if input.isKeyPressed "a" then 1 else 0))
            * ((Vector3.normalize sqrt
                (Vector3.crossVectors p.direction { x := 0, y := 1, z := 0 })).x
              * (p.speed * dt)),
        y := 1,
        z := p.mesh.position.z
          + ((if input.isKeyPressed "w" then 1 else 0) - (if input.isKeyPressed "s" then 1 else 0))
            * (p.direction.z * (p.speed * dt))
          + ((if input.isKeyPressed "d" then 1 else 0) - (if input.isKeyPressed "a" then 1 else 0))
            * ((Vector3.normalize sqrt
                (Vector3.crossVectors p.direction { x := 0, y := 1, z := 0 })).z
              * (p.speed * dt)) } ∧
    (input.isKeyPressed "w" = true → input.isKeyPressed "s" = false →
      input.isKeyPressed "a" = false → input.isKeyPressed "d" = false → 0 ≤ p.speed →
      Real.sqrt
          ((((p.update trig sqrt dt input).1.mesh.position.x - p.mesh.position.x : ℚ) : ℝ) ^ 2
            + (((p.update trig sqrt dt input).1.mesh.position.z - p.mesh.position.z : ℚ) : ℝ) ^ 2)
        = (p.speed : ℝ) * (dt : ℝ)
          * Real.sqrt ((p.direction.x : ℝ) ^ 2 + (p.direction.z : ℝ) ^ 2) ∧
      (p.direction.y = 0 → p.direction.lengthSquared = 1 →
        Real.sqrt
            ((((p.update trig sqrt dt input).1.mesh.position.x - p.mesh.position.x : ℚ) : ℝ) ^ 2
              + (((p.update trig sqrt dt input).1.mesh.position.z - p.mesh.position.z : ℚ) : ℝ)
                ^ 2)
          = (p.speed : ℝ) * (dt : ℝ))) := by
  have hx : (p.update trig sqrt dt input).1.mesh.position.x = p.mesh.position.x
      + ((if input.isKeyPressed "w" then 1 else 0) - (if input.isKeyPressed "s" then 1 else 0))
        * (p.direction.x * (p.speed * dt))
      + ((if input.isKeyPressed "d" then 1 else 0) - (if input.isKeyPressed "a" then 1 else 0))
        * ((Vector3.normalize sqrt
            (Vector3.crossVectors p.direction { x := 0, y := 1, z := 0 })).x
          * (p.speed * dt)) := by
    rw [Player.update, handleRotation_mesh, (handleMovement_position _ _ _ _ hmax).1,
      moveVector_eq]
    simp only [Vector3.add, Vector3.multiplyScalar]
    ring
  have hz : (p.update trig sqrt dt input).1.mesh.position.z = p.mesh.position.z
      + ((if input.isKeyPressed "w" then 1 else 0) - (if input.isKeyPressed "s" then 1 else 0))
        * (p.direction.z * (p.speed * dt))
      + ((if input.isKeyPressed "d" then 1 else 0) - (if input.isKeyPressed "a" then 1 else 0))
        * ((Vector3.normalize sqrt
            (Vector3.crossVectors p.direction { x := 0, y := 1, z := 0 })).z
          * (p.speed * dt)) := by
    rw [Player.update, handleRotation_mesh, (handleMovement_position _ _ _ _ hmax).1,
      moveVector_eq]
    simp only [Vector3.add, Vector3.multiplyScalar]
    ring
  have hy : (p.update trig sqrt dt input).1.mesh.position.y = 1 := by
    rw [Player.update, handleRotation_mesh, (handleMovement_position _ _ _ _ hmax).1]
  constructor
  · rw [← hx, ← hz, ← hy]
  · intro hw hs ha hd hspeed
    have hstep : (0 : ℝ) ≤ (p.speed : ℝ) * (dt : ℝ) :=
      mul_nonneg (by exact_mod_cast hspeed) (by exact_mod_cast h0)
    have hsq : ∀ a b c : ℝ, 0 ≤ c → Real.sqrt ((a * c) ^ 2 + (b * c) ^ 2)
        = c * Real.sqrt (a ^ 2 + b ^ 2) := by
      intro a b c hc
      have : (a * c) ^ 2 + (b * c) ^ 2 = c ^ 2 * (a ^ 2 + b ^ 2) := by ring
      rw [this, Real.sqrt_mul (sq_nonneg c), Real.sqrt_sq hc]
    have hdx : (p.update trig sqrt dt input).1.mesh.position.x - p.mesh.position.x
        = p.direction.x * (p.speed * dt) := by
      rw [hx]
      simp only [hw, hs, ha, hd, if_true, Bool.false_eq_true, if_false]
      ring
    have hdz : (p.update trig sqrt dt input).1.mesh.position.z - p.mesh.position.z
        = p.direction.z * (p.speed * dt) := by
      rw [hz]
      simp only [hw, hs, ha, hd, if_true, Bool.false_eq_true, if_false]
      ring
    have hmain : Real.sqrt
          ((((p.update trig sqrt dt input).1.mesh.position.x - p.mesh.position.x : ℚ) : ℝ) ^ 2
            + (((p.update trig sqrt dt input).1.mesh.position.z - p.mesh.position.z : ℚ) : ℝ) ^ 2)
        = (p.speed : ℝ) * (dt : ℝ)
          * Real.sqrt ((p.direction.x : ℝ) ^ 2 + (p.direction.z : ℝ) ^ 2) := by
      rw [hdx, hdz]
      push_cast
      exact hsq _ _ _ hstep
    refine ⟨hmain, ?_⟩
    intro hflat hunit
    rw [hmain]
    have hone : (p.direction.x : ℝ) ^ 2 + (p.direction.z : ℝ) ^ 2 = 1 := by
      simp only [Vector3.lengthSquared, hflat] at hunit
      have : p.direction.x ^ 2 + p.direction.z ^ 2 = 1 := by linarith
      exact_mod_cast this
    rw [hone, Real.sqrt_one, mul_one]

/-- C24 amended, at a fresh player facing `(0, 0, -1)` with only `w` held for 16 ms: the
player goes from `(0, 1, 0)` to `(0, 1, -6/25)`, that is `15 * 0.016 = 0.24` forward. -/
theorem player_update_position_witness :
    (0 : ℚ) ≤ 2 / 125 ∧ (2 / 125 : ℚ) ≤ 33 / 1000 ∧
    (Player.update
        { sin := fun _ => 0, cos := fun _ => 1, asin := fun _ => 0, atan2 := fun _ _ => 0,
          pi := 22 / 7 }
        (fun _ => 1) Player.new (2 / 125)
        { keys := ["w"], mouseMovement := { x := 0, y := 0 } }).1.mesh.position
      = { x := 0, y := 1, z := -6 / 25 } := by
  have hw : ({ keys := ["w"], mouseMovement := { x := 0, y := 0 } } : InputManager).isKeyPressed
      "w" = true := by decide
  have hs : ({ keys := ["w"], mouseMovement := { x := 0, y := 0 } } : InputManager).isKeyPressed
      "s" = false := by decide
  have ha : ({ keys := ["w"], mouseMovement := { x := 0, y := 0 } } : InputManager).isKeyPressed
      "a" = false := by decide
  have hd : ({ keys := ["w"], mouseMovement := { x := 0, y := 0 } } : InputManager).isKeyPressed
      "d" = false := by decide
  refine ⟨by norm_num, by norm_num, ?_⟩
  rw [(player_update_position
    { sin := fun _ => 0, cos := fun _ => 1, asin := fun _ => 0, atan2 := fun _ _ => 0,
      pi := 22 / 7 }
    (fun _ => 1) Player.new (2 / 125) { keys := ["w"], mouseMovement := { x := 0, y := 0 } }
    (by norm_num) (by norm_num)).1]
  simp only [hw, hs, ha, hd]
  norm_num [Player.new]


/-! ## Theorems: splices inside the loops of the collision pass -/

/-- Two bullets and two enemies, the first bullet overlapping the first enemy: after that
hit both loops find nothing at index 1 of the shortened lists, so the second bullet is
never tested and it stays in the list together with the second enemy. -/
theorem bulletPass_skips_second_pair (g : Game) (b1 b2 : Bullet ℚ) (e1 e2 : Enemy)
    (h1 : 1 ≤ g.levelManager.currentLevel) (h20 : g.levelManager.currentLevel ≤ 20)
    (hb : g.bullets = [b1, b2]) (he : g.enemies = [e1, e2])
    (hhit : checkCollision g.collisionManager (some b1.mesh) (some e1.mesh) = true) :
    ∃ es,
      g.checkBulletEnemyCollisions = .returned
        { g with levelManager := (addScore g.levelManager 10).state,
                 bullets := [b2], enemies := [e2],
                 events := g.events ++ es ++ [GameEvent.playSound Sound.enemyHit] } := by
  obtain ⟨es, -, heq⟩ := bulletHitsEnemy_hit g b1 0 e1 0 h1 h20 hhit
  refine ⟨es, ?_⟩
  simp only [Game.checkBulletEnemyCollisions, Game.bulletCallback, forEachIndex, hb, he,
    List.length_cons, List.length_nil, List.range', List.foldl_cons, List.foldl_nil,
    Completion.andThen, List.getElem?_cons_zero, heq, List.eraseIdx_cons_zero]
  simp

/-- Two bullets and three enemies, the first bullet overlapping the first and the third
enemy: the second hit of the first bullet splices index 0 of the bullet list again, which
by then holds the second bullet, so both bullets are gone although the second one was
never tested against any enemy. -/
theorem bulletPass_double_hit_removes_next (g : Game) (b1 b2 : Bullet ℚ) (e1 e2 e3 : Enemy)
    (h1 : 1 ≤ g.levelManager.currentLevel) (h20 : g.levelManager.currentLevel ≤ 20)
    (hb : g.bullets = [b1, b2]) (he : g.enemies = [e1, e2, e3])
    (hhit1 : checkCollision g.collisionManager (some b1.mesh) (some e1.mesh) = true)
    (hhit3 : checkCollision g.collisionManager (some b1.mesh) (some e3.mesh) = true) :
    ∃ g1, g.checkBulletEnemyCollisions = .returned g1 ∧
      g1.bullets = [] ∧ g1.enemies = [e2] ∧
      g1.levelManager.score = g.levelManager.score + 20 := by
  obtain ⟨es1, -, heq1⟩ := bulletHitsEnemy_hit g b1 0 e1 0 h1 h20 hhit1
  obtain ⟨hr1, hr20⟩ := addScore_level_range g.levelManager 10 h1 h20
  obtain ⟨g2, hg2⟩ : ∃ g2 : Game, g2 =
      { g with levelManager := (addScore g.levelManager 10).state,
               bullets := g.bullets.eraseIdx 0,
               enemies := g.enemies.eraseIdx 0,
               events := g.events ++ es1 ++ [GameEvent.playSound Sound.enemyHit] } := ⟨_, rfl⟩
  rw [← hg2] at heq1
  have hb2 : g2.bullets = [b2] := by rw [hg2, hb]; rfl
  have he2 : g2.enemies = [e2, e3] := by rw [hg2, he]; rfl
  have hlm2 : g2.levelManager = (addScore g.levelManager 10).state := by rw [hg2]
  have hcm2 : g2.collisionManager = g.collisionManager := by rw [hg2]
  obtain ⟨es2, -, heq2⟩ := bulletHitsEnemy_hit g2 b1 0 e3 1 (by rw [hlm2]; exact hr1)
    (by rw [hlm2]; exact hr20) (by rw [hcm2]; exact hhit3)
  refine ⟨{ g2 with levelManager := (addScore g2.levelManager 10).state,
                    bullets := g2.bullets.eraseIdx 0,
                    enemies := g2.enemies.eraseIdx 1,
                    events := g2.events ++ es2 ++ [GameEvent.playSound Sound.enemyHit] },
    ?_, ?_, ?_, ?_⟩
  · have hvisit : g2.enemies[1]? = some e3 := by rw [he2]; rfl
    simp only [Game.checkBulletEnemyCollisions, Game.bulletCallback, forEachIndex, hb, he,
      List.length_cons, List.length_nil, List.range', List.foldl_cons, List.foldl_nil,
      Completion.andThen, List.getElem?_cons_zero, heq1, zero_add, hvisit, heq2]
    simp [hb2, he2]
  · show g2.bullets.eraseIdx 0 = []
    rw [hb2]
    rfl
  · show g2.enemies.eraseIdx 1 = [e2]
    rw [he2]
    rfl
  · show (addScore g2.levelManager 10).state.score = _
    rw [addScore_score, hlm2, addScore_score]
    ring

/-- The player loop does not touch the bullet list. -/
theorem playerPass_bullets (g : Game) :
    g.checkPlayerEnemyCollisions.bullets = g.bullets := by
  apply playerPass_induction (fun st => st.bullets = g.bullets) g rfl
  intro st enemy i hP _
  by_cases hhit : checkCollision st.collisionManager (some st.player.mesh) (some enemy.mesh)
      = true
  · rw [playerHitByEnemy_hit st enemy i hhit]
    exact hP
  · simp only [Game.playerHitByEnemy, hhit]
    exact hP

/-- C25: the splices inside the two `forEach` loops make the pass skip pairs. With two
bullets, at `(0, 0, 0)` and `(1/2, 0, 0)`, and two enemies, at `(0, 0, 0)` and
`(0, 0, 1/2)`, every bullet within the collision distance 1 of every enemy, the pass
removes the first bullet with the first enemy and returns with the second bullet and the
second enemy both still in their lists, although they overlap. -/
theorem checkBulletEnemyCollisions_leaves_overlapping_pair :
    ∃ g1 : Game,
      Game.checkBulletEnemyCollisions
          { Game.new with
            bullets := [Bullet.new (fun _ : ℚ => 1) { x := 0, y := 0, z := 0 } { x := 0, y := 0, z := -1 },
              Bullet.new (fun _ : ℚ => 1) { x := 1 / 2, y := 0, z := 0 } { x := 0, y := 0, z := -1 }],
            enemies := [Enemy.new none,
              { Enemy.new none with mesh := { position := { x := 0, y := 0, z := 1 / 2 } } }] }
        = .returned g1 ∧
      g1.bullets
        = [Bullet.new (fun _ : ℚ => 1) { x := 1 / 2, y := 0, z := 0 } { x := 0, y := 0, z := -1 }] ∧
      g1.enemies
        = [{ Enemy.new none with mesh := { position := { x := 0, y := 0, z := 1 / 2 } } }] ∧
      checkCollision g1.collisionManager
        (some (Bullet.new (fun _ : ℚ => 1) { x := 1 / 2, y := 0, z := 0 }
          { x := 0, y := 0, z := -1 }).mesh)
        (some ({ Enemy.new none with
          mesh := { position := { x := 0, y := 0, z := 1 / 2 } } } : Enemy).mesh) = true := by
  obtain ⟨es, hret⟩ := bulletPass_skips_second_pair
    { Game.new with
      bullets := [Bullet.new (fun _ : ℚ => 1) { x := 0, y := 0, z := 0 } { x := 0, y := 0, z := -1 },
        Bullet.new (fun _ : ℚ => 1) { x := 1 / 2, y := 0, z := 0 } { x := 0, y := 0, z := -1 }],
      enemies := [Enemy.new none,
        { Enemy.new none with mesh := { position := { x := 0, y := 0, z := 1 / 2 } } }] }
    _ _ _ _ (by decide) (by decide) rfl rfl
    (by norm_num [checkCollision, Game.new, CollisionManager.new, Bullet.new, Enemy.new,
      Vector3.distanceTo, Vector3.distanceToSquared, Distance.le])
  refine ⟨_, hret, rfl, rfl, ?_⟩
  norm_num [checkCollision, Game.new, CollisionManager.new, Bullet.new, Enemy.new,
    Vector3.distanceTo, Vector3.distanceToSquared, Distance.le]

/-- C29: a bullet that hits two enemies splices the bullet list twice at its own index.
With a first bullet at the origin, a second bullet 100 units away, and three enemies at
`(0, 0, 0)`, `(50, 0, 0)` and `(0, 0, 1/2)`, the second bullet is farther than the
collision distance from every enemy, yet after the pass, and after the whole of
`checkCollisions`, the bullet list is empty: the second hit of the first bullet removed
the second bullet. -/
theorem checkCollisions_removes_bullet_that_hit_nothing :
    (∀ e ∈ [Enemy.new none,
          { Enemy.new none with mesh := { position := { x := 50, y := 0, z := 0 } } },
          { Enemy.new none with mesh := { position := { x := 0, y := 0, z := 1 / 2 } } }],
      checkCollision Game.new.collisionManager
        (some (Bullet.new (fun _ : ℚ => 1) { x := 100, y := 0, z := 0 }
          { x := 0, y := 0, z := -1 }).mesh) (some e.mesh) = false) ∧
    ∃ g1 g2 : Game,
      Game.checkBulletEnemyCollisions
          { Game.new with
            bullets := [Bullet.new (fun _ : ℚ => 1) { x := 0, y := 0, z := 0 } { x := 0, y := 0, z := -1 },
              Bullet.new (fun _ : ℚ => 1) { x := 100, y := 0, z := 0 } { x := 0, y := 0, z := -1 }],
            enemies := [Enemy.new none,
              { Enemy.new none with mesh := { position := { x := 50, y := 0, z := 0 } } },
              { Enemy.new none with mesh := { position := { x := 0, y := 0, z := 1 / 2 } } }] }
        = .returned g1 ∧
      Game.checkCollisions
          { Game.new with
            bullets := [Bullet.new (fun _ : ℚ => 1) { x := 0, y := 0, z := 0 } { x := 0, y := 0, z := -1 },
              Bullet.new (fun _ : ℚ => 1) { x := 100, y := 0, z := 0 } { x := 0, y := 0, z := -1 }],
            enemies := [Enemy.new none,
              { Enemy.new none with mesh := { position := { x := 50, y := 0, z := 0 } } },
              { Enemy.new none with mesh := { position := { x := 0, y := 0, z := 1 / 2 } } }] }
        = .returned g2 ∧
      g1.bullets = [] ∧ g2.bullets = [] ∧
      g1.enemies
        = [{ Enemy.new none with mesh := { position := { x := 50, y := 0, z := 0 } } }] := by
  constructor
  · intro e he
    simp only [List.mem_cons, List.mem_singleton, List.not_mem_nil, or_false] at he
    rcases he with rfl | rfl | rfl <;>
      norm_num [checkCollision, Game.new, CollisionManager.new, Bullet.new, Enemy.new,
        Vector3.distanceTo, Vector3.distanceToSquared, Distance.le]
  · obtain ⟨g1, hret, hb, he, -⟩ := bulletPass_double_hit_removes_next
      { Game.new with
        bullets := [Bullet.new (fun _ : ℚ => 1) { x := 0, y := 0, z := 0 } { x := 0, y := 0, z := -1 },
          Bullet.new (fun _ : ℚ => 1) { x := 100, y := 0, z := 0 } { x := 0, y := 0, z := -1 }],
        enemies := [Enemy.new none,
          { Enemy.new none with mesh := { position := { x := 50, y := 0, z := 0 } } },
          { Enemy.new none with mesh := { position := { x := 0, y := 0, z := 1 / 2 } } }] }
      _ _ _ _ _ (by decide) (by decide) rfl rfl
      (by norm_num [checkCollision, Game.new, CollisionManager.new, Bullet.new, Enemy.new,
        Vector3.distanceTo, Vector3.distanceToSquared, Distance.le])
      (by norm_num [checkCollision, Game.new, CollisionManager.new, Bullet.new, Enemy.new,
        Vector3.distanceTo, Vector3.distanceToSquared, Distance.le])
    refine ⟨g1, g1.checkPlayerEnemyCollisions, hret, ?_, hb, ?_, he⟩
    · simp only [Game.checkCollisions, hret, Completion.andThen]
    · rw [playerPass_bullets, hb]


/-! ## Theorems: the bullet loop of the frame update -/

/-- Two bullets, the first of which asks for removal once updated: the first is spliced
out, the loop then finds nothing at index 1, and the second bullet stays as it was, its
age not advanced. -/
theorem updateBullets_skips_after_removed (g : Game) (b1 b2 : Bullet ℚ) (dt : ℚ)
    (hb : g.bullets = [b1, b2]) (hremove : (b1.update dt).shouldRemove = true) :
    g.updateBullets dt = { g with bullets := [b2] } := by
  simp only [Game.updateBullets, forEachIndex, hb, List.length_cons, List.length_nil,
    List.range', List.foldl_cons, List.foldl_nil, Game.updateBulletStep,
    List.getElem?_cons_zero, List.set_cons_zero, hremove, if_true, List.eraseIdx_cons_zero]
  simp

/-- The first steps of a frame leave the bullets, the enemies and the end-of-game flag as
they were. -/
theorem updatePlayer_frame (env : FrameEnv) (g : Game) (dt : ℚ) :
    (g.updatePlayer env dt).bullets = g.bullets ∧
    (g.updatePlayer env dt).enemies = g.enemies ∧
    (g.updatePlayer env dt).isGameOver = g.isGameOver := by
  simp only [Game.updatePlayer, constrainPlayerToMap_eq, Game.emit, and_self]

/-- With no enemy in the list, the enemy loop and the collision pass do nothing. -/
theorem no_enemies_passes (env : FrameEnv) (g : Game) (dt : ℚ) (he : g.enemies = []) :
    g.updateEnemies env dt = g ∧ g.checkCollisions = .returned g := by
  constructor
  · simp only [Game.updateEnemies, he, List.length_nil, forEachIndex, List.range',
      List.foldl_nil]
  · have hb : g.checkBulletEnemyCollisions = .returned g :=
      bulletPass_no_hit g (by
        intro b _ x hx
        rw [he] at hx
        cases hx)
    simp only [Game.checkCollisions, hb, Completion.andThen, Game.checkPlayerEnemyCollisions,
      he, List.length_nil, forEachIndex, List.range', List.foldl_nil]


/-- C26: the splice inside the `forEach` over the bullets makes the loop skip the bullet
that follows a removed one. In a running game without enemies and with two bullets, the
first of age 2.99 and the second just fired (age 0), the frame `update(0.02)` removes the
first bullet, whose new age 3.01 has reached the lifetime 3, and returns with the second
bullet still at age 0 and at its old position: its age was not advanced by `dt`, whereas
its update would have given the age 0.02. -/
theorem update_skips_bullet_after_removed_one :
    ∃ g1 : Game,
      Game.update
          { sqrt := fun _ => 1,
            trig := { sin := fun _ => 0, cos := fun _ => 1, asin := fun _ => 0,
                      atan2 := fun _ _ => 0, pi := 22 / 7 },
            patrol := fun _ => { first1 := 0, first2 := 0, turn1 := 0, turn2 := 0 } }
          { Game.new with
            bullets :=
              [{ Bullet.new (fun _ : ℚ => 1) { x := 0, y := 2, z := 5 } { x := 0, y := 0, z := -1 }
                 with age := 299 / 100 },
               Bullet.new (fun _ : ℚ => 1) { x := 0, y := 2, z := 5 } { x := 0, y := 0, z := -1 }] }
          (1 / 50)
        = .returned g1 ∧
      g1.bullets
        = [Bullet.new (fun _ : ℚ => 1) { x := 0, y := 2, z := 5 } { x := 0, y := 0, z := -1 }] ∧
      g1.bullets.map (fun b => b.age) = [0] ∧
      ((Bullet.new (fun _ : ℚ => 1) { x := 0, y := 2, z := 5 } { x := 0, y := 0, z := -1 }).update
        (1 / 50)).age = 1 / 50 := by
  obtain ⟨env, henv⟩ : ∃ env : FrameEnv, env =
      { sqrt := fun _ => 1,
        trig := { sin := fun _ => 0, cos := fun _ => 1, asin := fun _ => 0,
                  atan2 := fun _ _ => 0, pi := 22 / 7 },
        patrol := fun _ => { first1 := 0, first2 := 0, turn1 := 0, turn2 := 0 } } := ⟨_, rfl⟩
  obtain ⟨g, hg⟩ : ∃ g : Game, g =
      { Game.new with
        bullets :=
          [{ Bullet.new (fun _ : ℚ => 1) { x := 0, y := 2, z := 5 } { x := 0, y := 0, z := -1 }
             with age := 299 / 100 },
           Bullet.new (fun _ : ℚ => 1) { x := 0, y := 2, z := 5 } { x := 0, y := 0, z := -1 }] } :=
    ⟨_, rfl⟩
  rw [← henv, ← hg]
  obtain ⟨hbullets, henemies, -⟩ := updatePlayer_frame env g (1 / 50)
  have hb : (g.updatePlayer env (1 / 50)).bullets =
      [{ Bullet.new (fun _ : ℚ => 1) { x := 0, y := 2, z := 5 } { x := 0, y := 0, z := -1 }
         with age := 299 / 100 },
       Bullet.new (fun _ : ℚ => 1) { x := 0, y := 2, z := 5 } { x := 0, y := 0, z := -1 }] := by
    rw [hbullets, hg]
  have he : (g.updatePlayer env (1 / 50)).enemies = [] := by
    rw [henemies, hg]
    rfl
  have hloop := updateBullets_skips_after_removed (g.updatePlayer env (1 / 50)) _ _ (1 / 50) hb
    (by norm_num [Bullet.update, Bullet.shouldRemove, Bullet.new])
  have hrun : g.isGameOver = false := by rw [hg]; rfl
  refine ⟨{ g.updatePlayer env (1 / 50) with
      bullets := [Bullet.new (fun _ : ℚ => 1) { x := 0, y := 2, z := 5 }
        { x := 0, y := 0, z := -1 }] }, ?_, rfl, ?_, ?_⟩
  · simp only [Game.update, hrun, Bool.false_eq_true, if_false,
      (no_enemies_passes env _ (1 / 50) he).1, hloop]
    exact (no_enemies_passes env _ (1 / 50) (show ({ g.updatePlayer env (1 / 50) with
      bullets := [Bullet.new (fun _ : ℚ => 1) { x := 0, y := 2, z := 5 }
        { x := 0, y := 0, z := -1 }] } : Game).enemies = [] from he)).2
  · norm_num [Bullet.new]
  · norm_num [Bullet.update, Bullet.new]


/-! ## Theorems: the hit tests of the orchestrator and the helpers -/

/-- One bullet overlapping the one enemy: `checkCollisions` returns with both lists empty
and 10 points added. -/
theorem checkCollisions_single_bullet_hit (g : Game) (b : Bullet ℚ) (e : Enemy)
    (h1 : 1 ≤ g.levelManager.currentLevel) (h20 : g.levelManager.currentLevel ≤ 20)
    (hb : g.bullets = [b]) (he : g.enemies = [e])
    (hhit : checkCollision g.collisionManager (some b.mesh) (some e.mesh) = true) :
    ∃ g1, g.checkCollisions = .returned g1 ∧ g1.bullets = [] ∧ g1.enemies = [] ∧
      g1.levelManager.score = g.levelManager.score + 10 := by
  obtain ⟨es, -, hret⟩ := bulletPass_single_hit g b e h1 h20 hb he hhit
  refine ⟨{ g with levelManager := (addScore g.levelManager 10).state,
                   bullets := [], enemies := [],
                   events := g.events ++ es ++ [GameEvent.playSound Sound.enemyHit] },
    ?_, rfl, rfl, addScore_score _ _⟩
  simp only [Game.checkCollisions, hret, Completion.andThen, Game.checkPlayerEnemyCollisions,
    List.length_nil, forEachIndex, List.range', List.foldl_nil]

/-- C27, as stated, fails for bullets: a bullet at the origin and an enemy at
`(4/5, 0, 0)` are `0.8` apart, more than `0.1 + 0.5`, so `checkBulletEnemyCollision` is
false; yet `checkCollisions` tests them with `checkCollision`, whose threshold is 1, and
removes both. -/
theorem checkCollisions_hit_outside_bullet_radius :
    checkBulletEnemyCollision
        (Bullet.new (fun _ : ℚ => 1) { x := 0, y := 0, z := 0 } { x := 0, y := 0, z := -1 })
        { Enemy.new none with mesh := { position := { x := 4 / 5, y := 0, z := 0 } } }
      = false ∧
    ∃ g1 : Game,
      Game.checkCollisions
          { Game.new with
            bullets :=
              [Bullet.new (fun _ : ℚ => 1) { x := 0, y := 0, z := 0 } { x := 0, y := 0, z := -1 }],
            enemies :=
              [{ Enemy.new none with mesh := { position := { x := 4 / 5, y := 0, z := 0 } } }] }
        = .returned g1 ∧
      g1.bullets = [] ∧ g1.enemies = [] ∧ g1.levelManager.score = 10 := by
  constructor
  · norm_num [checkBulletEnemyCollision, checkCollisionWithRadius, Bullet.new, Enemy.new,
      Vector3.distanceTo, Vector3.distanceToSquared, Distance.le]
  · obtain ⟨g1, hret, hb, he, hscore⟩ := checkCollisions_single_bullet_hit
      { Game.new with
        bullets :=
          [Bullet.new (fun _ : ℚ => 1) { x := 0, y := 0, z := 0 } { x := 0, y := 0, z := -1 }],
        enemies :=
          [{ Enemy.new none with mesh := { position := { x := 4 / 5, y := 0, z := 0 } } }] }
      _ _ (by decide) (by decide) rfl rfl
      (by norm_num [checkCollision, Game.new, CollisionManager.new, Bullet.new, Enemy.new,
        Vector3.distanceTo, Vector3.distanceToSquared, Distance.le])
    refine ⟨g1, hret, hb, he, ?_⟩
    rw [hscore]
    norm_num [Game.new, LevelManager.new]


/-- C27, amended: with the threshold `collisionDistance = 1` that the constructor sets, the
bullet test of `checkCollisions` is `checkCollision`, true exactly when the two positions
are at most 1 apart, whereas `checkBulletEnemyCollision` is true exactly when they are at
most `0.1 + 0.5` apart; every hit of the helper is a hit of the orchestrator, not
conversely. The player test of `checkCollisions` agrees with `checkPlayerEnemyCollision`:
both are true exactly when the positions are at most `0.5 + 0.5` apart. A pair that fails
the test leaves the game as it is; a pair that passes it is spliced out (bullet and enemy,
at a level inside the table) or costs the player the damage of the enemy. -/
theorem checkCollisions_hit_tests (g : Game) (bullet : Bullet ℚ) (enemy : Enemy)
    (hthreshold : g.collisionManager.collisionDistance = 1) :
    (checkCollision g.collisionManager (some bullet.mesh) (some enemy.mesh) = true ↔
      Real.sqrt ((bullet.mesh.position.distanceToSquared enemy.mesh.position : ℚ) : ℝ) ≤ 1) ∧
    (checkBulletEnemyCollision bullet enemy = true ↔
      Real.sqrt ((bullet.mesh.position.distanceToSquared enemy.mesh.position : ℚ) : ℝ)
        ≤ 1 / 10 + 1 / 2) ∧
    (checkBulletEnemyCollision bullet enemy = true →
      checkCollision g.collisionManager (some bullet.mesh) (some enemy.mesh) = true) ∧
    checkCollision g.collisionManager (some g.player.mesh) (some enemy.mesh)
      = checkPlayerEnemyCollision g.player enemy ∧
    (checkPlayerEnemyCollision g.player enemy = true ↔
      Real.sqrt ((g.player.mesh.position.distanceToSquared enemy.mesh.position : ℚ) : ℝ)
        ≤ 1 / 2 + 1 / 2) ∧
    (checkCollision g.collisionManager (some bullet.mesh) (some enemy.mesh) = false →
      ∀ bi ei : ℕ, g.bulletHitsEnemy bullet bi enemy ei = .returned g) ∧
    (checkCollision g.collisionManager (some bullet.mesh) (some enemy.mesh) = true →
      1 ≤ g.levelManager.currentLevel → g.levelManager.currentLevel ≤ 20 →
      ∀ bi ei : ℕ, ∃ g1, g.bulletHitsEnemy bullet bi enemy ei = .returned g1 ∧
        g1.bullets = g.bullets.eraseIdx bi ∧ g1.enemies = g.enemies.eraseIdx ei) ∧
    (checkPlayerEnemyCollision g.player enemy = false →
      ∀ i : ℕ, g.playerHitByEnemy enemy i = g) ∧
    (checkPlayerEnemyCollision g.player enemy = true →
      ∀ i : ℕ, (g.playerHitByEnemy enemy i).health = g.health - enemy.damage ∧
        (g.playerHitByEnemy enemy i).enemies = g.enemies.eraseIdx i) := by
  have hgame : ∀ m : Mesh ℚ, checkCollision g.collisionManager (some m) (some enemy.mesh) = true ↔
      Real.sqrt ((m.position.distanceToSquared enemy.mesh.position : ℚ) : ℝ) ≤ 1 := by
    intro m
    have h := Distance.le_sqrt_iff (m.position.distanceToSquared enemy.mesh.position) 1
      (distanceToSquared_nonneg _ _)
    simp only [Rat.cast_one] at h
    rw [← h]
    simp only [checkCollision, hthreshold, Vector3.distanceTo]
  have hhelper : ∀ (m : Mesh ℚ) (r1 r2 : ℚ),
      checkCollisionWithRadius (some m) (some enemy.mesh) (some r1) (some r2) = true ↔
      Real.sqrt ((m.position.distanceToSquared enemy.mesh.position : ℚ) : ℝ)
        ≤ (r1 : ℝ) + (r2 : ℝ) := by
    intro m r1 r2
    have h := Distance.le_sqrt_iff (m.position.distanceToSquared enemy.mesh.position) (r1 + r2)
      (distanceToSquared_nonneg _ _)
    simp only [Rat.cast_add] at h
    rw [← h]
    simp only [checkCollisionWithRadius, Vector3.distanceTo, Option.getD_some]
  have hbullet : checkBulletEnemyCollision bullet enemy = true ↔
      Real.sqrt ((bullet.mesh.position.distanceToSquared enemy.mesh.position : ℚ) : ℝ)
        ≤ 1 / 10 + 1 / 2 := by
    have h := hhelper bullet.mesh (1 / 10) (1 / 2)
    simp only [Rat.cast_div, Rat.cast_one, Rat.cast_ofNat] at h
    exact h
  have hplayer : checkPlayerEnemyCollision g.player enemy = true ↔
      Real.sqrt ((g.player.mesh.position.distanceToSquared enemy.mesh.position : ℚ) : ℝ)
        ≤ 1 / 2 + 1 / 2 := by
    have h := hhelper g.player.mesh (1 / 2) (1 / 2)
    simp only [Rat.cast_div, Rat.cast_one, Rat.cast_ofNat] at h
    exact h
  have hsame : checkCollision g.collisionManager (some g.player.mesh) (some enemy.mesh)
      = checkPlayerEnemyCollision g.player enemy := by
    rw [Bool.eq_iff_iff, hgame, hplayer]
    norm_num
  refine ⟨hgame _, hbullet, ?_, hsame, hplayer, ?_, ?_, ?_, ?_⟩
  · intro h
    rw [hgame]
    have := hbullet.mp h
    linarith
  · intro hmiss bi ei
    exact bulletHitsEnemy_miss g bullet bi enemy ei hmiss
  · intro hhit h1 h20 bi ei
    obtain ⟨es, -, heq⟩ := bulletHitsEnemy_hit g bullet bi enemy ei h1 h20 hhit
    exact ⟨_, heq, rfl, rfl⟩
  · intro hmiss i
    rw [← hsame] at hmiss
    simp [Game.playerHitByEnemy, hmiss]
  · intro hhit i
    rw [← hsame] at hhit
    rw [playerHitByEnemy_hit g enemy i hhit]
    exact ⟨rfl, rfl⟩

/-- C27 amended, at a fresh game with a bullet at the origin and an enemy at
`(4/5, 0, 0)`: the orchestrator counts the pair as a hit, the helper does not. -/
theorem checkCollisions_hit_tests_witness :
    Game.new.collisionManager.collisionDistance = 1 ∧
    checkCollision Game.new.collisionManager
      (some (Bullet.new (fun _ : ℚ => 1) { x := 0, y := 0, z := 0 } { x := 0, y := 0, z := -1 }).mesh)
      (some ({ Enemy.new none with
        mesh := { position := { x := 4 / 5, y := 0, z := 0 } } } : Enemy).mesh) = true ∧
    Real.sqrt ((((Bullet.new (fun _ : ℚ => 1) { x := 0, y := 0, z := 0 }
        { x := 0, y := 0, z := -1 }).mesh.position.distanceToSquared
      ({ Enemy.new none with
        mesh := { position := { x := 4 / 5, y := 0, z := 0 } } } : Enemy).mesh.position : ℚ) : ℝ))
      ≤ 1 := by
  have hhit : checkCollision Game.new.collisionManager
      (some (Bullet.new (fun _ : ℚ => 1) { x := 0, y := 0, z := 0 } { x := 0, y := 0, z := -1 }).mesh)
      (some ({ Enemy.new none with
        mesh := { position := { x := 4 / 5, y := 0, z := 0 } } } : Enemy).mesh) = true := by
    norm_num [checkCollision, Game.new, CollisionManager.new, Bullet.new, Enemy.new,
      Vector3.distanceTo, Vector3.distanceToSquared, Distance.le]
  exact ⟨rfl, hhit, (checkCollisions_hit_tests Game.new _ _ rfl).1.mp hhit⟩


/-! ## Theorems: the leash of the patrol -/

/-- After `patrol` the enemy is at height 1, unless the leash fired: then its position is
the grounded position, of length above 50, normalised and scaled to 50, height included. -/
theorem patrol_height_or_leash (sqrt : ℚ → ℚ) (draws : PatrolDraws) (e : Enemy) (dt : ℚ) :
    (e.patrol sqrt draws dt).mesh.position.y = 1 ∨
    ∃ grounded : Vector3 ℚ, grounded.y = 1 ∧ 2500 < grounded.lengthSquared ∧
      (e.patrol sqrt draws dt).mesh.position
        = (Vector3.normalize sqrt grounded).multiplyScalar 50 := by
  simp only [Enemy.patrol]
  split_ifs with hturn hleash hleash
  · right
    refine ⟨_, rfl, ?_, rfl⟩
    simp only [Vector3.length, Distance.gt, decide_eq_true_eq] at hleash
    rcases hleash.2 with h | h
    · norm_num at h
    · norm_num at h
      exact h
  · left
    rfl
  · right
    refine ⟨_, rfl, ?_, rfl⟩
    simp only [Vector3.length, Distance.gt, decide_eq_true_eq] at hleash
    rcases hleash.2 with h | h
    · norm_num at h
    · norm_num at h
      exact h
  · left
    rfl

/-- The leash, with `Math.sqrt` exact at the squared length of a grounded position farther
than 50 from the origin: the scaled position is at horizontal distance at most 50, and its
height is `50 / length`, below 1. -/
theorem leash_scaled (sqrt : ℚ → ℚ) (grounded : Vector3 ℚ) (hy : grounded.y = 1)
    (hfar : 2500 < grounded.lengthSquared)
    (h0 : 0 ≤ sqrt grounded.lengthSquared)
    (hsq : sqrt grounded.lengthSquared * sqrt grounded.lengthSquared = grounded.lengthSquared) :
    ((Vector3.normalize sqrt grounded).multiplyScalar 50).x ^ 2
      + ((Vector3.normalize sqrt grounded).multiplyScalar 50).z ^ 2 ≤ 2500 ∧
    ((Vector3.normalize sqrt grounded).multiplyScalar 50).y = 50 / sqrt grounded.lengthSquared ∧
    ((Vector3.normalize sqrt grounded).multiplyScalar 50).y < 1 := by
  have hlen : 50 < sqrt grounded.lengthSquared := by
    by_contra hle
    have hle' := not_lt.mp hle
    have : sqrt grounded.lengthSquared * sqrt grounded.lengthSquared ≤ 50 * 50 :=
      mul_le_mul hle' hle' h0 (by norm_num)
    rw [hsq] at this
    linarith
  have hpos : 0 < sqrt grounded.lengthSquared := by linarith
  have hnorm : Vector3.normalize sqrt grounded =
      { x := grounded.x / sqrt grounded.lengthSquared,
        y := grounded.y / sqrt grounded.lengthSquared,
        z := grounded.z / sqrt grounded.lengthSquared } := by
    have hpos' : sqrt (grounded.x * grounded.x + grounded.y * grounded.y
        + grounded.z * grounded.z) > 0 := hpos
    simp only [Vector3.normalize, normalizeCoords, hpos', if_true, Vector3.lengthSquared]
  rw [hnorm]
  simp only [Vector3.multiplyScalar, hy]
  refine ⟨?_, by ring, ?_⟩
  · have hxz : grounded.x ^ 2 + grounded.z ^ 2 ≤ grounded.lengthSquared := by
      simp only [Vector3.lengthSquared]
      nlinarith [mul_self_nonneg grounded.y]
    have hexp : (grounded.x / sqrt grounded.lengthSquared * 50) ^ 2
        + (grounded.z / sqrt grounded.lengthSquared * 50) ^ 2
        = 2500 * ((grounded.x ^ 2 + grounded.z ^ 2)
          / (sqrt grounded.lengthSquared * sqrt grounded.lengthSquared)) := by
      field_simp
      ring
    rw [hexp, hsq]
    have hpos2 : 0 < grounded.lengthSquared := by linarith
    have : (grounded.x ^ 2 + grounded.z ^ 2) / grounded.lengthSquared ≤ 1 :=
      (div_le_one hpos2).mpr hxz
    linarith
  · rw [one_div_mul_eq_div] 
    exact (div_lt_one hpos).mpr hlen


/-- C28: the leash rescales the height together with the horizontal coordinates. An enemy
of speed 3 at `(49.97, 1, 10)` that patrols along `(1, 0, 0)` for `dt = 0.02` is moved to
`(50, 1, 10)`, whose length is `51 > 50`; `normalize().multiplyScalar(50)` then leaves it
at `(2500/51, 50/51, 500/51)`: inside the radius 50, but at height `50/51`, not on the
ground at `y = 1`. -/
theorem patrol_leash_lifts_enemy_off_ground :
    (Enemy.patrol (fun q => if q = 2601 then 51 else 0)
        { first1 := 0, first2 := 0, turn1 := 0, turn2 := 0 }
        { Enemy.new none with
          mesh := { position := { x := 4997 / 100, y := 1, z := 10 } },
          patrolDirection := some { x := 1, y := 0, z := 0 } }
        (1 / 50)).mesh.position
      = { x := 2500 / 51, y := 50 / 51, z := 500 / 51 } ∧
    (50 / 51 : ℚ) ≠ 1 ∧
    ((2500 / 51 : ℚ)) ^ 2 + (500 / 51) ^ 2 ≤ 50 ^ 2 := by
  refine ⟨?_, by norm_num, by norm_num⟩
  norm_num [Enemy.patrol, Enemy.new, Vector3.add, Vector3.multiplyScalar, Vector3.length,
    Vector3.lengthSquared, Distance.gt, Vector3.normalize, normalizeCoords]


/-! ## Theorems: the player loop after the end of the game -/

/-- Three enemies, the first and the third overlapping the player: the player loop hits
the first, skips the second, which the splice moved to index 0, and hits the third, with
no test of `isGameOver` in between. -/
theorem playerPass_two_hits (g : Game) (e1 e2 e3 : Enemy) (he : g.enemies = [e1, e2, e3])
    (hhit1 : checkCollision g.collisionManager (some g.player.mesh) (some e1.mesh) = true)
    (hhit3 : checkCollision g.collisionManager (some g.player.mesh) (some e3.mesh) = true) :
    ∃ g1 : Game, g.checkPlayerEnemyCollisions = g1 ∧
      g1.health = g.health - e1.damage - e3.damage ∧
      g1.enemies = [e2] ∧
      g1.events = g.events ++ playerHitEvents g (g.health - e1.damage)
        ++ playerHitEvents g (g.health - e1.damage - e3.damage) := by
  have hstep1 := playerHitByEnemy_hit g e1 0 hhit1
  obtain ⟨g2, hg2⟩ : ∃ g2 : Game, g2 =
      { g with health := g.health - e1.damage,
               enemies := g.enemies.eraseIdx 0,
               isGameOver := if g.health - e1.damage ≤ 0 then true else g.isGameOver,
               events := g.events ++ playerHitEvents g (g.health - e1.damage) } := ⟨_, rfl⟩
  rw [← hg2] at hstep1
  have he2 : g2.enemies = [e2, e3] := by rw [hg2, he]; rfl
  have hhit3' : checkCollision g2.collisionManager (some g2.player.mesh) (some e3.mesh)
      = true := by rw [hg2]; exact hhit3
  have hstep2 := playerHitByEnemy_hit g2 e3 1 hhit3'
  have hvisit : g2.enemies[1]? = some e3 := by rw [he2]; rfl
  have hgone : (g2.enemies.eraseIdx 1)[2]? = none := by rw [he2]; rfl
  have hfinal : g.checkPlayerEnemyCollisions =
      { g2 with health := g2.health - e3.damage,
                enemies := g2.enemies.eraseIdx 1,
                isGameOver := if g2.health - e3.damage ≤ 0 then true else g2.isGameOver,
                events := g2.events ++ playerHitEvents g2 (g2.health - e3.damage) } := by
    simp only [Game.checkPlayerEnemyCollisions, forEachIndex, he, List.length_cons,
      List.length_nil, List.range', List.foldl_cons, List.foldl_nil, Game.playerEnemyStep,
      List.getElem?_cons_zero, hstep1, zero_add, hvisit, hstep2, hgone]
  refine ⟨_, hfinal, ?_, ?_, ?_⟩
  · show g2.health - e3.damage = _
    rw [hg2]
  · show g2.enemies.eraseIdx 1 = [e2]
    rw [he2]
    rfl
  · show g2.events ++ playerHitEvents g2 (g2.health - e3.damage) = _
    rw [hg2]
    rfl

/-- C30: the player loop of `checkCollisions` never looks at `isGameOver`. In a running
game with health 20, an `onGameOver` handler installed and three baseline enemies (damage
25) within the collision distance of the player, one call of `checkCollisions` hits the
player twice: the first hit leaves the health at -5 and ends the game, the next one visited
lowers it to -30 and runs `endGame` again, so `onGameOver` is called twice. -/
theorem checkCollisions_calls_onGameOver_twice :
    ∃ g1 : Game,
      Game.checkCollisions
          { Game.new with
            health := 20, onGameOver := true,
            enemies := [Enemy.new none,
              { Enemy.new none with mesh := { position := { x := 0, y := 1, z := 1 } } },
              { Enemy.new none with mesh := { position := { x := 1, y := 1, z := 0 } } }] }
        = .returned g1 ∧
      g1.health = -30 ∧
      g1.events.filter GameEvent.isGameOver
        = [GameEvent.gameOver 0, GameEvent.gameOver 0] ∧
      g1.enemies
        = [{ Enemy.new none with mesh := { position := { x := 0, y := 1, z := 1 } } }] := by
  obtain ⟨g, hg⟩ : ∃ g : Game, g =
      { Game.new with
        health := 20, onGameOver := true,
        enemies := [Enemy.new none,
          { Enemy.new none with mesh := { position := { x := 0, y := 1, z := 1 } } },
          { Enemy.new none with mesh := { position := { x := 1, y := 1, z := 0 } } }] } :=
    ⟨_, rfl⟩
  rw [← hg]
  have hbullets : g.checkBulletEnemyCollisions = .returned g :=
    bulletPass_no_hit g (by
      intro b hb
      rw [hg] at hb
      cases hb)
  obtain ⟨g1, hpass, hhealth, henemies, hevents⟩ := playerPass_two_hits g (Enemy.new none)
    { Enemy.new none with mesh := { position := { x := 0, y := 1, z := 1 } } }
    { Enemy.new none with mesh := { position := { x := 1, y := 1, z := 0 } } }
    (by rw [hg])
    (by
      rw [hg]
      norm_num [checkCollision, Game.new, CollisionManager.new, Player.new, Enemy.new,
        Vector3.distanceTo, Vector3.distanceToSquared, Distance.le])
    (by
      rw [hg]
      norm_num [checkCollision, Game.new, CollisionManager.new, Player.new, Enemy.new,
        Vector3.distanceTo, Vector3.distanceToSquared, Distance.le])
  refine ⟨g1, ?_, ?_, ?_, henemies⟩
  · simp only [Game.checkCollisions, hbullets, Completion.andThen, hpass]
  · rw [hhealth, hg]
    norm_num [Enemy.new]
  · rw [hevents, hg]
    norm_num [playerHitEvents, Game.new, Enemy.new, LevelManager.new, GameEvent.isGameOver,
      List.filter]

end WebglShooter
